import Mathlib

/-!
# c2ng: interpreter value codec, closures, script bindings and file loaders

A shallow embedding of

* the tagged binary value format (`interpreter::TagNode`,
  `interpreter::vmio::ValueLoader`, `interpreter::SaveVisitor`) and of
  `interpreter::Closure`, as exercised by `u/t_interpreter_vmio_valueloader.cpp` and
  `u/t_interpreter_closure.cpp`;
* the assignment and serialization members of `game/interface/beamfunction.cpp`,
  `shipcontext.cpp` and `torpedocontext.cpp`, and `IFRLen`, `IFRAdd` and `IFRXml` of
  `richtextfunctions.cpp`;
* `game::TeamSettings` (`game/teamsettings.cpp`) and the section table of
  `game::v3::ResultFile` (`game/v3/resultfile.cpp`);
* `parseCheckInstruction` and `generateOutput` of `game/parser/messageparser.cpp`.

Machine integers are natural numbers or integers with explicit bounds and conversions;
bytes are naturals below 256. A 64-bit float is kept exactly, as sign, integer mantissa and
binary exponent, so that the 6-byte real conversion can be followed bit by bit. A function
that throws gives back the exception next to the state it leaves behind.
-/

namespace C2ng

/-! ## Values -/

/-- A 64-bit float as far as the codec can tell: a finite value is kept exactly as
`(-1)^neg * mant * 2^expo` (every IEEE double has this shape, `mant = 0` being zero),
an infinite value keeps its sign. Not-a-number is left out. -/
inductive Double where
  | finite (neg : Bool) (mant : Nat) (expo : Int)
  | infinite (neg : Bool)
  deriving DecidableEq, Repr

/-- The rational number a finite float stands for; nothing for an infinity. -/
def Double.toRat : Double → Option ℚ
  | .finite neg mant expo => some ((if neg then -1 else 1) * ((mant : ℚ) * (2 : ℚ) ^ expo))
  | .infinite _ => none

/-- The magnitude of a float as a rational number; nothing for an infinity. -/
def Double.magnitude : Double → Option ℚ
  | .finite _ mant expo => some ((mant : ℚ) * (2 : ℚ) ^ expo)
  | .infinite _ => none

/-- The C++ test `fv < 0` on a float. -/
def Double.isNegative : Double → Bool
  | .finite neg mant _ => neg && decide (mant ≠ 0)
  | .infinite neg => neg

/-- The IEEE double nearest to `1.0e+100`, that is `0x1.249ad2594c37dp+332`. -/
def double_1e100 : Double := .finite false 0x1249AD2594C37D 280

/-- The IEEE double nearest to `1.0e-100`, that is `0x1.bff2ee48e0530p-333`. -/
def double_1em100 : Double := .finite false 0x1BFF2EE48E0530 (-385)

/-- The IEEE double `7.0`. -/
def double_7 : Double := .finite false 7 0

/-- The values of `afl::data::Value` the codec tests use; a null pointer is `none`.
Strings are kept as their bytes. -/
inductive Value where
  | IntegerValue (v : Int)
  | BooleanValue (v : Bool)
  | FloatValue (v : Double)
  | StringValue (s : List Nat)
  deriving DecidableEq, Repr

/-- The serialized form of one value: a 16-bit tag and a 32-bit payload
(`interpreter::TagNode`, fields `tag` and `value` as the tests set and read them). -/
structure TagNode where
  tag : Nat
  value : Nat
  deriving DecidableEq, Repr

/-- Modelled from the spec: the tag numbers of `interpreter/tagnode.hpp`, which is not among
the sources. The numbers are those of the byte table of `testLoadSegment`, whose first
byte of a node is the low byte of the tag: `0,0` real zero, `0,1` null, `0,2` integer,
`0,3` boolean, `0,4` string, `0,5` 32-bit float, `0,6` long string. -/
def Tag_FPZero : Nat := 0x0000

/-- Modelled from the spec: see `Tag_FPZero`. -/
def Tag_Empty : Nat := 0x0100

/-- Modelled from the spec: see `Tag_FPZero`. -/
def Tag_Integer : Nat := 0x0200

/-- Modelled from the spec: see `Tag_FPZero`. -/
def Tag_Boolean : Nat := 0x0300

/-- Modelled from the spec: see `Tag_FPZero`. -/
def Tag_String : Nat := 0x0400

/-- Modelled from the spec: see `Tag_FPZero`. -/
def Tag_32bitFP : Nat := 0x0500

/-- Modelled from the spec: see `Tag_FPZero`. -/
def Tag_LongString : Nat := 0x0600

/-! ## The 6-byte real -/

/-- Number of binary digits of `n`, by halving; `fuel` bounds the number of steps. -/
def bitLenAux : Nat → Nat → Nat
  | 0, _ => 0
  | fuel + 1, n => if n = 0 then 0 else bitLenAux fuel (n / 2) + 1

/-- Number of binary digits of `n`: the least `k` with `n < 2^k`. -/
def bitLen (n : Nat) : Nat := bitLenAux n n

/-- Modelled from the spec: the decoder of the legacy 48-bit real, part of
`interpreter/vmio/valueloader.cpp`, which is not among the sources. The format is 1 sign
bit, 8-bit biased exponent, 39-bit mantissa; by the byte order of the table `reals` the
exponent is the low byte of the tag, the high byte of the tag holds the lowest 8 mantissa
bits, the low 31 bits of the payload hold the upper mantissa bits and the top bit of the
payload is the sign. The value is `(1 + m / 2^39) * 2^(e - 129)`, the "standard
mantissa/exponent reconstruction with the stored sign bit applied last"; a magnitude
beyond the range of a 64-bit float (`2^1024` and up) would decode to infinity with the stored
sign, one below it (under `2^(-1074)`) to zero. No bit pattern is set apart: the node with
tag `0xFFFF` and payload `0x7FFFFFFF`, which the encoder writes for every magnitude too
large for the format, is decoded by the same rule, to `2^127 - 2^87`. Called only for a
non-zero exponent byte. -/
def makeFloat (first second : Nat) : Double :=
  let e : Int := (first % 256 : Nat)
  let m : Nat := (second % 2 ^ 31) * 256 + first / 256 % 256
  let neg : Bool := decide (second / 2 ^ 31 % 2 = 1)
  if e - 129 ≥ 1024 then .infinite neg
  else if e - 129 < -1074 then .finite false 0 0
  else .finite neg (2 ^ 39 + m) (e - 129 - 39)

/-- Modelled from the spec: the encoder of the legacy 48-bit real, part of
`interpreter/savevisitor.cpp`, which is not among the sources. Zero and every magnitude
below the smallest real (`2^(-128)`) give the all-zero node; a magnitude too large for the
format is clamped to the largest real with the sign kept (tag `0xFFFF`, payload
`0x7FFFFFFF` plus the sign bit); otherwise the binary exponent is biased by 129 into the
low byte of the tag and the leading 40 binary digits of the mantissa, without the leading
one, are spread over the high byte of the tag and the low 31 bits of the payload.
Digits past the 40th are cut off. -/
def encodeReal : Double → TagNode
  | .infinite neg => ⟨0xFFFF, 0x7FFFFFFF + (if neg then 2 ^ 31 else 0)⟩
  | .finite neg mant expo =>
    if mant = 0 then ⟨Tag_FPZero, 0⟩
    else
      -- frexp: mant * 2^expo = f * 2^exp with 1/2 ≤ f < 1
      let exp : Int := (bitLen mant : Int) + expo
      let biased : Int := exp + 128
      let sign : Nat := if neg then 2 ^ 31 else 0
      if biased ≤ 0 then ⟨Tag_FPZero, 0⟩
      else if biased > 255 then ⟨0xFFFF, 0x7FFFFFFF + sign⟩
      else
        let top : Nat :=
          if bitLen mant ≤ 40 then mant * 2 ^ (40 - bitLen mant)
          else mant / 2 ^ (bitLen mant - 40)
        let frac : Nat := top - 2 ^ 39
        ⟨biased.toNat + 256 * (frac % 256), frac / 256 + sign⟩

/-- Modelled from the spec: the decoder of tag `Tag_32bitFP` (an IEEE single in the
payload), part of `interpreter/vmio/valueloader.cpp`, which is not among the sources; the
table of `testLoadSegment` has one such node (`0x40400000`, the float 3.0). A
not-a-number pattern gives nothing. -/
def makeFloat32 (v : Nat) : Option Double :=
  let neg : Bool := decide (v / 2 ^ 31 % 2 = 1)
  let e : Nat := v / 2 ^ 23 % 256
  let m : Nat := v % 2 ^ 23
  if e = 255 then (if m = 0 then some (.infinite neg) else none)
  else if e = 0 then some (.finite neg m (-149))
  else some (.finite neg (2 ^ 23 + m) ((e : Int) - 150))

/-- A 32-bit payload read as a two's complement number (`int32_t`). -/
def toInt32 (p : Nat) : Int :=
  if p % 2 ^ 32 < 2 ^ 31 then (p % 2 ^ 32 : Nat) else ((p % 2 ^ 32 : Nat) : Int) - 2 ^ 32

/-- An `int32_t` as its 32-bit pattern (`uint32_t`). -/
def toUInt32 (v : Int) : Nat := (v % 2 ^ 32).toNat

/-! ## Streams and segments -/

/-- What loading can fail with: the stream ends before the requested bytes, or the tag
node is none of the kinds handled here. -/
inductive Error where
  | fileTooShort
  | invalidValue
  deriving DecidableEq, Repr

/-- A read-only memory stream (`afl::io::ConstMemoryStream`): the bytes and the read
position reported by `getPos()`. -/
structure Stream where
  data : List Nat
  pos : Nat
  deriving DecidableEq, Repr

/-- Reads exactly `n` bytes and advances the position, or fails if fewer remain
(`afl::io::Stream::fullRead`). -/
def Stream.fullRead (s : Stream) (n : Nat) : Except Error (List Nat × Stream) :=
  if s.pos + n ≤ s.data.length then
    .ok ((s.data.drop s.pos).take n, { s with pos := s.pos + n })
  else .error .fileTooShort

/-- A data segment (`afl::data::Segment`): a growable array of value pointers. -/
structure Segment where
  content : List (Option Value)
  deriving DecidableEq, Repr

/-- The element access `seg[i]`: a slot past the end reads as null. -/
def Segment.get (seg : Segment) (i : Nat) : Option Value :=
  (seg.content.get? i).join

/-- The number of slots, `size()`. -/
def Segment.size (seg : Segment) : Nat := seg.content.length

/-- The store `setNew(i, v)`: replaces slot `i`, growing the array with nulls if needed. -/
def Segment.setNew (seg : Segment) (i : Nat) (v : Option Value) : Segment :=
  if i < seg.content.length then ⟨seg.content.set i v⟩
  else ⟨seg.content ++ List.replicate (i - seg.content.length) none ++ [v]⟩

/-- The append `pushBackNew(v)`. -/
def Segment.pushBackNew (seg : Segment) (v : Option Value) : Segment :=
  ⟨seg.content ++ [v]⟩

/-! ## ValueLoader -/

/-- Modelled from the spec: `ValueLoader::loadValue` of `interpreter/vmio/valueloader.cpp`,
which is not among the sources. A tag with a non-zero low byte is a 6-byte real; otherwise
the tag names the kind: real zero, null, integer (payload in two's complement), boolean
(payload 0/1), string (payload 0 is the empty string, any other payload a length byte and
that many bytes in the auxiliary stream), 32-bit float, long string (payload is the byte
count in the auxiliary stream). Other tags are not handled here. -/
def ValueLoader.loadValue (tag : TagNode) (aux : Stream) :
    Except Error (Option Value × Stream) :=
  if tag.tag % 256 ≠ 0 then
    .ok (some (.FloatValue (makeFloat tag.tag tag.value)), aux)
  else if tag.tag = Tag_FPZero then
    .ok (some (.FloatValue (.finite false 0 0)), aux)
  else if tag.tag = Tag_Empty then
    .ok (none, aux)
  else if tag.tag = Tag_Integer then
    .ok (some (.IntegerValue (toInt32 tag.value)), aux)
  else if tag.tag = Tag_Boolean then
    .ok (some (.BooleanValue (decide (tag.value ≠ 0))), aux)
  else if tag.tag = Tag_String then
    if tag.value = 0 then .ok (some (.StringValue []), aux)
    else
      match aux.fullRead 1 with
      | .ok (len, aux1) =>
        match aux1.fullRead (len.headD 0) with
        | .ok (bytes, aux2) => .ok (some (.StringValue bytes), aux2)
        | .error e => .error e
      | .error e => .error e
  else if tag.tag = Tag_32bitFP then
    match makeFloat32 tag.value with
    | some d => .ok (some (.FloatValue d), aux)
    | none => .error .invalidValue
  else if tag.tag = Tag_LongString then
    match aux.fullRead tag.value with
    | .ok (bytes, aux1) => .ok (some (.StringValue bytes), aux1)
    | .error e => .error e
  else .error .invalidValue

/-- Cuts a block of header bytes into tag nodes of 6 bytes each, little-endian, the way
`testReal` builds `tagIn`: tag from bytes 0 and 1, payload from bytes 2 to 5. -/
def parseNodes : List Nat → List TagNode
  | b0 :: b1 :: b2 :: b3 :: b4 :: b5 :: rest =>
    ⟨b0 + 256 * b1, b2 + 256 * b3 + 65536 * b4 + 16777216 * b5⟩ :: parseNodes rest
  | _ => []

/-- Modelled from the spec: the slot loop of `ValueLoader::load`, which is not among the
sources. Loads the values of the given tag nodes one after the other into consecutive
slots, starting at `slot`; each string takes its bytes from the stream as it is reached. -/
def loadSlots : List TagNode → Nat → Segment → Stream → Except Error (Segment × Stream)
  | [], _, seg, s => .ok (seg, s)
  | node :: rest, slot, seg, s =>
    match ValueLoader.loadValue node s with
    | .ok (v, s1) => loadSlots rest (slot + 1) (seg.setNew slot v) s1
    | .error e => .error e

/-- Modelled from the spec: `ValueLoader::load(Segment&, Stream&, first, slots)` of
`interpreter/vmio/valueloader.cpp`, which is not among the sources. Reads `slots` tag nodes
of 6 bytes, then the values they describe into slots `first`, `first+1`, ...; the
layout (all headers first, string data after them in slot order) is that of the byte
tables of `testLoadSegment`. -/
def ValueLoader.load (seg : Segment) (s : Stream) (first slots : Nat) :
    Except Error (Segment × Stream) :=
  match s.fullRead (6 * slots) with
  | .ok (hdr, s1) => loadSlots (parseNodes hdr) first seg s1
  | .error e => .error e

/-- The number of auxiliary bytes that belong to a node, given the value it was loaded as:
a length byte plus the text for a non-empty short string, the text for a long string,
nothing otherwise. -/
def auxBytes (node : TagNode) (v : Option Value) : Nat :=
  match v with
  | some (.StringValue s) =>
    if node.tag = Tag_String then (if node.value = 0 then 0 else 1 + s.length)
    else s.length
  | _ => 0

/-- The auxiliary bytes of a run of nodes, given the values found in the slots `slot`,
`slot+1`, ... of a segment. -/
def auxTotal : List TagNode → Segment → Nat → Nat
  | [], _, _ => 0
  | node :: rest, seg, slot => auxBytes node (seg.get slot) + auxTotal rest seg (slot + 1)

/-! ## SaveVisitor -/

/-- Modelled from the spec: `SaveVisitor::visit` of `interpreter/savevisitor.cpp`, which is
not among the sources. Gives the tag node written to `tagOut` and the bytes appended to
the auxiliary sink: null, integer, boolean and float values use no auxiliary bytes, a
string is written as its byte count with the bytes in the auxiliary sink. -/
def SaveVisitor.visit : Option Value → TagNode × List Nat
  | none => (⟨Tag_Empty, 0⟩, [])
  | some (.IntegerValue v) => (⟨Tag_Integer, toUInt32 v⟩, [])
  | some (.BooleanValue b) => (⟨Tag_Boolean, if b then 1 else 0⟩, [])
  | some (.FloatValue d) => (encodeReal d, [])
  | some (.StringValue s) => (⟨Tag_LongString, s.length⟩, s)

/-! ## Test data of `u/t_interpreter_vmio_valueloader.cpp` -/

/-- The byte table `data` of `testLoadSegment`. -/
def testLoadSegment_data : List Nat :=
  [0, 0, 0, 0, 0, 0,
   0, 2, 5, 4, 0, 0,
   0, 1, 0, 0, 0, 0,
   0, 4, 0, 0, 0, 0,
   0, 3, 1, 0, 0, 0,
   0, 6, 7, 0, 0, 0,
   0, 4, 0, 0, 1, 0,
   0x83, 0, 0, 0, 0, 0x20,
   0, 5, 0, 0, 0x40, 0x40,
   97, 98, 99, 100, 101, 102, 103,
   3, 88, 89, 90,
   49, 50, 51]

/-- The byte table `data` of `testLoadSegment2`. -/
def testLoadSegment2_data : List Nat :=
  [0, 2, 5, 4, 0, 0,
   0, 1, 0, 0, 0, 0]

/-- The segment `[null, null, 42, 23]` that `testLoadSegment2` sets up. -/
def testLoadSegment2_seg : Segment :=
  ((Segment.mk []).setNew 2 (some (.IntegerValue 42))).setNew 3 (some (.IntegerValue 23))

/-! ## Closures -/

/-- The interface of `interpreter::CallableValue` that a closure uses: `call` works on the
state of the process and of the callee (`σ`) with the argument segment and the
`want_result` flag, `getDimension` answers for one index. -/
structure CallableValue (σ : Type) where
  call : σ → Segment → Bool → σ
  getDimension : Int → Int

/-- Modelled from the spec: the state of an `interpreter::Closure` of
`interpreter/closure.cpp`, which is not among the sources: the base callable and the
ordered bound arguments. -/
structure Closure (σ : Type) where
  function : CallableValue σ
  fixedArgs : Segment

/-- Modelled from the spec: `new Closure()` followed by `setNewFunction(base)`: a closure
over `base` that binds no argument yet. -/
def Closure.setNewFunction {σ : Type} (base : CallableValue σ) : Closure σ :=
  ⟨base, ⟨[]⟩⟩

/-- Modelled from the spec: `Closure::addNewArgument(value)` appends one value to the bound
arguments. -/
def Closure.addNewArgument {σ : Type} (c : Closure σ) (v : Option Value) : Closure σ :=
  { c with fixedArgs := c.fixedArgs.pushBackNew v }

/-- Modelled from the spec: `Closure::addNewArgumentsFrom(segment, count)` appends the last
`count` values of the segment, in their order, to the bound arguments. -/
def Closure.addNewArgumentsFrom {σ : Type} (c : Closure σ) (args : Segment) (count : Nat) :
    Closure σ :=
  { c with fixedArgs :=
      ⟨c.fixedArgs.content ++ args.content.drop (args.content.length - count)⟩ }

/-- Modelled from the spec: `Closure::call(process, args, wantResult)` "invokes the base
with bound-arguments prepended to `args`, forwarding `wantResult`". -/
def Closure.call {σ : Type} (c : Closure σ) (proc : σ) (args : Segment) (wantResult : Bool) :
    σ :=
  c.function.call proc ⟨c.fixedArgs.content ++ args.content⟩ wantResult

/-- Modelled from the spec: `Closure::getDimension(which)`. For index 0 the dimension of the
base "minus the number of bound arguments", "never negative": the difference is clamped at
0. For another index the answer of the base for the index moved up by the number of bound
arguments, which is what `testClosure` observes (5, 15, 25 at index 1 with 0, 2, 4 bound
arguments over a base answering `5*which`). -/
def Closure.getDimension {σ : Type} (c : Closure σ) (which : Int) : Int :=
  if which = 0 then max (c.function.getDimension 0 - (c.fixedArgs.size : Int)) 0
  else c.function.getDimension (which + (c.fixedArgs.size : Int))

/-- `MyCallable::getDimension` of `u/t_interpreter_closure.cpp`; the product `5*which` is
an `int32_t`. -/
def MyCallable.getDimension (which : Int) : Int :=
  if which = 0 then 7 else toInt32 (toUInt32 (5 * which))

/-- `MyCallable::call` of `u/t_interpreter_closure.cpp`: folds the arguments into the
state string, each followed by a comma, then `y` or `n` for the flag. The renderer
`interpreter::toString` is not among the sources and is taken as a parameter. -/
def MyCallable.call (toString : Option Value → Bool → String) (m_state : String)
    (args : Segment) (want_result : Bool) : String :=
  (args.content.foldl (fun st a => st ++ toString a true ++ ",") m_state)
    ++ (if want_result then "y" else "n")

/-- The test callable `MyCallable` as a base for closures; its state is `m_state`. -/
def MyCallable (toString : Option Value → Bool → String) : CallableValue String :=
  ⟨MyCallable.call toString, MyCallable.getDimension⟩

/-- A base callable that only records each invocation: the argument list and the flag it
was called with, in call order. -/
def recordingCallable (dim : Int → Int) : CallableValue (List (List (Option Value) × Bool)) :=
  ⟨fun log args want => log ++ [(args.content, want)], dim⟩

/-- Modelled from the spec: `interpreter::toString(value, readable)` of
`interpreter/values.cpp`, which is not among the sources, for the values `testClosure`
passes and as its expected strings show them (`3`, `"zz"`, `True`): decimal integers,
quoted strings, `True`/`False`. -/
def testToString (v : Option Value) (_readable : Bool) : String :=
  match v with
  | some (.IntegerValue i) => toString i
  | some (.BooleanValue b) => if b then "True" else "False"
  | some (.StringValue s) => "\"" ++ String.mk (s.map Char.ofNat) ++ "\""
  | _ => ""

/-- The closure of `testClosure` after `addNewArgument(3)` and `addNewArgument("zz")`. -/
def testClosure_c2 (toString : Option Value → Bool → String) : Closure String :=
  ((Closure.setNewFunction (MyCallable toString)).addNewArgument
    (some (.IntegerValue 3))).addNewArgument (some (.StringValue [122, 122]))

/-- The segment `a` of `testClosure`: 999, 42, True. -/
def testClosure_a : Segment :=
  (((Segment.mk []).pushBackNew (some (.IntegerValue 999))).pushBackNew
    (some (.IntegerValue 42))).pushBackNew (some (.BooleanValue true))

/-- The argument segment `dseg` of `testClosure`: 1, 9, 5. -/
def testClosure_dseg : Segment :=
  (((Segment.mk []).pushBackNew (some (.IntegerValue 1))).pushBackNew
    (some (.IntegerValue 9))).pushBackNew (some (.IntegerValue 5))

/-! ## Exceptions and outcomes -/

/-- The exceptions the embedded functions throw: the two named constructors of
`interpreter::Error` the sources use (`Error::notAssignable()`,
`Error::notSerializable()`), an `interpreter::Error` built from a text,
and `afl::except::FileFormatException` (or an exception of a class derived from it) with
its message. -/
inductive Exception where
  | notAssignable
  | notSerializable
  | error (msg : String)
  | FileFormatException (msg : String)
  deriving DecidableEq, Repr

/-- What a `void` member function leaves behind: the state it worked on and the
exception it threw, if any. -/
structure Outcome (σ : Type) where
  state : σ
  thrown : Option Exception

/-! ## `game/interface/beamfunction.cpp` -/

/-- The function `BeamFunction::store`: throws `notSerializable`; the tag node
and the auxiliary sink are not touched. The state is the pair of both; the charset and the
save context are of any type. -/
def BeamFunction.store {Session Charset SaveContext : Type} (_self : Session)
    (out : TagNode) (aux : List Nat) (_cs : Charset) (_ctx : Option SaveContext) :
    Outcome (TagNode × List Nat) :=
  ⟨(out, aux), some .notSerializable⟩

/-- The function `MyCallable::store` of `u/t_interpreter_closure.cpp`: throws
`notSerializable` as well. -/
def MyCallable.store {Charset SaveContext : Type} (_m_state : String)
    (out : TagNode) (aux : List Nat) (_cs : Charset) (_ctx : Option SaveContext) :
    Outcome (TagNode × List Nat) :=
  ⟨(out, aux), some .notSerializable⟩

/-- The function `BeamFunction::set`: throws `notAssignable` whatever the
arguments and the value are. The state `σ` is everything the call could reach: the
session, the argument list, the value. -/
def BeamFunction.set {σ Arguments : Type} (st : σ) (_args : Arguments)
    (_value : Option Value) : Outcome σ :=
  ⟨st, some .notAssignable⟩

/-! ## `game/interface/shipcontext.cpp` -/

/-- The enumeration `ShipDomain`. -/
inductive ShipDomain where
  | ShipPropertyDomain
  | HullPropertyDomain
  | ComponentPropertyDomain
  | OwnerPropertyDomain
  | EnemyPropertyDomain
  | ShipMethodDomain
  deriving DecidableEq, Repr

/-- The type hints of `interpreter/typehint.hpp` that the tables name. -/
inductive TypeHint where
  | thString
  | thInt
  | thBool
  | thArray
  | thProcedure
  | thFloat
  deriving DecidableEq, Repr

/-- One row of an `interpreter::NameTable`: property name, the enumerator the row maps to
(kept by its name, the headers that number the enumerators are not among the sources),
domain and type hint. -/
structure NameTable (Domain : Type) where
  name : String
  index : String
  domain : Domain
  type : TypeHint
  deriving DecidableEq, Repr

/-- The table `ship_mapping`, row by row (rows commented out in the source are left out,
as the compiler does). -/
def ship_mapping : List (NameTable ShipDomain) :=
  [
   NameTable.mk "AUX" "ispAuxName" ShipDomain.ShipPropertyDomain TypeHint.thString,
   NameTable.mk "AUX$" "ispAuxId" ShipDomain.ShipPropertyDomain TypeHint.thInt,
   NameTable.mk "AUX.AMMO" "ispAuxAmmo" ShipDomain.ShipPropertyDomain TypeHint.thInt,
   NameTable.mk "AUX.COUNT" "ispAuxCount" ShipDomain.ShipPropertyDomain TypeHint.thInt,
   NameTable.mk "AUX.SHORT" "ispAuxShort" ShipDomain.ShipPropertyDomain TypeHint.thString,
   NameTable.mk "BEAM" "ispBeamName" ShipDomain.ShipPropertyDomain TypeHint.thString,
   NameTable.mk "BEAM$" "ispBeamId" ShipDomain.ShipPropertyDomain TypeHint.thInt,
   NameTable.mk "BEAM.COUNT" "ispBeamCount" ShipDomain.ShipPropertyDomain TypeHint.thInt,
   NameTable.mk "BEAM.SHORT" "ispBeamShort" ShipDomain.ShipPropertyDomain TypeHint.thString,
   NameTable.mk "CARGO.COLONISTS" "ispCargoColonists" ShipDomain.ShipPropertyDomain TypeHint.thInt,
   NameTable.mk "CARGO.D" "ispCargoD" ShipDomain.ShipPropertyDomain TypeHint.thInt,
   NameTable.mk "CARGO.FREE" "ispCargoFree" ShipDomain.ShipPropertyDomain TypeHint.thInt,
   NameTable.mk "CARGO.M" "ispCargoM" ShipDomain.ShipPropertyDomain TypeHint.thInt,
   NameTable.mk "CARGO.MONEY" "ispCargoMoney" ShipDomain.ShipPropertyDomain TypeHint.thInt,
   NameTable.mk "CARGO.N" "ispCargoN" ShipDomain.ShipPropertyDomain TypeHint.thInt,
   NameTable.mk "CARGO.STR" "ispCargoStr" ShipDomain.ShipPropertyDomain TypeHint.thString,
   NameTable.mk "CARGO.SUPPLIES" "ispCargoSupplies" ShipDomain.ShipPropertyDomain TypeHint.thInt,
   NameTable.mk "CARGO.T" "ispCargoT" ShipDomain.ShipPropertyDomain TypeHint.thInt,
   NameTable.mk "CREW" "ispCrew" ShipDomain.ShipPropertyDomain TypeHint.thInt,
   NameTable.mk "DAMAGE" "ispDamage" ShipDomain.ShipPropertyDomain TypeHint.thInt,
   NameTable.mk "ENEMY" "iplShortName" ShipDomain.EnemyPropertyDomain TypeHint.thString,
   NameTable.mk "ENEMY$" "ispEnemyId" ShipDomain.ShipPropertyDomain TypeHint.thInt,
   NameTable.mk "ENEMY.ADJ" "iplAdjName" ShipDomain.EnemyPropertyDomain TypeHint.thString,
   NameTable.mk "ENGINE" "ispEngineName" ShipDomain.ShipPropertyDomain TypeHint.thString,
   NameTable.mk "ENGINE$" "ispEngineId" ShipDomain.ShipPropertyDomain TypeHint.thInt,
   NameTable.mk "FCODE" "ispFCode" ShipDomain.ShipPropertyDomain TypeHint.thString,
   NameTable.mk "FIGHTER.BAYS" "ispFighterBays" ShipDomain.ShipPropertyDomain TypeHint.thInt,
   NameTable.mk "FIGHTER.COUNT" "ispFighterCount" ShipDomain.ShipPropertyDomain TypeHint.thInt,
   NameTable.mk "FLEET" "ispFleet" ShipDomain.ShipPropertyDomain TypeHint.thString,
   NameTable.mk "FLEET$" "ispFleetId" ShipDomain.ShipPropertyDomain TypeHint.thInt,
   NameTable.mk "FLEET.NAME" "ispFleetName" ShipDomain.ShipPropertyDomain TypeHint.thString,
   NameTable.mk "FLEET.STATUS" "ispFleetStatus" ShipDomain.ShipPropertyDomain TypeHint.thString,
   NameTable.mk "HASFUNCTION" "ispHasFunction" ShipDomain.ShipPropertyDomain TypeHint.thArray,
   NameTable.mk "HEADING" "ispHeadingName" ShipDomain.ShipPropertyDomain TypeHint.thString,
   NameTable.mk "HEADING$" "ispHeadingAngle" ShipDomain.ShipPropertyDomain TypeHint.thInt,
   NameTable.mk "HULL" "icpName" ShipDomain.ComponentPropertyDomain TypeHint.thString,
   NameTable.mk "HULL$" "icpId" ShipDomain.ComponentPropertyDomain TypeHint.thInt,
   NameTable.mk "HULL.SHORT" "icpNameShort" ShipDomain.ComponentPropertyDomain TypeHint.thString,
   NameTable.mk "HULL.SPECIAL" "ispHullSpecial" ShipDomain.ShipPropertyDomain TypeHint.thString,
   NameTable.mk "ID" "ispId" ShipDomain.ShipPropertyDomain TypeHint.thInt,
   NameTable.mk "LEVEL" "ispLevel" ShipDomain.ShipPropertyDomain TypeHint.thInt,
   NameTable.mk "LOC" "ispLoc" ShipDomain.ShipPropertyDomain TypeHint.thString,
   NameTable.mk "LOC.X" "ispLocX" ShipDomain.ShipPropertyDomain TypeHint.thInt,
   NameTable.mk "LOC.Y" "ispLocY" ShipDomain.ShipPropertyDomain TypeHint.thInt,
   NameTable.mk "MARK" "ismMark" ShipDomain.ShipMethodDomain TypeHint.thProcedure,
   NameTable.mk "MARKED" "ispMarked" ShipDomain.ShipPropertyDomain TypeHint.thBool,
   NameTable.mk "MASS" "ispMass" ShipDomain.ShipPropertyDomain TypeHint.thInt,
   NameTable.mk "MISSION" "ispMissionName" ShipDomain.ShipPropertyDomain TypeHint.thString,
   NameTable.mk "MISSION$" "ispMissionId" ShipDomain.ShipPropertyDomain TypeHint.thInt,
   NameTable.mk "MISSION.INTERCEPT" "ispMissionIntercept" ShipDomain.ShipPropertyDomain TypeHint.thInt,
   NameTable.mk "MISSION.SHORT" "ispMissionShort" ShipDomain.ShipPropertyDomain TypeHint.thString,
   NameTable.mk "MISSION.TOW" "ispMissionTow" ShipDomain.ShipPropertyDomain TypeHint.thInt,
   NameTable.mk "MOVE.ETA" "ispMoveETA" ShipDomain.ShipPropertyDomain TypeHint.thInt,
   NameTable.mk "MOVE.FUEL" "ispMoveFuel" ShipDomain.ShipPropertyDomain TypeHint.thInt,
   NameTable.mk "NAME" "ispName" ShipDomain.ShipPropertyDomain TypeHint.thString,
   NameTable.mk "ORBIT" "ispOrbitName" ShipDomain.ShipPropertyDomain TypeHint.thString,
   NameTable.mk "ORBIT$" "ispOrbitId" ShipDomain.ShipPropertyDomain TypeHint.thInt,
   NameTable.mk "OWNER" "iplShortName" ShipDomain.OwnerPropertyDomain TypeHint.thString,
   NameTable.mk "OWNER$" "iplId" ShipDomain.OwnerPropertyDomain TypeHint.thInt,
   NameTable.mk "OWNER.ADJ" "iplAdjName" ShipDomain.OwnerPropertyDomain TypeHint.thString,
   NameTable.mk "OWNER.REAL" "ispRealOwner" ShipDomain.ShipPropertyDomain TypeHint.thInt,
   NameTable.mk "PLAYED" "ispPlayed" ShipDomain.ShipPropertyDomain TypeHint.thBool,
   NameTable.mk "SCORE" "ispScore" ShipDomain.ShipPropertyDomain TypeHint.thArray,
   NameTable.mk "SPEED" "ispSpeedName" ShipDomain.ShipPropertyDomain TypeHint.thString,
   NameTable.mk "SPEED$" "ispSpeedId" ShipDomain.ShipPropertyDomain TypeHint.thInt,
   NameTable.mk "TASK" "ispTask" ShipDomain.ShipPropertyDomain TypeHint.thBool,
   NameTable.mk "TECH.HULL" "icpTech" ShipDomain.ComponentPropertyDomain TypeHint.thInt,
   NameTable.mk "TORP" "ispTorpName" ShipDomain.ShipPropertyDomain TypeHint.thString,
   NameTable.mk "TORP$" "ispTorpId" ShipDomain.ShipPropertyDomain TypeHint.thInt,
   NameTable.mk "TORP.COUNT" "ispTorpCount" ShipDomain.ShipPropertyDomain TypeHint.thInt,
   NameTable.mk "TORP.LCOUNT" "ispTorpLCount" ShipDomain.ShipPropertyDomain TypeHint.thInt,
   NameTable.mk "TORP.SHORT" "ispTorpShort" ShipDomain.ShipPropertyDomain TypeHint.thString,
   NameTable.mk "TRANSFER.SHIP" "ispTransferShip" ShipDomain.ShipPropertyDomain TypeHint.thBool,
   NameTable.mk "TRANSFER.SHIP.COLONISTS" "ispTransferShipColonists" ShipDomain.ShipPropertyDomain TypeHint.thInt,
   NameTable.mk "TRANSFER.SHIP.D" "ispTransferShipD" ShipDomain.ShipPropertyDomain TypeHint.thInt,
   NameTable.mk "TRANSFER.SHIP.ID" "ispTransferShipId" ShipDomain.ShipPropertyDomain TypeHint.thInt,
   NameTable.mk "TRANSFER.SHIP.M" "ispTransferShipM" ShipDomain.ShipPropertyDomain TypeHint.thInt,
   NameTable.mk "TRANSFER.SHIP.N" "ispTransferShipN" ShipDomain.ShipPropertyDomain TypeHint.thInt,
   NameTable.mk "TRANSFER.SHIP.NAME" "ispTransferShipName" ShipDomain.ShipPropertyDomain TypeHint.thInt,
   NameTable.mk "TRANSFER.SHIP.SUPPLIES" "ispTransferShipSupplies" ShipDomain.ShipPropertyDomain TypeHint.thInt,
   NameTable.mk "TRANSFER.SHIP.T" "ispTransferShipT" ShipDomain.ShipPropertyDomain TypeHint.thInt,
   NameTable.mk "TRANSFER.UNLOAD" "ispTransferUnload" ShipDomain.ShipPropertyDomain TypeHint.thBool,
   NameTable.mk "TRANSFER.UNLOAD.COLONISTS" "ispTransferUnloadColonists" ShipDomain.ShipPropertyDomain TypeHint.thInt,
   NameTable.mk "TRANSFER.UNLOAD.D" "ispTransferUnloadD" ShipDomain.ShipPropertyDomain TypeHint.thInt,
   NameTable.mk "TRANSFER.UNLOAD.ID" "ispTransferUnloadId" ShipDomain.ShipPropertyDomain TypeHint.thInt,
   NameTable.mk "TRANSFER.UNLOAD.M" "ispTransferUnloadM" ShipDomain.ShipPropertyDomain TypeHint.thInt,
   NameTable.mk "TRANSFER.UNLOAD.N" "ispTransferUnloadN" ShipDomain.ShipPropertyDomain TypeHint.thInt,
   NameTable.mk "TRANSFER.UNLOAD.NAME" "ispTransferUnloadName" ShipDomain.ShipPropertyDomain TypeHint.thInt,
   NameTable.mk "TRANSFER.UNLOAD.SUPPLIES" "ispTransferUnloadSupplies" ShipDomain.ShipPropertyDomain TypeHint.thInt,
   NameTable.mk "TRANSFER.UNLOAD.T" "ispTransferUnloadT" ShipDomain.ShipPropertyDomain TypeHint.thInt,
   NameTable.mk "TYPE" "ispTypeStr" ShipDomain.ShipPropertyDomain TypeHint.thString,
   NameTable.mk "TYPE.SHORT" "ispTypeChar" ShipDomain.ShipPropertyDomain TypeHint.thString,
   NameTable.mk "UNMARK" "ismUnmark" ShipDomain.ShipMethodDomain TypeHint.thProcedure,
   NameTable.mk "WAYPOINT" "ispWaypointName" ShipDomain.ShipPropertyDomain TypeHint.thString,
   NameTable.mk "WAYPOINT.DIST" "ispWaypointDistance" ShipDomain.ShipPropertyDomain TypeHint.thFloat,
   NameTable.mk "WAYPOINT.DX" "ispWaypointDX" ShipDomain.ShipPropertyDomain TypeHint.thInt,
   NameTable.mk "WAYPOINT.DY" "ispWaypointDY" ShipDomain.ShipPropertyDomain TypeHint.thInt,
   NameTable.mk "WAYPOINT.PLANET" "ispWaypointPlanetId" ShipDomain.ShipPropertyDomain TypeHint.thInt,
   NameTable.mk "WAYPOINT.X" "ispWaypointX" ShipDomain.ShipPropertyDomain TypeHint.thInt,
   NameTable.mk "WAYPOINT.Y" "ispWaypointY" ShipDomain.ShipPropertyDomain TypeHint.thInt
  ]

/-- The constant `NUM_SHIP_PROPERTIES = countof(ship_mapping)`. -/
def NUM_SHIP_PROPERTIES : Nat := ship_mapping.length

/-- What `ShipContext::set` calls outside the file, over a state `σ` that holds the
session, the game and the ship: whether `getObject()` finds a ship object,
`setShipProperty` of `game/interface/shipproperty.hpp`, the store into the user-defined
ship properties (`shipProperties().create(m_id)` and `seg->set`), and `markDirty()`.
None of these is among the sources; they are parameters. -/
structure ShipContextEnv (σ : Type) where
  getObject : σ → Bool
  setShipProperty : σ → String → Option Value → Outcome σ
  setUserProperty : σ → Nat → Option Value → σ
  markDirty : σ → σ

/-- The function `ShipContext::set(index, value)`. -/
def ShipContext.set {σ : Type} (env : ShipContextEnv σ) (st : σ) (index : Nat)
    (value : Option Value) : Outcome σ :=
  if env.getObject st then
    if index < NUM_SHIP_PROPERTIES then
      match ship_mapping[index]? with
      | some row =>
        match row.domain with
        | .ShipPropertyDomain => env.setShipProperty st row.index value
        | .HullPropertyDomain => ⟨st, some .notAssignable⟩
        | .ComponentPropertyDomain => ⟨st, some .notAssignable⟩
        | .OwnerPropertyDomain => ⟨st, some .notAssignable⟩
        | .EnemyPropertyDomain => ⟨st, some .notAssignable⟩
        | .ShipMethodDomain => ⟨st, some .notAssignable⟩
      | none => ⟨st, none⟩
    else
      ⟨env.markDirty (env.setUserProperty st (index - NUM_SHIP_PROPERTIES) value), none⟩
  else
    ⟨st, some .notAssignable⟩

/-! ## `game/interface/torpedocontext.cpp` -/

/-- The enumeration `TorpedoDomain`. -/
inductive TorpedoDomain where
  | ComponentPropertyDomain
  | WeaponPropertyDomain
  deriving DecidableEq, Repr

/-- The table `torpedo_map`. -/
def torpedo_map : List (NameTable TorpedoDomain) :=
  [
   NameTable.mk "COST.D" "icpCostD" TorpedoDomain.ComponentPropertyDomain TypeHint.thInt,
   NameTable.mk "COST.M" "icpCostM" TorpedoDomain.ComponentPropertyDomain TypeHint.thInt,
   NameTable.mk "COST.MC" "icpCostMC" TorpedoDomain.ComponentPropertyDomain TypeHint.thInt,
   NameTable.mk "COST.STR" "icpCostStr" TorpedoDomain.ComponentPropertyDomain TypeHint.thString,
   NameTable.mk "COST.T" "icpCostT" TorpedoDomain.ComponentPropertyDomain TypeHint.thInt,
   NameTable.mk "DAMAGE" "iwpDamage" TorpedoDomain.WeaponPropertyDomain TypeHint.thInt,
   NameTable.mk "ID" "icpId" TorpedoDomain.ComponentPropertyDomain TypeHint.thInt,
   NameTable.mk "KILL" "iwpKill" TorpedoDomain.WeaponPropertyDomain TypeHint.thInt,
   NameTable.mk "MASS" "icpMass" TorpedoDomain.ComponentPropertyDomain TypeHint.thInt,
   NameTable.mk "NAME" "icpName" TorpedoDomain.ComponentPropertyDomain TypeHint.thString,
   NameTable.mk "NAME.SHORT" "icpNameShort" TorpedoDomain.ComponentPropertyDomain TypeHint.thString,
   NameTable.mk "TECH" "icpTech" TorpedoDomain.ComponentPropertyDomain TypeHint.thInt,
   NameTable.mk "TECH.TORPEDO" "icpTech" TorpedoDomain.ComponentPropertyDomain TypeHint.thInt
  ]

/-- What `TorpedoContext::set` calls outside the file, over a state `σ` that holds the
ship list: whether `launchers().get(m_number)` finds the launcher, and
`setComponentProperty` of `game/interface/componentproperty.hpp`. Parameters, as the
sources do not have them. -/
structure TorpedoContextEnv (σ : Type) where
  getLauncher : σ → Bool
  setComponentProperty : σ → String → Option Value → Outcome σ

/-- The function `TorpedoContext::set(index, value)`. The source indexes `torpedo_map`
without a range check; for an index past the table, with the launcher present, the
behaviour is not defined and the result is `none`. -/
def TorpedoContext.set {σ : Type} (env : TorpedoContextEnv σ) (st : σ) (index : Nat)
    (value : Option Value) : Option (Outcome σ) :=
  if env.getLauncher st then
    match torpedo_map[index]? with
    | some row =>
      match row.domain with
      | .ComponentPropertyDomain => some (env.setComponentProperty st row.index value)
      | .WeaponPropertyDomain => some ⟨st, some .notAssignable⟩
    | none => none
  else
    some ⟨st, some .notAssignable⟩

/-! ## `game/v3/resultfile.cpp` -/

/-- The members of `ResultFile` that `setSectionAddress`, `hasSection` and
`getSectionOffset` use: the version and the offset of each section, by section number. -/
structure ResultFile where
  m_version : Int
  m_offset : Nat → Nat

/-- An `int32_t` converted to `afl::io::Stream::FileSize_t`, an unsigned 64-bit number. -/
def toFileSize (v : Int) : Nat := (v % 2 ^ 64).toNat

/-- The function `ResultFile::hasSection`. -/
def ResultFile.hasSection (rf : ResultFile) (sec : Nat) : Bool :=
  decide (rf.m_offset sec > 0)

/-- The function `ResultFile::getSectionOffset(section, offset)`: the returned flag and the
content of the output parameter `offset` after the call. -/
def ResultFile.getSectionOffset (rf : ResultFile) (sec : Nat) (offset : Nat) : Bool × Nat :=
  if rf.hasSection sec then (true, rf.m_offset sec) else (false, offset)

/-- The function `ResultFile::setSectionAddress(section, addressFromFile, fileSize, tx)`.
The translator `tx` and the formatter of `afl::string::Format` only build the message. -/
def ResultFile.setSectionAddress (rf : ResultFile) (sec : Nat) (addressFromFile : Int)
    (fileSize : Nat) (tx : String → String) (format : String → Nat → String) :
    Outcome ResultFile :=
  if addressFromFile < 32 ∨ toFileSize addressFromFile ≥ fileSize then
    ⟨rf, some (.FileFormatException (format (tx "Section %d has an invalid address") sec))⟩
  else
    ⟨{ rf with m_offset := fun s => if s = sec then toUInt32 (addressFromFile - 1)
                                    else rf.m_offset s }, none⟩

/-! ## `game/parser/messageparser.cpp`: `parseCheckInstruction` -/

/-- The scope codes `sAny`, `sRelative`, `sFixed` of `MessageTemplate`; the header that
numbers them is not among the sources, so they are parameters. -/
structure ScopeCodes where
  sAny : Nat
  sRelative : Nat
  sFixed : Nat

/-- A number converted to `int8_t`. -/
def toInt8 (v : Int) : Int := (v + 128) % 256 - 128

/-- The digit loop of `parseCheckInstruction`, on the part of the line from position `i`
on: `while (i < line.size() && line[i] >= '0' && line[i] <= '9')` updates
`offset = 10*offset + line[i] - '0'` and moves on. Gives the offset and the part of the
line from the final position on. -/
def scanDigits : List Char → Int → Int × List Char
  | [], offset => (offset, [])
  | c :: rest, offset =>
    if '0' ≤ c ∧ c ≤ '9' then
      scanDigits rest (toInt8 (10 * offset + (c.toNat : Int) - ('0'.toNat : Int)))
    else (offset, c :: rest)

/-- The loop `while (i < line.size() && line[i] == ' ') ++i`, on the part of the line from
position `i` on. -/
def skipSpaces : List Char → List Char
  | [] => []
  | c :: rest => if c = ' ' then skipSpaces rest else c :: rest

/-- The function `parseCheckInstruction(tpl, opcode, line)`. A `String_t` is the list of
its characters. `MessageTemplate::addCheckInstruction` is not among the sources and is a
parameter; the sum `opcode + scope` is handed over as computed. -/
def parseCheckInstruction {Tpl : Type} (K : ScopeCodes)
    (addCheckInstruction : Tpl → Nat → Int → List Char → Tpl)
    (tpl : Tpl) (opcode : Nat) (line : List Char) : Tpl :=
  match line with
  | [] => addCheckInstruction tpl (opcode + K.sAny) 0 line
  | c :: rest =>
    let scope : Nat :=
      if c = '+' then K.sRelative
      else if c = '-' then K.sRelative
      else if c = '=' then K.sFixed
      else K.sAny
    let scale : Int := if c = '+' then 1 else if c = '-' then -1 else 1
    if scope ≠ K.sAny then
      match scanDigits rest 0 with
      | (offset, ',' :: rest2) =>
        addCheckInstruction tpl (opcode + scope) (toInt8 (offset * scale)) (skipSpaces rest2)
      | (offset, _) =>
        addCheckInstruction tpl (opcode + K.sAny) offset line
    else
      addCheckInstruction tpl (opcode + K.sAny) 0 line

/-- The value of a run of decimal digits. -/
def decimalValue (ds : List Char) : Nat :=
  ds.foldl (fun v c => 10 * v + (c.toNat - '0'.toNat)) 0

/-- A template that only records the check instructions added to it: opcode, offset and
text of each call of `addCheckInstruction`, in call order. -/
def recordCheckInstruction (tpl : List (Nat × Int × List Char)) (opcode : Nat) (offset : Int)
    (text : List Char) : List (Nat × Int × List Char) :=
  tpl ++ [(opcode, offset, text)]

/-! ## `game/parser/messageparser.cpp`: `generateOutput` -/

/-- The enumeration `MessageInformation::Type`, as far as `messageparser.cpp` names it. -/
inductive MessageType where
  | Ship
  | Minefield
  | Planet
  | Starbase
  | IonStorm
  | PlayerScore
  | Configuration
  | Alliance
  | Explosion
  | NoObject
  deriving DecidableEq, Repr

/-- One value of a `MessageInformation`, by the call that added it: `addValue` with a
string index, `addValue` with an integer index, `addScoreValue`, `addConfigurationValue`. -/
inductive MessageValue where
  | stringValue (index : Nat) (value : List Char)
  | integerValue (index : Nat) (value : Int)
  | scoreValue (player : Int) (value : Int)
  | configurationValue (key : List Char) (value : List Char)
  deriving DecidableEq, Repr

/-- A record of `game::parser::MessageInformation` (its header is not among the sources):
the three constructor arguments, read back by `getObjectType`, `getObjectId` and
`getTurnNumber`, and the values added so far, in the order of the calls. -/
structure MessageInformation where
  objectType : MessageType
  objectId : Int
  turnNumber : Int
  values : List MessageValue
  deriving DecidableEq, Repr

/-- What `generateOutput` asks of a `MessageTemplate` (its source is not among the
sources): type, name, number of variables, name of variable `i`, and the slot of a
variable given by name (`none` when `getVariableSlotByName` returns false). -/
structure MessageTemplate where
  getMessageType : MessageType
  getTemplateName : List Char
  getNumVariables : Nat
  getVariableName : Nat → List Char
  getVariableSlotByName : List Char → Option Nat

/-- The functions of `game/parser/messagevalue.hpp` that `generateOutput` calls; the header
is not among the sources, so they are parameters. `none` stands for `ms_Max` and `mi_Max`. -/
structure MessageValueEnv where
  parseIntegerValue : List Char → Int
  getStringIndexFromKeyword : List Char → Option Nat
  getIntegerIndexFromKeyword : List Char → Option Nat

/-- The error lines `generateOutput` writes to the log, by their text: "did not produce Id
number", "produced out-of-range Id %d, ignoring", "modifies value \"%s\" which does not
exist", "generates unknown value \"%s\"", each with the template name. -/
inductive LogMessage where
  | noId (templateName : List Char)
  | outOfRangeId (templateName : List Char) (id : Int)
  | missingValue (templateName : List Char) (name : List Char)
  | unknownValue (templateName : List Char) (name : List Char)
  deriving DecidableEq, Repr

/-- The lines `if (tpl.getVariableSlotByName("ID", skipSlot)) id = parseIntegerValue(values[skipSlot])`
with `id = 0` and `skipSlot = values.size()+1` before them: the Id and the slot to skip.
When the template names a slot that `values` does not have, `values[skipSlot]` is not
defined and the result is `none`. -/
def readId (E : MessageValueEnv) (values : List (List Char)) (tpl : MessageTemplate) :
    Option (Int × Nat) :=
  match tpl.getVariableSlotByName ['I', 'D'] with
  | some slot =>
    match values[slot]? with
    | some v => some (E.parseIntegerValue v, slot)
    | none => none
  | none => some (0, values.length + 1)

/-- The loop of the `SCORE` case: while `all` has a comma at position `n`, a non-empty
field before it is added as score of player `pl`; the field and the comma are erased and
`pl` goes up by one; a non-empty rest is added at the end. `fuel` bounds the number of
rounds; `all.length + 1` is enough. -/
def scoreLoop (E : MessageValueEnv) : Nat → List Char → Int → List MessageValue →
    List MessageValue
  | 0, _, _, vals => vals
  | fuel + 1, all, pl, vals =>
    match all.span (fun c => c ≠ ',') with
    | (field, ',' :: rest) =>
      scoreLoop E fuel rest (pl + 1)
        (if field ≠ [] then vals ++ [.scoreValue pl (E.parseIntegerValue field)] else vals)
    | _ =>
      if all ≠ [] then vals ++ [.scoreValue pl (E.parseIntegerValue all)] else vals

/-- The search of the "relative integer" case: the first integer value with index `mii`
gets `delta` added, the sum being an `int32_t`; `none` when there is no such value. -/
def addToIntegerValue (mii : Nat) (delta : Int) : List MessageValue → Option (List MessageValue)
  | [] => none
  | .integerValue index value :: rest =>
    if index = mii then some (.integerValue index (toInt32 (toUInt32 (value + delta))) :: rest)
    else (addToIntegerValue mii delta rest).map (fun r => .integerValue index value :: r)
  | v :: rest => (addToIntegerValue mii delta rest).map (fun r => v :: r)

/-- One round of the loop `for (size_t i = 0; i < processLimit; ++i)` of the regular case,
on the record `pInfo` and the log. -/
def processValue (E : MessageValueEnv) (values : List (List Char)) (tpl : MessageTemplate)
    (skipSlot : Nat) (st : MessageInformation × List LogMessage) (i : Nat) :
    MessageInformation × List LogMessage :=
  let varName := tpl.getVariableName i
  let value := values.getD i []
  if value = [] ∨ i = skipSlot ∨ varName = ['_'] ∨ varName = [] then st
  else if tpl.getMessageType = .Configuration then
    ({ st.1 with values := st.1.values ++ [.configurationValue varName value] }, st.2)
  else if tpl.getMessageType = .PlayerScore ∧ varName = ['S', 'C', 'O', 'R', 'E'] then
    ({ st.1 with values := scoreLoop E (value.length + 1) value 1 st.1.values }, st.2)
  else
    match E.getStringIndexFromKeyword varName with
    | some msi => ({ st.1 with values := st.1.values ++ [.stringValue msi value] }, st.2)
    | none =>
      match E.getIntegerIndexFromKeyword varName with
      | some mii =>
        ({ st.1 with values := st.1.values ++ [.integerValue mii (E.parseIntegerValue value)] },
          st.2)
      | none =>
        match (if varName.head? = some '+' ∨ varName.head? = some '-' then
                 E.getIntegerIndexFromKeyword varName.tail else none) with
        | some mii =>
          match addToIntegerValue mii
              (if varName.head? = some '-' then toInt32 (toUInt32 (-(E.parseIntegerValue value)))
               else E.parseIntegerValue value) st.1.values with
          | some vals => ({ st.1 with values := vals }, st.2)
          | none => (st.1, st.2 ++ [.missingValue tpl.getTemplateName varName.tail])
        | none => (st.1, st.2 ++ [.unknownValue tpl.getTemplateName varName])

/-- The second half of `generateOutput`, from "Find out whether we can merge" on: the
record to fill is the last one of `info` when merging is allowed and that record has the
same type, Id and turn, and a new record at the end otherwise; the Alliance case adds no
values, the regular case runs the loop over the first `processLimit` values. -/
def produceValues (E : MessageValueEnv) (values : List (List Char)) (tpl : MessageTemplate)
    (turnNr : Int) (info : List MessageInformation) (log : List LogMessage)
    (id : Int) (mergeable : Bool) (skipSlot : Nat) :
    List MessageInformation × List LogMessage :=
  let processLimit := min values.length tpl.getNumVariables
  let merged : Option MessageInformation :=
    match info.getLast? with
    | some back =>
      if mergeable ∧ back.objectType = tpl.getMessageType ∧ back.objectId = id
          ∧ back.turnNumber = turnNr then some back else none
    | none => none
  let front := if merged.isSome then info.dropLast else info
  let pInfo := merged.getD ⟨tpl.getMessageType, id, turnNr, []⟩
  if tpl.getMessageType = .Alliance then (front ++ [pInfo], log)
  else
    let r := (List.range processLimit).foldl (processValue E values tpl skipSlot) (pInfo, log)
    (front ++ [r.1], r.2)

/-- The function `generateOutput(values, tpl, turnNr, info, tx, log)`: the list `info` and
the log after the call; `none` where the source reads `values[skipSlot]` outside
`values`. -/
def generateOutput (E : MessageValueEnv) (values : List (List Char)) (tpl : MessageTemplate)
    (turnNr : Int) (info : List MessageInformation) (log : List LogMessage) :
    Option (List MessageInformation × List LogMessage) :=
  match tpl.getMessageType with
  | .Ship | .Minefield | .Planet | .Starbase | .IonStorm =>
    match readId E values tpl with
    | none => none
    | some (id, skipSlot) =>
      if id = 0 then
        if values.length > (if skipSlot < values.length then 1 else 0) then
          some (info, log ++ [.noId tpl.getTemplateName])
        else some (info, log)
      else if id ≤ 0 then
        some (info, log ++ [.outOfRangeId tpl.getTemplateName id])
      else some (produceValues E values tpl turnNr info log id true skipSlot)
  | .PlayerScore =>
    match readId E values tpl with
    | none => none
    | some (id, skipSlot) =>
      some (produceValues E values tpl turnNr info log id (decide (id ≠ 0)) skipSlot)
  | .Configuration =>
    some (produceValues E values tpl turnNr info log 0 true (values.length + 1))
  | .Alliance | .Explosion | .NoObject =>
    some (produceValues E values tpl turnNr info log 0 false (values.length + 1))

/-- A template of type Ship whose only variable is `ID`, in slot 0. -/
def shipIdTemplate : MessageTemplate :=
  ⟨.Ship, ['t'], 1, fun i => if i = 0 then ['I', 'D'] else [],
    fun name => if name = ['I', 'D'] then some 0 else none⟩

/-- A template of type Ship with the variables `ID` and `NAME`, in slots 0 and 1. -/
def shipIdNameTemplate : MessageTemplate :=
  ⟨.Ship, ['t'], 2, fun i => if i = 0 then ['I', 'D'] else if i = 1 then ['N', 'A', 'M', 'E'] else [],
    fun name => if name = ['I', 'D'] then some 0 else if name = ['N', 'A', 'M', 'E'] then some 1
      else none⟩

/-- A stand-in for the functions of `messagevalue.hpp` in examples: a run of decimal digits
parses to its value (anything else is not used), `NAME` is string index 0, `MASS` is
integer index 0. -/
def exampleValueEnv : MessageValueEnv :=
  ⟨fun s => (decimalValue s : Int),
    fun k => if k = ['N', 'A', 'M', 'E'] then some 0 else none,
    fun k => if k = ['M', 'A', 'S', 'S'] then some 0 else none⟩

/-! ## `game/interface/richtextfunctions.cpp` -/

/-- A rich text (`util::rich::Text`, not among the sources): the text, as UTF-8 bytes,
and the attributes attached to it, each kept as start, length and kind without being
read. `size()` is the length of the text in bytes; `IFRMid` relies on that where it
compares a byte position with `str->size()`. -/
structure RichText where
  text : List Nat
  attributes : List (Nat × Nat × String)
  deriving DecidableEq, Repr

/-- The member `util::rich::Text::size()`. -/
def RichText.size (t : RichText) : Nat := t.text.length

/-- An argument value of the rich-text functions: a `RichTextValue` or any other value. -/
inductive ScriptValue where
  | RichTextValue (t : RichText)
  | other (v : Value)
  deriving DecidableEq, Repr

/-- The function `checkRichArg(out, value)`: `none` for a null value (the function returns
false), otherwise the rich text handed out in `out`. The renderer
`interpreter::toString(value, false)` is not among the sources and is a parameter. -/
def checkRichArg (toString : Value → Bool → List Nat) (value : Option ScriptValue) :
    Option RichText :=
  match value with
  | none => none
  | some (.RichTextValue t) => some t
  | some (.other v) => some ⟨toString v false, []⟩

/-- The function `IFRLen(session, args)`; the session is not used. A null result is `none`.
`args.checkArgumentCount(1)` (of `interpreter/arguments.hpp`, not among the sources)
throws unless there is exactly one argument; the exception it throws is the parameter
`argumentError`. -/
def IFRLen (toString : Value → Bool → List Nat) (argumentError : Exception)
    (args : List (Option ScriptValue)) : Except Exception (Option Value) :=
  match args with
  | [a] =>
    match checkRichArg toString a with
    | some str => .ok (some (.IntegerValue (toInt32 str.size)))
    | none => .ok none
  | _ => .error argumentError

/-- The number of characters of a UTF-8 text: the bytes that do not continue a character
(a continuation byte has the form `10xxxxxx`). -/
def utf8Length (text : List Nat) : Nat :=
  (text.filter (fun b => b / 64 ≠ 2)).length

/-! ## `game/teamsettings.cpp` -/

/-- An array with one slot for each player number `0 .. MAX_PLAYERS`
(`game::PlayerArray<T>`; `game/playerarray.hpp` and the constant `MAX_PLAYERS` are not
among the sources, so `MAX_PLAYERS` is a parameter of every function here). -/
structure PlayerArray (α : Type) where
  data : Nat → α

/-- The member `PlayerArray::get(pl)`: the slot, or a default value outside
`0 .. MAX_PLAYERS`. -/
def PlayerArray.get {α : Type} [Inhabited α] (MAX_PLAYERS : Nat) (a : PlayerArray α)
    (pl : Int) : α :=
  if 0 ≤ pl ∧ pl ≤ MAX_PLAYERS then a.data pl.toNat else default

/-- The member `PlayerArray::set(pl, value)`: stores into the slot; does nothing outside
`0 .. MAX_PLAYERS`. -/
def PlayerArray.set {α : Type} (MAX_PLAYERS : Nat) (a : PlayerArray α) (pl : Int) (value : α) :
    PlayerArray α :=
  if 0 ≤ pl ∧ pl ≤ MAX_PLAYERS then ⟨fun i => if i = pl.toNat then value else a.data i⟩
  else a

/-- The member `PlayerArray::setAll(value)`. -/
def PlayerArray.setAll {α : Type} (value : α) : PlayerArray α :=
  ⟨fun _ => value⟩

/-- The members of `game::TeamSettings`; `sig_teamChange` counts how often the signal was
raised. Team names are kept as their bytes. -/
structure TeamSettings where
  m_flags : Int
  m_viewpointPlayer : Int
  m_passcode : Int
  m_playerTeams : PlayerArray Int
  m_teamNames : PlayerArray (List Nat)
  m_sendConfig : PlayerArray Int
  m_receiveConfig : PlayerArray Int
  sig_teamChange : Nat

/-- The function `TeamSettings::clear()`. -/
def TeamSettings.clear (MAX_PLAYERS : Nat) (ts : TeamSettings) : TeamSettings :=
  { m_flags := 0
    m_viewpointPlayer := 0
    m_passcode := 0
    m_playerTeams :=
      (List.range (MAX_PLAYERS + 1)).foldl
        (fun a (i : Nat) => a.set MAX_PLAYERS (Int.ofNat i) (Int.ofNat i)) (PlayerArray.setAll 0)
    m_teamNames := PlayerArray.setAll []
    m_sendConfig := PlayerArray.setAll 0
    m_receiveConfig := PlayerArray.setAll 0
    sig_teamChange := ts.sig_teamChange + 1 }

/-- The function `TeamSettings::getPlayerTeam(player)`. -/
def TeamSettings.getPlayerTeam (MAX_PLAYERS : Nat) (ts : TeamSettings) (player : Int) : Int :=
  ts.m_playerTeams.get MAX_PLAYERS player

/-- The function `TeamSettings::setPlayerTeam(player, team)`. -/
def TeamSettings.setPlayerTeam (MAX_PLAYERS : Nat) (ts : TeamSettings) (player team : Int) :
    TeamSettings :=
  if team ≠ ts.m_playerTeams.get MAX_PLAYERS player then
    { ts with m_playerTeams := ts.m_playerTeams.set MAX_PLAYERS player team
              sig_teamChange := ts.sig_teamChange + 1 }
  else ts

/-- The function `TeamSettings::getNumTeamMembers(team)`: the loop over the players
`1 .. MAX_PLAYERS` that counts those in the team. -/
def TeamSettings.getNumTeamMembers (MAX_PLAYERS : Nat) (ts : TeamSettings) (team : Int) : Nat :=
  (List.range' 1 MAX_PLAYERS).foldl
    (fun result (i : Nat) => if ts.m_playerTeams.get MAX_PLAYERS (Int.ofNat i) = team then result + 1
                     else result) 0

/-- The function `TeamSettings::removePlayerTeam(player)`. The search loop takes the first
`i` in `1 .. MAX_PLAYERS` whose team has no member. -/
def TeamSettings.removePlayerTeam (MAX_PLAYERS : Nat) (ts : TeamSettings) (player : Int) :
    TeamSettings :=
  if ts.getNumTeamMembers MAX_PLAYERS (ts.getPlayerTeam MAX_PLAYERS player) > 1 then
    if ts.getNumTeamMembers MAX_PLAYERS player = 0 then
      ts.setPlayerTeam MAX_PLAYERS player player
    else
      match (List.range' 1 MAX_PLAYERS).find?
          (fun (i : Nat) => decide (ts.getNumTeamMembers MAX_PLAYERS (Int.ofNat i) = 0)) with
      | some i => ts.setPlayerTeam MAX_PLAYERS player (Int.ofNat i)
      | none => ts
  else ts

/-- The constant `TEAM_MAGIC`: the bytes `C C t e a m 0` and 26. -/
def TEAM_MAGIC : List Nat := [67, 67, 116, 101, 97, 109, 48, 26]

/-- The constant `NUM_HEADER_TEAMS`. -/
def NUM_HEADER_TEAMS : Nat := 12

/-- The constant `NUM_DATA_PLAYERS`. -/
def NUM_DATA_PLAYERS : Nat := 11

/-- Two bytes read as `afl::bits::Int16LE`: little-endian, signed. -/
def toInt16 (lo hi : Nat) : Int :=
  if lo + 256 * hi < 32768 then ((lo + 256 * hi : Nat) : Int)
  else ((lo + 256 * hi : Nat) : Int) - 65536

/-- The member `afl::io::Stream::read`: takes up to `n` bytes, as many as are left, and
moves the position behind them. -/
def Stream.read (s : Stream) (n : Nat) : List Nat × Stream :=
  ((s.data.drop s.pos).take n, { s with pos := s.pos + ((s.data.drop s.pos).take n).length })

/-- The function `TeamSettings::load(dir, player, cs)`. The directory is the map from file
names to file contents (`openFileNT` gives null for a missing file). The function
`util::loadPascalString(*in, cs)` is not among the sources and is a parameter: it gives the
text, or `none` when it throws, and the stream as it leaves it. The exception that
`afl::io::Stream::fullRead` throws when the file ends before the header is complete
belongs to the library afl, which is not among the sources either, and is the parameter
`fileTooShort`. The header is 34 bytes: signature (8), flags (2), player teams (12),
player colours (12); the transfer settings are 24 bytes: send (11), receive (11),
passcode (2). -/
def TeamSettings.load (MAX_PLAYERS : Nat)
    (loadPascalString : Stream → Option (List Nat) × Stream) (fileTooShort : Exception)
    (ts : TeamSettings) (dir : String → Option (List Nat)) (player : Int) :
    Outcome TeamSettings :=
  let ts0 := ts.clear MAX_PLAYERS
  match dir ("team" ++ toString player ++ ".cc") with
  | none => ⟨ts0, none⟩
  | some bytes =>
    match (Stream.mk bytes 0).fullRead 34 with
    | .error _ => ⟨ts0, some fileTooShort⟩
    | .ok (header, in1) =>
      if header.take 8 ≠ TEAM_MAGIC then
        ⟨ts0, some (.FileFormatException "File is missing required signature")⟩
      else
        let ts1 : TeamSettings :=
          { ts0 with m_flags := toInt16 (header.getD 8 0) (header.getD 9 0) }
        let ts2 : TeamSettings :=
          (List.range' 1 NUM_HEADER_TEAMS).foldl
            (fun t (i : Nat) =>
              if header.getD (10 + (i - 1)) 0 ≤ MAX_PLAYERS then
                { t with m_playerTeams :=
                    (t.m_playerTeams.set MAX_PLAYERS (Int.ofNat i)
                      (Int.ofNat (header.getD (10 + (i - 1)) 0))) }
              else t) ts1
        let r3 : TeamSettings × Stream :=
          (List.range' 1 NUM_HEADER_TEAMS).foldl
            (fun r (i : Nat) =>
              match loadPascalString r.2 with
              | (some name, s) =>
                ({ r.1 with m_teamNames := r.1.m_teamNames.set MAX_PLAYERS (Int.ofNat i) name }, s)
              | (none, s) => (r.1, s)) (ts2, in1)
        let settings := (r3.2.read 24).1
        let ts4 : TeamSettings :=
          if settings.length = 24 then
            { (List.range' 1 NUM_DATA_PLAYERS).foldl
                (fun t (i : Nat) =>
                  { t with
                    m_sendConfig :=
                      (t.m_sendConfig.set MAX_PLAYERS (Int.ofNat i)
                        (Int.ofNat (settings.getD (i - 1) 0)))
                    m_receiveConfig :=
                      (t.m_receiveConfig.set MAX_PLAYERS (Int.ofNat i)
                        (Int.ofNat (settings.getD (11 + (i - 1)) 0))) }) r3.1
              with m_passcode := toInt16 (settings.getD 22 0) (settings.getD 23 0) }
          else r3.1
        ⟨{ ts4 with sig_teamChange := ts4.sig_teamChange + 1 }, none⟩

/-- Three players, `MAX_PLAYERS = 3`: players 1 and 2 are in team 2, player 3 is in
team 1. -/
def exampleTeamSettings : TeamSettings :=
  ⟨0, 0, 0, ⟨fun i => if i = 3 then 1 else 2⟩, PlayerArray.setAll [], PlayerArray.setAll 0,
    PlayerArray.setAll 0, 0⟩

/-- A directory with the one file `team3.cc`: 34 zero bytes, a complete header without the
signature. -/
def exampleTeamDirectory (name : String) : Option (List Nat) :=
  if name = "team3.cc" then some (List.replicate 34 0) else none

/-- The calls `addScoreValue(k, parseIntegerValue(fk))` made for the fields `f1, f2, ...`,
as the values they add to the record, with `k` counted from `first`: for each `k`, in
increasing order, one score value exactly when the field `fk` is not empty. -/
def scoreCalls (E : MessageValueEnv) (first : Int) (fields : List (List Char)) :
    List MessageValue :=
  (List.range fields.length).filterMap (fun j =>
    if fields.getD j [] ≠ [] then
      some (.scoreValue (first + Int.ofNat j) (E.parseIntegerValue (fields.getD j [])))
    else none)

/-- The types of the first case of the `switch` in `generateOutput`, "identified by a
mandatory Id": Ship, Minefield, Planet, Starbase, IonStorm. -/
def hasMandatoryId (t : MessageType) : Bool :=
  match t with
  | .Ship | .Minefield | .Planet | .Starbase | .IonStorm => true
  | _ => false

/-- The value of the variable `id` of `generateOutput` after the `switch`: the parsed Id
for the types that read one (mandatory Id, PlayerScore), 0 for the others. -/
def outputId (E : MessageValueEnv) (values : List (List Char)) (tpl : MessageTemplate) : Int :=
  match tpl.getMessageType with
  | .Ship | .Minefield | .Planet | .Starbase | .IonStorm | .PlayerScore =>
    match readId E values tpl with
    | some (id, _) => id
    | none => 0
  | _ => 0

/-- The condition, in the words of the specification, under which the last record is
extended: the kind is mergeable (a type with mandatory Id and Id > 0, PlayerScore with
Id != 0, or Configuration), `info` is not empty, and its last record has the same object
type, the same Id and the same turn number. -/
def extendsLastRecord (E : MessageValueEnv) (values : List (List Char)) (tpl : MessageTemplate)
    (turnNr : Int) (info : List MessageInformation) : Bool :=
  decide (((hasMandatoryId tpl.getMessageType = true ∧ 0 < outputId E values tpl)
      ∨ (tpl.getMessageType = .PlayerScore ∧ outputId E values tpl ≠ 0)
      ∨ tpl.getMessageType = .Configuration)
    ∧ info ≠ []
    ∧ info.getLast?.map (fun last => decide (last.objectType = tpl.getMessageType
        ∧ last.objectId = outputId E values tpl ∧ last.turnNumber = turnNr)) = some true)

/-- Whether the stored value `b` can be what is left of the stored value `a` when a record
is extended: the same value, or, for an integer value, an integer value with the same
index (the "relative integer" case changes the number of a stored integer value). -/
def MessageValue.keptAs (a b : MessageValue) : Bool :=
  match a, b with
  | .integerValue i _, .integerValue j _ => decide (i = j)
  | _, _ => decide (a = b)

/-- A template of type Planet with the variables `ID`, `NAME` and `+MASS`, in slots 0, 1
and 2. -/
def planetDeltaTemplate : MessageTemplate :=
  ⟨.Planet, ['p'], 3,
    fun i => if i = 0 then ['I', 'D'] else if i = 1 then ['N', 'A', 'M', 'E']
      else if i = 2 then ['+', 'M', 'A', 'S', 'S'] else [],
    fun name => if name = ['I', 'D'] then some 0 else if name = ['N', 'A', 'M', 'E'] then some 1
      else if name = ['+', 'M', 'A', 'S', 'S'] then some 2 else none⟩

/-- A template of type Planet with the variables `ID` and `MASS`, in slots 0 and 1. -/
def planetTemplate : MessageTemplate :=
  ⟨.Planet, ['p'], 2, fun i => if i = 0 then ['I', 'D'] else if i = 1 then ['M', 'A', 'S', 'S'] else [],
    fun name => if name = ['I', 'D'] then some 0 else if name = ['M', 'A', 'S', 'S'] then some 1
      else none⟩

/-- The loop of the general case of `IFRAdd`: each argument is checked with `checkRichArg`;
a null argument ends the function with a null result, any other is added to `result` with
`*result += *tmp`. The operator `+=` of `util::rich::Text` is not among the sources and is
the parameter `append`. -/
def IFRAdd_loop (toString : Value → Bool → List Nat) (append : RichText → RichText → RichText) :
    List (Option ScriptValue) → RichText → Option ScriptValue
  | [], result => some (.RichTextValue result)
  | a :: rest, result =>
    match checkRichArg toString a with
    | none => none
    | some tmp => IFRAdd_loop toString append rest (append result tmp)

/-- The function `IFRAdd(session, args)`; the session is not used. A null result is `none`.
With exactly one argument the checked argument itself is the result; otherwise the loop
runs from `new util::rich::Text()`, the rich text without text and attributes. -/
def IFRAdd (toString : Value → Bool → List Nat) (append : RichText → RichText → RichText)
    (args : List (Option ScriptValue)) : Option ScriptValue :=
  match args with
  | [a] =>
    match checkRichArg toString a with
    | some result => some (.RichTextValue result)
    | none => none
  | _ => IFRAdd_loop toString append args ⟨[], []⟩

/-- The text an argument contributes to the result of `RAdd`, in the words of the
specification: the text of a rich-text argument, `toString(value, false)` for any other
value (and nothing for EMPTY). -/
def argumentText (toString : Value → Bool → List Nat) : Option ScriptValue → List Nat
  | some (.RichTextValue t) => t.text
  | some (.other v) => toString v false
  | none => []

/-- A stand-in for `util::rich::Text::operator+=` in examples: the text of the right
operand follows the text of the left one, and its attributes follow with their start moved
by the length of the left text. -/
def RichText.append (a b : RichText) : RichText :=
  ⟨a.text ++ b.text, a.attributes ++ b.attributes.map (fun x => (x.1 + a.text.length, x.2))⟩

/-- A stand-in for `interpreter::toString(value, false)` in examples: a string renders as
its bytes, an integer between 0 and 9 as its digit; no other value is used. -/
def exampleToString (v : Value) (_readable : Bool) : List Nat :=
  match v with
  | .StringValue s => s
  | .IntegerValue i => [48 + i.toNat]
  | _ => []

/-- The member `expandEntityReference(name)` of the class `MyEntityHandler` local to
`IFRXml`, for a handler that holds the arguments `m_args`. The functions
`afl::string::strToInteger` (`some n` when it returns true and stores `n`),
`interpreter::toString` (here also called for null and rich-text values) and
`afl::io::xml::DefaultEntityHandler().expandEntityReference` are not among the sources and
are parameters. -/
def MyEntityHandler.expandEntityReference (toString : Option ScriptValue → Bool → List Nat)
    (strToInteger : List Nat → Option Nat) (defaultExpandEntityReference : List Nat → List Nat)
    (m_args : List (Option ScriptValue)) (name : List Nat) : List Nat :=
  match strToInteger name with
  | some n => if n < m_args.length then toString (m_args.getD n none) false else []
  | none => defaultExpandEntityReference name

/-- The function `IFRXml(session, args)`; the session is not used. A null result is `none`.
`args.checkArgumentCountAtLeast(1)` throws `argumentError` when there is no argument;
`checkStringArg` hands out the XML text, returns false (`none`) for a null value, or
throws. Every further argument is added to the entity handler with `addArgument`, in
order. Reading the XML (`afl::io::xml::Reader`, `util::rich::Parser`) is the parameter
`parse`: from the bytes of the text and the expansion of entity references to the rich
text, or an exception. -/
def IFRXml (toString : Option ScriptValue → Bool → List Nat)
    (strToInteger : List Nat → Option Nat) (defaultExpandEntityReference : List Nat → List Nat)
    (checkStringArg : Option ScriptValue → Except Exception (Option (List Nat)))
    (parse : List Nat → (List Nat → List Nat) → Except Exception RichText)
    (argumentError : Exception) (args : List (Option ScriptValue)) :
    Except Exception (Option ScriptValue) :=
  match args with
  | [] => .error argumentError
  | first :: rest =>
    match checkStringArg first with
    | .error e => .error e
    | .ok none => .ok none
    | .ok (some xml) =>
      match parse xml (MyEntityHandler.expandEntityReference toString strToInteger
          defaultExpandEntityReference rest) with
      | .error e => .error e
      | .ok result => .ok (some (.RichTextValue result))

/-- A stand-in for `afl::string::strToInteger` in examples: a non-empty run of the digit
bytes `0` to `9` is a number, with its decimal value; nothing else is. -/
def exampleStrToInteger (name : List Nat) : Option Nat :=
  if name ≠ [] ∧ name.all (fun b => decide (48 ≤ b ∧ b ≤ 57)) = true then
    some (name.foldl (fun v b => 10 * v + (b - 48)) 0)
  else none

/-- A stand-in for the default entity handler in examples: `lt` expands to `<`, `amp` to
`&`, any other name to itself between `&` and `;`. -/
def exampleDefaultEntity (name : List Nat) : List Nat :=
  if name = [108, 116] then [60]
  else if name = [97, 109, 112] then [38]
  else [38] ++ name ++ [59]

/-- A stand-in for `interpreter::toString(value, false)` on any argument in examples: the
text for a rich text, the rendering of `exampleToString` for other values, nothing for
null. -/
def exampleToStringAny (v : Option ScriptValue) (readable : Bool) : List Nat :=
  match v with
  | some (.RichTextValue t) => t.text
  | some (.other w) => exampleToString w readable
  | none => []

/-- A stand-in for the XML reader in examples, enough to reach the entity handler: a text
of the form `&name;` is the expansion of `name`, any other text stands for itself. -/
def exampleParse (xml : List Nat) (expand : List Nat → List Nat) : Except Exception RichText :=
  if xml.head? = some 38 ∧ xml.getLast? = some 59 then .ok ⟨expand (xml.tail.dropLast), []⟩
  else .ok ⟨xml, []⟩

/-! ## Lemmas: binary digits and magnitudes -/

theorem bitLenAux_le_iff (fuel : Nat) :
    ∀ n k : Nat, n ≤ fuel → (bitLenAux fuel n ≤ k ↔ n < 2 ^ k) := by
  induction fuel with
  | zero =>
    intro n k hn
    have h0 : n = 0 := by omega
    subst h0
    simp [bitLenAux]
  | succ fuel ih =>
    intro n k hn
    by_cases h0 : n = 0
    · subst h0
      simp [bitLenAux]
    · simp only [bitLenAux, if_neg h0]
      cases k with
      | zero =>
        simp
        omega
      | succ k =>
        have hhalf : n / 2 ≤ fuel := by omega
        rw [Nat.add_le_add_iff_right, ih (n / 2) k hhalf, pow_succ]
        omega

theorem bitLen_le_iff (n k : Nat) : bitLen n ≤ k ↔ n < 2 ^ k :=
  bitLenAux_le_iff n n k (le_refl n)

theorem bitLen_eq_succ (n k : Nat) (hlo : 2 ^ k ≤ n) (hhi : n < 2 ^ (k + 1)) :
    bitLen n = k + 1 := by
  have h1 : bitLen n ≤ k + 1 := (bitLen_le_iff n (k + 1)).mpr hhi
  have h2 : ¬ bitLen n ≤ k := fun h => by
    have := (bitLen_le_iff n k).mp h
    omega
  omega

theorem makeFloat_eq (tag payload : Nat) :
    makeFloat tag payload =
      .finite (decide (payload / 2 ^ 31 % 2 = 1))
        (2 ^ 39 + ((payload % 2 ^ 31) * 256 + tag / 256 % 256))
        (((tag % 256 : Nat) : Int) - 129 - 39) := by
  unfold makeFloat
  have h1 : ¬ (((tag % 256 : Nat) : Int) - 129 ≥ 1024) := by omega
  have h2 : ¬ (((tag % 256 : Nat) : Int) - 129 < -1074) := by omega
  simp only [h1, h2, if_false]

theorem encodeReal_makeFloat (tag payload : Nat) (ht : tag < 2 ^ 16) (hp : payload < 2 ^ 32)
    (hexp : tag % 256 ≠ 0) : encodeReal (makeFloat tag payload) = ⟨tag, payload⟩ := by
  rw [makeFloat_eq tag payload]
  have hm : (payload % 2 ^ 31) * 256 + tag / 256 % 256 < 2 ^ 39 := by omega
  have hlen : bitLen (2 ^ 39 + ((payload % 2 ^ 31) * 256 + tag / 256 % 256)) = 40 :=
    bitLen_eq_succ _ 39 (by omega) (by omega)
  have hne : 2 ^ 39 + ((payload % 2 ^ 31) * 256 + tag / 256 % 256) ≠ 0 := by omega
  simp only [encodeReal, if_neg hne, hlen]
  have hb1 : ¬ (((40 : Nat) : Int) + (((tag % 256 : Nat) : Int) - 129 - 39) + 128 ≤ 0) := by omega
  have hb2 : ¬ (((40 : Nat) : Int) + (((tag % 256 : Nat) : Int) - 129 - 39) + 128 > 255) := by omega
  simp only [hb1, hb2, if_false, le_refl, if_true, Nat.sub_self, pow_zero, mul_one]
  have hbn : (((40 : Nat) : Int) + (((tag % 256 : Nat) : Int) - 129 - 39) + 128).toNat = tag % 256 := by
    omega
  rw [hbn]
  by_cases hs : payload / 2 ^ 31 % 2 = 1
  · simp only [hs, decide_True, if_true, TagNode.mk.injEq]
    constructor <;> omega
  · simp only [hs, decide_False, TagNode.mk.injEq]
    constructor
    · omega
    · show (2 ^ 39 + (payload % 2 ^ 31 * 256 + tag / 256 % 256) - 2 ^ 39) / 256 + 0 = payload
      omega


theorem lt_two_pow_bitLen (n : Nat) : n < 2 ^ bitLen n :=
  (bitLen_le_iff n (bitLen n)).mp (le_refl _)

theorem two_pow_bitLen_pred_le (n : Nat) (hn : n ≠ 0) : 2 ^ (bitLen n - 1) ≤ n := by
  by_contra h
  have h1 : bitLen n ≤ bitLen n - 1 := (bitLen_le_iff n (bitLen n - 1)).mpr (by omega)
  have h2 : bitLen n ≠ 0 := by
    intro h0
    have := lt_two_pow_bitLen n
    rw [h0] at this
    omega
  omega

theorem bitLen_pos (n : Nat) (hn : n ≠ 0) : 0 < bitLen n := by
  by_contra h
  have h0 : bitLen n = 0 := by omega
  have := lt_two_pow_bitLen n
  rw [h0] at this
  omega

theorem magnitude_lt_zpow (m : Nat) (x : Int) :
    (m : ℚ) * (2 : ℚ) ^ x < (2 : ℚ) ^ ((bitLen m : Int) + x) := by
  have h : (m : ℚ) < (2 : ℚ) ^ (bitLen m : Int) := by
    rw [zpow_natCast]
    exact_mod_cast lt_two_pow_bitLen m
  rw [zpow_add₀ (by norm_num : (2 : ℚ) ≠ 0)]
  exact mul_lt_mul_of_pos_right h (zpow_pos (by norm_num) x)

theorem zpow_le_magnitude (m : Nat) (x : Int) (hm : m ≠ 0) :
    (2 : ℚ) ^ ((bitLen m : Int) - 1 + x) ≤ (m : ℚ) * (2 : ℚ) ^ x := by
  have hpos := bitLen_pos m hm
  have h : (2 : ℚ) ^ ((bitLen m : Int) - 1) ≤ (m : ℚ) := by
    have hc : ((bitLen m : Int) - 1) = ((bitLen m - 1 : Nat) : Int) := by omega
    rw [hc, zpow_natCast]
    exact_mod_cast two_pow_bitLen_pred_le m hm
  rw [zpow_add₀ (by norm_num : (2 : ℚ) ≠ 0)]
  exact mul_le_mul_of_nonneg_right h (le_of_lt (zpow_pos (by norm_num) x))

theorem lt_frexp_exponent (m : Nat) (x k : Int) (h : (2 : ℚ) ^ k < (m : ℚ) * (2 : ℚ) ^ x) :
    k < (bitLen m : Int) + x :=
  (zpow_lt_zpow_iff_right₀ (by norm_num : (1 : ℚ) < 2)).mp (lt_trans h (magnitude_lt_zpow m x))

theorem frexp_exponent_le (m : Nat) (x k : Int) (hm : m ≠ 0)
    (h : (m : ℚ) * (2 : ℚ) ^ x < (2 : ℚ) ^ k) : (bitLen m : Int) + x ≤ k := by
  have := (zpow_lt_zpow_iff_right₀ (by norm_num : (1 : ℚ) < 2)).mp
    (lt_of_le_of_lt (zpow_le_magnitude m x hm) h)
  omega

theorem encodeReal_underflow (neg : Bool) (m : Nat) (x : Int)
    (h : (m : ℚ) * (2 : ℚ) ^ x < (2 : ℚ) ^ (-128 : Int)) :
    encodeReal (.finite neg m x) = ⟨0, 0⟩ := by
  by_cases hm : m = 0
  · simp [encodeReal, hm, Tag_FPZero]
  · have hb : (bitLen m : Int) + x + 128 ≤ 0 := by
      have := frexp_exponent_le m x (-128) hm h
      omega
    simp [encodeReal, hm, hb, Tag_FPZero]




theorem encodeReal_overflow (neg : Bool) (m : Nat) (x : Int)
    (h : ((2 : ℚ) ^ 40 - 1) * (2 : ℚ) ^ 87 < (m : ℚ) * (2 : ℚ) ^ x) :
    encodeReal (.finite neg m x) = ⟨0xFFFF, 0x7FFFFFFF + (if neg then 2 ^ 31 else 0)⟩ := by
  have hm : m ≠ 0 := by
    rintro rfl
    norm_num at h
  have h126 : (2 : ℚ) ^ (126 : Int) < (m : ℚ) * (2 : ℚ) ^ x :=
    lt_of_le_of_lt (by norm_num) h
  have hexp : (126 : Int) < (bitLen m : Int) + x := lt_frexp_exponent m x 126 h126
  have hb1 : ¬ ((bitLen m : Int) + x + 128 ≤ 0) := by omega
  by_cases hb2 : (bitLen m : Int) + x + 128 > 255
  · simp only [encodeReal, if_neg hm, if_neg hb1, if_pos hb2]
  · have hx : x = 127 - (bitLen m : Int) := by omega
    have hlt := lt_two_pow_bitLen m
    have hbn : ((bitLen m : Int) + x + 128).toNat = 255 := by omega
    by_cases hL : bitLen m ≤ 40
    · exfalso
      have hx2 : x = ((40 - bitLen m : Nat) : Int) + 87 := by omega
      have htop : m * 2 ^ (40 - bitLen m) < 2 ^ 40 := by
        calc m * 2 ^ (40 - bitLen m) < 2 ^ bitLen m * 2 ^ (40 - bitLen m) :=
              Nat.mul_lt_mul_of_pos_right hlt (Nat.two_pow_pos _)
          _ = 2 ^ 40 := by rw [← pow_add]; congr 1; omega
      have htop2 : ((m * 2 ^ (40 - bitLen m) : Nat) : ℚ) ≤ (2 : ℚ) ^ 40 - 1 := by
        have : m * 2 ^ (40 - bitLen m) + 1 ≤ 2 ^ 40 := htop
        have h2 : ((m * 2 ^ (40 - bitLen m) + 1 : Nat) : ℚ) ≤ ((2 ^ 40 : Nat) : ℚ) := by
          exact_mod_cast this
        push_cast at h2 ⊢
        linarith
      have hq : (m : ℚ) * (2 : ℚ) ^ x = ((m * 2 ^ (40 - bitLen m) : Nat) : ℚ) * (2 : ℚ) ^ 87 := by
        rw [hx2, zpow_add₀ (by norm_num : (2 : ℚ) ≠ 0), zpow_natCast]
        push_cast
        norm_num
        ring
      rw [hq] at h
      have := mul_le_mul_of_nonneg_right htop2 (by norm_num : (0 : ℚ) ≤ (2 : ℚ) ^ 87)
      linarith
    · have hx2 : x = (87 : Int) - ((bitLen m - 40 : Nat) : Int) := by omega
      have hq : (m : ℚ) * (2 : ℚ) ^ x = (m : ℚ) * (2 : ℚ) ^ 87 / (2 : ℚ) ^ (bitLen m - 40) := by
        rw [hx2, zpow_sub₀ (by norm_num : (2 : ℚ) ≠ 0), zpow_natCast]
        norm_num
        ring
      rw [hq, lt_div_iff₀ (by positivity)] at h
      have hnat : (2 ^ 40 - 1) * 2 ^ (bitLen m - 40) < m := by
        have h3 : ((2 : ℚ) ^ 40 - 1) * (2 : ℚ) ^ (bitLen m - 40) < (m : ℚ) := by
          have h87 : (0 : ℚ) < (2 : ℚ) ^ 87 := by positivity
          nlinarith
        have h4 : (((2 ^ 40 - 1) * 2 ^ (bitLen m - 40) : Nat) : ℚ) < (m : ℚ) := by
          push_cast
          norm_num at h3 ⊢
          linarith
        exact_mod_cast h4
      have hlo : 2 ^ 40 - 1 ≤ m / 2 ^ (bitLen m - 40) :=
        (Nat.le_div_iff_mul_le (Nat.two_pow_pos _)).mpr (le_of_lt hnat)
      have hhi : m / 2 ^ (bitLen m - 40) < 2 ^ 40 := by
        rw [Nat.div_lt_iff_lt_mul (Nat.two_pow_pos _), ← pow_add]
        have : 40 + (bitLen m - 40) = bitLen m := by omega
        rw [this]
        exact hlt
      have htop : m / 2 ^ (bitLen m - 40) = 2 ^ 40 - 1 := by omega
      simp only [encodeReal, if_neg hm, if_neg hb1, if_neg hb2, if_neg hL, hbn, htop]
      cases neg <;> rfl

/-! ## Lemmas: segments, streams and the loader -/

theorem Segment.get_setNew_self (seg : Segment) (i : Nat) (v : Option Value) :
    (seg.setNew i v).get i = v := by
  unfold Segment.setNew Segment.get
  by_cases h : i < seg.content.length
  · simp [h, List.getElem?_set]
  · have hi : i = (seg.content ++ List.replicate (i - seg.content.length) none).length := by
      simp; omega
    simp only [if_neg h, List.get?_eq_getElem?]
    rw [List.getElem?_append_right (by omega)]
    simp [← hi]

theorem Segment.get_setNew_ne (seg : Segment) (i j : Nat) (v : Option Value) (h : j ≠ i) :
    (seg.setNew i v).get j = seg.get j := by
  unfold Segment.setNew Segment.get
  by_cases hi : i < seg.content.length
  · simp [hi, List.getElem?_set, Ne.symm h]
  · simp only [if_neg hi, List.get?_eq_getElem?]
    by_cases hj : j < seg.content.length
    · rw [List.append_assoc, List.getElem?_append_left hj]
    · rw [List.getElem?_eq_none (by omega : seg.content.length ≤ j)]
      by_cases hj2 : j < i
      · rw [List.getElem?_append_left (by simp; omega), List.getElem?_append_right (by omega)]
        rw [List.getElem?_replicate]
        simp
      · rw [List.getElem?_eq_none (by simp; omega)]

theorem Stream.fullRead_ok (s s1 : Stream) (n : Nat) (bytes : List Nat)
    (h : s.fullRead n = .ok (bytes, s1)) :
    bytes = (s.data.drop s.pos).take n ∧ bytes.length = n ∧ s1.data = s.data ∧
      s1.pos = s.pos + n := by
  unfold Stream.fullRead at h
  by_cases hle : s.pos + n ≤ s.data.length
  · rw [if_pos hle] at h
    injection h with h
    injection h with h1 h2
    subst h1 h2
    refine ⟨rfl, ?_, rfl, rfl⟩
    simp
    omega
  · rw [if_neg hle] at h
    cases h


theorem loadValue_spec (node : TagNode) (s s1 : Stream) (v : Option Value)
    (h : ValueLoader.loadValue node s = .ok (v, s1)) :
    s1.data = s.data ∧ s1.pos = s.pos + auxBytes node v ∧ (node.tag = Tag_Empty → v = none) := by
  unfold ValueLoader.loadValue at h
  split_ifs at h with h1 h2 h3 h4 h5 h6 h7 h8 h9
  · cases h
    exact ⟨rfl, rfl, fun ht => by rw [ht] at h1; exact absurd rfl h1⟩
  · cases h
    exact ⟨rfl, rfl, fun ht => by rw [ht] at h2; cases h2⟩
  · cases h
    exact ⟨rfl, rfl, fun _ => rfl⟩
  · cases h
    exact ⟨rfl, rfl, fun ht => by rw [ht] at h4; cases h4⟩
  · cases h
    exact ⟨rfl, rfl, fun ht => by rw [ht] at h5; cases h5⟩
  · cases h
    exact ⟨rfl, by simp [auxBytes, h6, h7], fun ht => by rw [ht] at h6; cases h6⟩
  · cases hr1 : s.fullRead 1 with
    | error e => rw [hr1] at h; cases h
    | ok r1 =>
      obtain ⟨len, a1⟩ := r1
      rw [hr1] at h
      simp only at h
      cases hr2 : a1.fullRead (len.headD 0) with
      | error e => rw [hr2] at h; cases h
      | ok r2 =>
        obtain ⟨bytes, a2⟩ := r2
        rw [hr2] at h
        cases h
        obtain ⟨_, _, hd1, hp1⟩ := Stream.fullRead_ok s a1 1 len hr1
        obtain ⟨_, hl2, hd2, hp2⟩ := Stream.fullRead_ok a1 s1 _ bytes hr2
        refine ⟨by rw [hd2, hd1], ?_, fun ht => by rw [ht] at h6; cases h6⟩
        simp only [auxBytes, if_pos h6, if_neg h7]
        omega
  · cases hm : makeFloat32 node.value with
    | none => rw [hm] at h; cases h
    | some d =>
      rw [hm] at h
      cases h
      exact ⟨rfl, rfl, fun ht => by rw [ht] at h8; cases h8⟩
  · cases hr1 : s.fullRead node.value with
    | error e => rw [hr1] at h; cases h
    | ok r1 =>
      obtain ⟨bytes, a1⟩ := r1
      rw [hr1] at h
      cases h
      obtain ⟨_, hl1, hd1, hp1⟩ := Stream.fullRead_ok s s1 _ bytes hr1
      refine ⟨hd1, ?_, fun ht => by rw [ht] at h9; cases h9⟩
      simp only [auxBytes, if_neg h6]
      omega

theorem parseNodes_length : ∀ (n : Nat) (l : List Nat), l.length = 6 * n →
    (parseNodes l).length = n := by
  intro n
  induction n with
  | zero =>
    intro l hl
    have : l = [] := List.length_eq_zero.mp (by omega)
    subst this
    rfl
  | succ n ih =>
    intro l hl
    match l, hl with
    | b0 :: b1 :: b2 :: b3 :: b4 :: b5 :: rest, hl =>
      simp only [parseNodes, List.length_cons]
      rw [ih rest (by simp only [List.length_cons] at hl; omega)]

/-- The text of a loaded string: a long string is the next `payload` bytes of the
auxiliary stream, a non-empty short string is the bytes after its length byte. -/
theorem loadValue_string (node : TagNode) (s s1 : Stream) (v : Option Value)
    (h : ValueLoader.loadValue node s = .ok (v, s1)) :
    (node.tag = Tag_LongString →
      v = some (.StringValue ((s.data.drop s.pos).take node.value))) ∧
    (node.tag = Tag_String → node.value ≠ 0 →
      v = some (.StringValue ((s.data.drop (s.pos + 1)).take
        (((s.data.drop s.pos).take 1).headD 0)))) := by
  constructor
  · intro ht
    have h6 : node.tag ≠ Tag_String := by rw [ht]; decide
    simp only [ValueLoader.loadValue, ht, Tag_LongString, Tag_FPZero, Tag_Empty, Tag_Integer,
      Tag_Boolean, Tag_String, Tag_32bitFP] at h
    norm_num at h
    cases hr1 : s.fullRead node.value with
    | error e => rw [hr1] at h; cases h
    | ok r1 =>
      obtain ⟨bytes, a1⟩ := r1
      rw [hr1] at h
      cases h
      obtain ⟨hb, _, _, _⟩ := Stream.fullRead_ok s s1 _ bytes hr1
      rw [hb]
  · intro ht hval
    simp only [ValueLoader.loadValue, ht, Tag_FPZero, Tag_Empty, Tag_Integer,
      Tag_Boolean, Tag_String] at h
    norm_num at h
    rw [if_neg hval] at h
    cases hr1 : s.fullRead 1 with
    | error e => rw [hr1] at h; cases h
    | ok r1 =>
      obtain ⟨len, a1⟩ := r1
      rw [hr1] at h
      simp only [← List.headD_eq_head?_getD] at h
      cases hr2 : a1.fullRead (len.headD 0) with
      | error e => rw [hr2] at h; cases h
      | ok r2 =>
        obtain ⟨bytes, a2⟩ := r2
        rw [hr2] at h
        cases h
        obtain ⟨hb1, _, hd1, hp1⟩ := Stream.fullRead_ok s a1 1 len hr1
        obtain ⟨hb2, _, _, _⟩ := Stream.fullRead_ok a1 s1 _ bytes hr2
        rw [hb2, hd1, hp1, hb1]

theorem loadSlots_spec : ∀ (nodes : List TagNode) (slot : Nat) (seg : Segment) (s : Stream)
    (seg1 : Segment) (s1 : Stream), loadSlots nodes slot seg s = .ok (seg1, s1) →
    s1.data = s.data ∧ s1.pos = s.pos + auxTotal nodes seg1 slot ∧
    (∀ j, j < slot ∨ slot + nodes.length ≤ j → seg1.get j = seg.get j) ∧
    (∀ i node, nodes.get? i = some node →
      ValueLoader.loadValue node ⟨s.data, s.pos + auxTotal (nodes.take i) seg1 slot⟩
        = .ok (seg1.get (slot + i),
            ⟨s.data, s.pos + auxTotal (nodes.take (i + 1)) seg1 slot⟩)) := by
  intro nodes
  induction nodes with
  | nil =>
    intro slot seg s seg1 s1 h
    simp only [loadSlots] at h
    cases h
    exact ⟨rfl, rfl, fun _ _ => rfl, fun i node hi => by simp at hi⟩
  | cons node rest ih =>
    intro slot seg s seg1 s1 h
    simp only [loadSlots] at h
    cases hv : ValueLoader.loadValue node s with
    | error e => rw [hv] at h; cases h
    | ok r =>
      obtain ⟨v, sa⟩ := r
      rw [hv] at h
      simp only at h
      obtain ⟨hd, hp, hframe, hvals⟩ := ih (slot + 1) (seg.setNew slot v) sa seg1 s1 h
      obtain ⟨hd0, hp0, _⟩ := loadValue_spec node s sa v hv
      have hslot : seg1.get slot = v := by
        rw [hframe slot (Or.inl (Nat.lt_succ_self slot)), Segment.get_setNew_self]
      have hsa : sa = ⟨s.data, s.pos + auxBytes node v⟩ := by
        cases sa
        simp only [Stream.mk.injEq]
        exact ⟨hd0, hp0⟩
      refine ⟨by rw [hd, hd0], ?_, ?_, ?_⟩
      · simp only [auxTotal, hslot]
        omega
      · intro j hj
        simp only [List.length_cons] at hj
        rw [hframe j (by omega), Segment.get_setNew_ne seg slot j v (by omega)]
      · intro i nd hi
        cases i with
        | zero =>
          simp at hi
          subst hi
          simp only [List.take_zero, auxTotal, Nat.add_zero, List.take_succ_cons, hslot]
          rw [← hsa]
          cases s
          exact hv
        | succ i =>
          simp at hi
          have hl := hvals i nd (by simpa using hi)
          rw [hsa] at hl
          simp only [List.take_succ_cons, auxTotal, hslot]
          have e1 : slot + (i + 1) = slot + 1 + i := by omega
          have e2 : s.pos + (auxBytes node v + auxTotal (List.take i rest) seg1 (slot + 1))
              = s.pos + auxBytes node v + auxTotal (List.take i rest) seg1 (slot + 1) := by
            omega
          have e3 : s.pos + (auxBytes node v + auxTotal (List.take (i + 1) rest) seg1 (slot + 1))
              = s.pos + auxBytes node v + auxTotal (List.take (i + 1) rest) seg1 (slot + 1) := by
            omega
          rw [e1, e2, e3]
          simpa using hl

/-! ## The claims -/

/-- C1: for every 16-bit tag whose low byte (the exponent byte) is non-zero and every
32-bit payload, `loadValue` yields a float value, whose magnitude is
`(1 + m / 2^39) * 2^(e - 129)` for exponent byte `e` and mantissa `m`, and saving that
value with `SaveVisitor` gives back exactly the tag and the payload and writes no
auxiliary bytes. -/
theorem loadValue_real_roundtrip (tag payload : Nat) (aux : Stream)
    (ht : tag < 2 ^ 16) (hp : payload < 2 ^ 32) (hexp : tag % 256 ≠ 0) :
    ∃ d : Double,
      ValueLoader.loadValue ⟨tag, payload⟩ aux = .ok (some (.FloatValue d), aux) ∧
      SaveVisitor.visit (some (.FloatValue d)) = (⟨tag, payload⟩, []) ∧
      d.magnitude = some ((1 + (((payload % 2 ^ 31) * 256 + tag / 256 : Nat) : ℚ) / 2 ^ 39)
        * (2 : ℚ) ^ (((tag % 256 : Nat) : Int) - 129)) ∧
      d.isNegative = decide (2 ^ 31 ≤ payload) := by
  refine ⟨makeFloat tag payload, ?_, ?_, ?_, ?_⟩
  · simp only [ValueLoader.loadValue, if_pos hexp]
  · simp only [SaveVisitor.visit, encodeReal_makeFloat tag payload ht hp hexp]
  · rw [makeFloat_eq]
    simp only [Double.magnitude, Option.some.injEq]
    have h256 : tag / 256 % 256 = tag / 256 := by omega
    rw [h256, show (((tag % 256 : Nat) : Int) - 129 - 39) = (((tag % 256 : Nat) : Int) - 129) + (-39 : Int) by ring,
      zpow_add₀ (by norm_num : (2 : ℚ) ≠ 0)]
    push_cast
    norm_num
    ring
  · rw [makeFloat_eq]
    simp only [Double.isNegative]
    have hne : 2 ^ 39 + (payload % 2 ^ 31 * 256 + tag / 256 % 256) ≠ 0 := by omega
    simp only [ne_eq, hne, not_false_eq_true, decide_True, Bool.and_true]
    congr 1
    apply propext
    constructor <;> intro h <;> omega

/-- C1 at the bytes 83 00 00 00 00 60 (tag 0x0083, payload 0x60000000): the node loads as
the float 7.0 and saves back as the same tag and payload. -/
theorem loadValue_real_roundtrip_witness :
    ∃ d : Double,
      ValueLoader.loadValue ⟨0x0083, 0x60000000⟩ ⟨[], 0⟩ = .ok (some (.FloatValue d), ⟨[], 0⟩) ∧
      SaveVisitor.visit (some (.FloatValue d)) = (⟨0x0083, 0x60000000⟩, []) ∧
      d.magnitude = some 7 ∧ d.isNegative = false := by
  obtain ⟨d, h1, h2, h3, h4⟩ :=
    loadValue_real_roundtrip 0x0083 0x60000000 ⟨[], 0⟩ (by decide) (by decide) (by decide)
  refine ⟨d, h1, h2, ?_, ?_⟩
  · rw [h3]
    norm_num
  · rw [h4]
    decide

/-- C2: for every 32-bit payload `p`, a node with tag Integer loads as the integer value
`p` read as two's complement (the number in `-2^31 .. 2^31-1` congruent to `p` modulo
`2^32`) and saves back as tag Integer with payload `p`; a node with tag Boolean and
payload 0 or 1 loads as a boolean value (false for 0, true for 1), not as an integer
value, and saves back as tag Boolean with the same payload; neither writes auxiliary
bytes. -/
theorem loadValue_integer_boolean_roundtrip (p : Nat) (aux : Stream) (hp : p < 2 ^ 32) :
    (ValueLoader.loadValue ⟨Tag_Integer, p⟩ aux = .ok (some (.IntegerValue (toInt32 p)), aux) ∧
      SaveVisitor.visit (some (.IntegerValue (toInt32 p))) = (⟨Tag_Integer, p⟩, []) ∧
      -2 ^ 31 ≤ toInt32 p ∧ toInt32 p < 2 ^ 31 ∧ (toInt32 p - (p : Int)) % 2 ^ 32 = 0) ∧
    (p ≤ 1 →
      ValueLoader.loadValue ⟨Tag_Boolean, p⟩ aux
        = .ok (some (.BooleanValue (decide (p = 1))), aux) ∧
      (∀ i : Int, some (Value.BooleanValue (decide (p = 1))) ≠ some (Value.IntegerValue i)) ∧
      SaveVisitor.visit (some (.BooleanValue (decide (p = 1)))) = (⟨Tag_Boolean, p⟩, [])) := by
  refine ⟨⟨?_, ?_, ?_, ?_, ?_⟩, ?_⟩
  · simp [ValueLoader.loadValue, Tag_Integer, Tag_FPZero, Tag_Empty]
  · simp only [SaveVisitor.visit, toUInt32, toInt32, Prod.mk.injEq, TagNode.mk.injEq, true_and,
      and_true]
    split_ifs <;> omega
  · simp only [toInt32]
    split_ifs <;> omega
  · simp only [toInt32]
    split_ifs <;> omega
  · simp only [toInt32]
    split_ifs <;> omega
  · intro h1
    refine ⟨?_, ?_, ?_⟩
    · have hdec : decide (p ≠ 0) = decide (p = 1) := by
        congr 1
        apply propext
        constructor <;> intro h <;> omega
      simp [ValueLoader.loadValue, Tag_Boolean, Tag_Integer, Tag_FPZero, Tag_Empty, hdec]
    · intro i h
      cases h
    · have h01 : p = 0 ∨ p = 1 := by omega
      rcases h01 with h | h <;> subst h <;> rfl

/-- C2 at the test node with tag Integer and payload `-9999999U`: it loads as the integer
-9999999 and saves back unchanged; the node with tag Boolean and payload 1 loads as the
boolean true. -/
theorem loadValue_integer_boolean_roundtrip_witness :
    ValueLoader.loadValue ⟨Tag_Integer, 4284967297⟩ ⟨[], 0⟩
      = .ok (some (.IntegerValue (-9999999)), ⟨[], 0⟩) ∧
    SaveVisitor.visit (some (.IntegerValue (-9999999))) = (⟨Tag_Integer, 4284967297⟩, []) ∧
    ValueLoader.loadValue ⟨Tag_Boolean, 1⟩ ⟨[], 0⟩ = .ok (some (.BooleanValue true), ⟨[], 0⟩) ∧
    SaveVisitor.visit (some (.BooleanValue true)) = (⟨Tag_Boolean, 1⟩, []) :=
  ⟨(loadValue_integer_boolean_roundtrip 4284967297 ⟨[], 0⟩ (by decide)).1.1,
   (loadValue_integer_boolean_roundtrip 4284967297 ⟨[], 0⟩ (by decide)).1.2.1,
   ((loadValue_integer_boolean_roundtrip 1 ⟨[], 0⟩ (by decide)).2 (by decide)).1,
   ((loadValue_integer_boolean_roundtrip 1 ⟨[], 0⟩ (by decide)).2 (by decide)).2.2⟩

/-- C3: saving a positive float whose magnitude is too large for the 6-byte real format
(greater than the largest real `(2^40 - 1) * 2^87`, or infinite) does not fail:
`SaveVisitor` gives tag 0xFFFF and payload 0x7FFFFFFF and writes no auxiliary bytes. -/
theorem visit_float_overflow (d : Double) (hpos : d.isNegative = false)
    (hbig : ∀ q : ℚ, d.magnitude = some q → ((2 : ℚ) ^ 40 - 1) * (2 : ℚ) ^ 87 < q) :
    SaveVisitor.visit (some (.FloatValue d)) = (⟨0xFFFF, 0x7FFFFFFF⟩, []) := by
  cases d with
  | infinite neg =>
    simp only [Double.isNegative] at hpos
    subst hpos
    rfl
  | finite neg m x =>
    have h := hbig _ rfl
    have hm : m ≠ 0 := by
      rintro rfl
      norm_num at h
    have hneg : neg = false := by
      simpa [Double.isNegative, hm] using hpos
    subst hneg
    simp only [SaveVisitor.visit, encodeReal_overflow false m x h]
    rfl

/-- C3 at the float 1.0e+100: it is positive and larger than the largest 6-byte real, and
saves as tag 0xFFFF, payload 0x7FFFFFFF. -/
theorem visit_float_overflow_witness :
    double_1e100.isNegative = false ∧
    double_1e100.magnitude = some ((0x1249AD2594C37D : ℚ) * (2 : ℚ) ^ (280 : Int)) ∧
    ((2 : ℚ) ^ 40 - 1) * (2 : ℚ) ^ 87 < (0x1249AD2594C37D : ℚ) * (2 : ℚ) ^ (280 : Int) ∧
    SaveVisitor.visit (some (.FloatValue double_1e100)) = (⟨0xFFFF, 0x7FFFFFFF⟩, []) :=
  ⟨rfl, by simp [double_1e100, Double.magnitude], by norm_num,
   visit_float_overflow double_1e100 rfl (by
     intro q hq
     simp only [double_1e100, Double.magnitude, Option.some.injEq] at hq
     rw [← hq]
     norm_num)⟩

/-- C4: saving a float whose magnitude is too small for the 6-byte real format (below the
smallest positive real `2^(-128)`; non-zero or not) gives tag 0 and payload 0, the
encoding of 0.0, and writes no auxiliary bytes; no error is raised. -/
theorem visit_float_underflow (d : Double) (q : ℚ) (hq : d.magnitude = some q)
    (hsmall : q < (2 : ℚ) ^ (-128 : Int)) :
    SaveVisitor.visit (some (.FloatValue d)) = (⟨0, 0⟩, []) ∧
    SaveVisitor.visit (some (.FloatValue d))
      = SaveVisitor.visit (some (.FloatValue (.finite false 0 0))) := by
  cases d with
  | infinite neg => simp [Double.magnitude] at hq
  | finite neg m x =>
    simp only [Double.magnitude, Option.some.injEq] at hq
    subst hq
    have h1 : SaveVisitor.visit (some (.FloatValue (.finite neg m x))) = (⟨0, 0⟩, []) := by
      simp only [SaveVisitor.visit, encodeReal_underflow neg m x hsmall]
    exact ⟨h1, h1.trans (by decide)⟩

/-- C4 at the float 1.0e-100: it is not zero, lies below the smallest 6-byte real, and
saves as tag 0, payload 0. -/
theorem visit_float_underflow_witness :
    double_1em100.magnitude = some ((0x1BFF2EE48E0530 : ℚ) * (2 : ℚ) ^ (-385 : Int)) ∧
    (0x1BFF2EE48E0530 : ℚ) * (2 : ℚ) ^ (-385 : Int) ≠ 0 ∧
    (0x1BFF2EE48E0530 : ℚ) * (2 : ℚ) ^ (-385 : Int) < (2 : ℚ) ^ (-128 : Int) ∧
    SaveVisitor.visit (some (.FloatValue double_1em100)) = (⟨0, 0⟩, []) :=
  ⟨by simp [double_1em100, Double.magnitude], by norm_num, by norm_num,
   (visit_float_underflow double_1em100 ((0x1BFF2EE48E0530 : ℚ) * (2 : ℚ) ^ (-385 : Int))
     (by simp [double_1em100, Double.magnitude]) (by norm_num)).1⟩

/-- C6: when `ValueLoader.load(segment, stream, first, count)` returns, it has read `count`
tag nodes of 6 bytes at the stream position, and behind them the string data in slot
order: slot `first+i` of the segment holds the value that `loadValue` gives for node `i`
on the stream placed right behind the headers and the data of the nodes before `i`, and
that load leaves the stream where the data of node `i+1` starts. So a long string is the
next `payload` bytes at that place, a non-empty short string the bytes after its length
byte there, and a null tag gives null whatever the slot held before. Every slot below
`first` or from `first+count` on is unchanged, and the stream position has advanced by
exactly `6*count` plus the auxiliary bytes of the loaded strings. -/
theorem load_segment_spec (seg seg1 : Segment) (s s1 : Stream) (first count : Nat)
    (h : ValueLoader.load seg s first count = .ok (seg1, s1)) :
    ∃ nodes : List TagNode,
      nodes = parseNodes ((s.data.drop s.pos).take (6 * count)) ∧ nodes.length = count ∧
      (∀ i node, nodes.get? i = some node →
        ValueLoader.loadValue node
            ⟨s.data, s.pos + 6 * count + auxTotal (nodes.take i) seg1 first⟩
          = .ok (seg1.get (first + i),
              ⟨s.data, s.pos + 6 * count + auxTotal (nodes.take (i + 1)) seg1 first⟩) ∧
        (node.tag = Tag_Empty → seg1.get (first + i) = none) ∧
        (node.tag = Tag_LongString →
          seg1.get (first + i) = some (.StringValue
            ((s.data.drop (s.pos + 6 * count + auxTotal (nodes.take i) seg1 first)).take
              node.value))) ∧
        (node.tag = Tag_String → node.value ≠ 0 →
          seg1.get (first + i) = some (.StringValue
            ((s.data.drop (s.pos + 6 * count + auxTotal (nodes.take i) seg1 first + 1)).take
              (((s.data.drop (s.pos + 6 * count
                + auxTotal (nodes.take i) seg1 first)).take 1).headD 0))))) ∧
      (∀ j, j < first ∨ first + count ≤ j → seg1.get j = seg.get j) ∧
      s1.data = s.data ∧
      s1.pos = s.pos + 6 * count + auxTotal nodes seg1 first := by
  unfold ValueLoader.load at h
  cases hr : s.fullRead (6 * count) with
  | error e => rw [hr] at h; cases h
  | ok r =>
    obtain ⟨hdr, sh⟩ := r
    rw [hr] at h
    simp only at h
    obtain ⟨hb, hl, hd0, hp0⟩ := Stream.fullRead_ok s sh (6 * count) hdr hr
    have hlen : (parseNodes hdr).length = count := parseNodes_length count hdr hl
    obtain ⟨hd, hp, hframe, hvals⟩ := loadSlots_spec (parseNodes hdr) first seg sh seg1 s1 h
    refine ⟨parseNodes hdr, by rw [hb], hlen, ?_, ?_, by rw [hd, hd0], by rw [hp, hp0]⟩
    · intro i node hi
      have hv := hvals i node hi
      rw [hd0, hp0] at hv
      obtain ⟨hlong, hshort⟩ := loadValue_string node _ _ _ hv
      exact ⟨hv, (loadValue_spec node _ _ _ hv).2.2, hlong, hshort⟩
    · intro j hj
      exact hframe j (by rw [hlen]; exact hj)

/-- C6 at the two test inputs. The 2-entry input, loaded at slot 1 into
`[null, null, 42, 23]`, gives `[null, 1029, null, 23]` and leaves the stream at
position 12; the 9-entry input, loaded at slot 0 into an empty segment, leaves the stream
at position 65, after the 54 header bytes, the 7 bytes of `abcdefg` and the length byte
and 3 bytes of `XYZ`: node 5, a long string of 7 bytes, is loaded at position 54 and
node 6, a short string, at position 61. -/
theorem load_segment_spec_witness :
    ValueLoader.load testLoadSegment2_seg ⟨testLoadSegment2_data, 0⟩ 1 2
      = .ok (⟨[none, some (.IntegerValue 1029), none, some (.IntegerValue 23)]⟩,
          ⟨testLoadSegment2_data, 12⟩) ∧
    (∃ nodes : List TagNode, nodes.length = 2 ∧
      12 = 0 + 6 * 2 + auxTotal nodes
        ⟨[none, some (.IntegerValue 1029), none, some (.IntegerValue 23)]⟩ 1) ∧
    ValueLoader.load ⟨[]⟩ ⟨testLoadSegment_data, 0⟩ 0 9
      = .ok (⟨[some (.FloatValue (.finite false 0 0)), some (.IntegerValue 1029), none,
               some (.StringValue []), some (.BooleanValue true),
               some (.StringValue [97, 98, 99, 100, 101, 102, 103]),
               some (.StringValue [88, 89, 90]),
               some (.FloatValue (.finite false (2 ^ 39 + 0x2000000000) (-37))),
               some (.FloatValue (.finite false (2 ^ 23 + 0x400000) (-22)))]⟩,
          ⟨testLoadSegment_data, 65⟩) ∧
    ValueLoader.loadValue ⟨Tag_LongString, 7⟩ ⟨testLoadSegment_data, 54⟩
      = .ok (some (.StringValue [97, 98, 99, 100, 101, 102, 103]), ⟨testLoadSegment_data, 61⟩) ∧
    ValueLoader.loadValue ⟨Tag_String, 0x10000⟩ ⟨testLoadSegment_data, 61⟩
      = .ok (some (.StringValue [88, 89, 90]), ⟨testLoadSegment_data, 65⟩) ∧
    (Double.finite false (2 ^ 39 + 0x2000000000) (-37)).toRat = some 5 ∧
    (Double.finite false (2 ^ 23 + 0x400000) (-22)).toRat = some 3 := by
  have h2 : ValueLoader.load testLoadSegment2_seg ⟨testLoadSegment2_data, 0⟩ 1 2
      = .ok (⟨[none, some (.IntegerValue 1029), none, some (.IntegerValue 23)]⟩,
          ⟨testLoadSegment2_data, 12⟩) := by rfl
  refine ⟨h2, ?_, by rfl, by rfl, by rfl, ?_, ?_⟩
  · obtain ⟨nodes, _, hl, _, _, _, hp⟩ := load_segment_spec _ _ _ _ 1 2 h2
    exact ⟨nodes, hl, hp⟩
  · simp only [Double.toRat]
    norm_num
  · simp only [Double.toRat]
    norm_num

/-- C8: `Closure.call(process, args, wantResult)` is one invocation of the base callable,
with the bound arguments followed by `args` and with the same flag: over a base that
records its invocations the log grows by exactly this one entry; with bound 3, "zz" and
arguments 1, 9, 5 the base sees 3, "zz", 1, 9, 5 and `wantResult` true (the test callable
ends in state `3,"zz",1,9,5,y`). -/
theorem closure_call {σ : Type} (c : Closure σ) (proc : σ) (args : Segment)
    (wantResult : Bool) (dim : Int → Int) (bound : Segment)
    (log : List (List (Option Value) × Bool)) :
    c.call proc args wantResult
      = c.function.call proc ⟨c.fixedArgs.content ++ args.content⟩ wantResult ∧
    (Closure.mk (recordingCallable dim) bound).call log args wantResult
      = log ++ [(bound.content ++ args.content, wantResult)] ∧
    (((Closure.setNewFunction (recordingCallable dim)).addNewArgument
        (some (.IntegerValue 3))).addNewArgument (some (.StringValue [122, 122]))).call
        [] testClosure_dseg true
      = [([some (.IntegerValue 3), some (.StringValue [122, 122]), some (.IntegerValue 1),
           some (.IntegerValue 9), some (.IntegerValue 5)], true)] ∧
    (testClosure_c2 testToString).call "" testClosure_dseg true = "3,\"zz\",1,9,5,y" :=
  ⟨rfl, rfl, rfl, by decide⟩

/-- C10: `addNewArgumentsFrom(segment, count)`, for `count` not above the size of the
segment, makes the bound-argument list `count` longer, keeps the arguments bound before
in place and puts behind them the last `count` values of the segment in segment order;
`addNewArgument(v)` appends the single value `v`. Neither changes the base callable. -/
theorem closure_addNewArguments {σ : Type} (c : Closure σ) (seg : Segment) (count : Nat)
    (v : Option Value) (h : count ≤ seg.size) :
    ((c.addNewArgumentsFrom seg count).function.call = c.function.call ∧
      (c.addNewArgumentsFrom seg count).fixedArgs.size = c.fixedArgs.size + count ∧
      (∀ i, i < c.fixedArgs.size →
        (c.addNewArgumentsFrom seg count).fixedArgs.get i = c.fixedArgs.get i) ∧
      (∀ j, j < count →
        (c.addNewArgumentsFrom seg count).fixedArgs.get (c.fixedArgs.size + j)
          = seg.get (seg.size - count + j))) ∧
    ((c.addNewArgument v).function.call = c.function.call ∧
      (c.addNewArgument v).fixedArgs.content = c.fixedArgs.content ++ [v]) := by
  refine ⟨⟨rfl, ?_, ?_, ?_⟩, rfl, rfl⟩
  · simp only [Closure.addNewArgumentsFrom, Segment.size, List.length_append, List.length_drop]
      at h ⊢
    omega
  · intro i hi
    simp only [Closure.addNewArgumentsFrom, Segment.get, Segment.size, List.get?_eq_getElem?]
      at hi ⊢
    rw [List.getElem?_append_left hi]
  · intro j _
    simp only [Closure.addNewArgumentsFrom, Segment.get, Segment.size, List.get?_eq_getElem?]
    rw [List.getElem?_append_right (by omega), List.getElem?_drop]
    congr 2
    omega

/-- C10 at the test input: bound 3, "zz" and segment [999, 42, True] with count 2 give the
bound list 3, "zz", 42, True. -/
theorem closure_addNewArguments_witness :
    ((testClosure_c2 testToString).addNewArgumentsFrom testClosure_a 2).fixedArgs.content
      = [some (.IntegerValue 3), some (.StringValue [122, 122]), some (.IntegerValue 42),
         some (.BooleanValue true)] ∧
    ((testClosure_c2 testToString).addNewArgumentsFrom testClosure_a 2).fixedArgs.size
      = (testClosure_c2 testToString).fixedArgs.size + 2 ∧
    ((testClosure_c2 testToString).addNewArgumentsFrom testClosure_a 2).fixedArgs.get (2 + 1)
      = some (.BooleanValue true) :=
  ⟨by decide,
   (closure_addNewArguments (testClosure_c2 testToString) testClosure_a 2 none (by decide)).1.2.1,
   ((closure_addNewArguments (testClosure_c2 testToString) testClosure_a 2 none
      (by decide)).1.2.2.2 1 (by decide)).trans (by decide)⟩

/-- C11: for every `BeamFunction` value, tag node, auxiliary sink, charset and save
context, `store` throws `notSerializable` and leaves the tag node and the auxiliary sink as
they were; `MyCallable::store` of the closure test does the same. -/
theorem store_notSerializable {Session Charset SaveContext : Type} (self : Session)
    (m_state : String) (out : TagNode) (aux : List Nat) (cs : Charset)
    (ctx : Option SaveContext) :
    (BeamFunction.store self out aux cs ctx).thrown = some .notSerializable ∧
    (BeamFunction.store self out aux cs ctx).state = (out, aux) ∧
    (MyCallable.store m_state out aux cs ctx).thrown = some .notSerializable ∧
    (MyCallable.store m_state out aux cs ctx).state = (out, aux) :=
  ⟨rfl, rfl, rfl, rfl⟩

/-- C12: assigning to a non-assignable value throws `notAssignable` and leaves the state as
it was. `BeamFunction.set` does so for every argument list and value; `ShipContext.set`
for every builtin index whose row of `ship_mapping` is not of `ShipPropertyDomain` (these
are the rows ENEMY, ENEMY.ADJ, HULL, HULL$, HULL.SHORT, MARK, OWNER, OWNER$, OWNER.ADJ,
TECH.HULL, UNMARK) and for every index when there is no ship object; `TorpedoContext.set`
for every row of `WeaponPropertyDomain` (DAMAGE, KILL) and for every index when there is no
launcher. -/
theorem set_notAssignable {σ τ ρ Arguments : Type} (envS : ShipContextEnv σ)
    (envT : TorpedoContextEnv τ) (stB : ρ) (args : Arguments) (stS : σ) (stT : τ)
    (index : Nat) (value : Option Value) :
    ((BeamFunction.set stB args value).thrown = some .notAssignable ∧
      (BeamFunction.set stB args value).state = stB) ∧
    (∀ row, envS.getObject stS = true → ship_mapping[index]? = some row →
      row.domain ≠ .ShipPropertyDomain →
      (ShipContext.set envS stS index value).thrown = some .notAssignable ∧
      (ShipContext.set envS stS index value).state = stS) ∧
    (envS.getObject stS = false →
      (ShipContext.set envS stS index value).thrown = some .notAssignable ∧
      (ShipContext.set envS stS index value).state = stS) ∧
    (∀ row, envT.getLauncher stT = true → torpedo_map[index]? = some row →
      row.domain = .WeaponPropertyDomain →
      TorpedoContext.set envT stT index value = some ⟨stT, some .notAssignable⟩) ∧
    (envT.getLauncher stT = false →
      TorpedoContext.set envT stT index value = some ⟨stT, some .notAssignable⟩) ∧
    (ship_mapping.filter (fun r => r.domain ≠ .ShipPropertyDomain)).map (·.name)
      = ["ENEMY", "ENEMY.ADJ", "HULL", "HULL$", "HULL.SHORT", "MARK", "OWNER", "OWNER$",
         "OWNER.ADJ", "TECH.HULL", "UNMARK"] ∧
    (torpedo_map.filter (fun r => r.domain = .WeaponPropertyDomain)).map (·.name)
      = ["DAMAGE", "KILL"] := by
  refine ⟨⟨rfl, rfl⟩, ?_, ?_, ?_, ?_, by decide, by decide⟩
  · intro row hobj hrow hdom
    have hlt : index < NUM_SHIP_PROPERTIES := by
      have := (List.getElem?_eq_some.mp hrow).1
      exact this
    simp only [ShipContext.set, hobj, if_true, if_pos hlt, hrow]
    cases hd : row.domain <;> simp_all
  · intro hobj
    simp [ShipContext.set, hobj]
  · intro row hl hrow hdom
    simp only [TorpedoContext.set, hl, if_true, hrow, hdom]
  · intro hl
    simp [TorpedoContext.set, hl]

/-- C12 at concrete inputs: with a ship object present, index 35 is the row HULL of the
component domain and the assignment throws `notAssignable`; with the launcher present,
index 5 is the row DAMAGE of the weapon domain and the assignment throws as well. The
state is a number that every outside call would change. -/
theorem set_notAssignable_witness :
    (ship_mapping[35]?).map (·.name) = some "HULL" ∧
    (ShipContext.set (σ := Nat) ⟨fun _ => true, fun s _ _ => ⟨s + 1, none⟩,
        fun s _ _ => s + 1, fun s => s + 1⟩ 7 35 none).thrown = some .notAssignable ∧
    (ShipContext.set (σ := Nat) ⟨fun _ => true, fun s _ _ => ⟨s + 1, none⟩,
        fun s _ _ => s + 1, fun s => s + 1⟩ 7 35 none).state = 7 ∧
    (torpedo_map[5]?).map (·.name) = some "DAMAGE" ∧
    TorpedoContext.set (σ := Nat) ⟨fun _ => true, fun s _ _ => ⟨s + 1, none⟩⟩ 7 5 none
      = some ⟨7, some .notAssignable⟩ := by
  have h := @set_notAssignable Nat Nat Nat Nat
    ⟨fun _ => true, fun s _ _ => ⟨s + 1, none⟩, fun s _ _ => s + 1, fun s => s + 1⟩
    ⟨fun _ => true, fun s _ _ => ⟨s + 1, none⟩⟩ 0 0 7 7 35 none
  have h5 := @set_notAssignable Nat Nat Nat Nat
    ⟨fun _ => true, fun s _ _ => ⟨s + 1, none⟩, fun s _ _ => s + 1, fun s => s + 1⟩
    ⟨fun _ => true, fun s _ _ => ⟨s + 1, none⟩⟩ 0 0 7 7 5 none
  refine ⟨by decide, ?_, ?_, by decide, ?_⟩
  · exact (h.2.1 _ rfl rfl (by decide)).1
  · exact (h.2.1 _ rfl rfl (by decide)).2
  · exact h5.2.2.2.1 _ rfl rfl rfl

/-- C16: `setSectionAddress` throws `FileFormatException` if and only if the address read
from the file is below 32 or not below the file size, and then changes nothing;
otherwise it stores `address - 1` for the section and leaves the other sections alone,
after which `hasSection` holds and `getSectionOffset` gives `true` and that offset.
`getSectionOffset` on an absent section gives `false` and leaves the output as it was. -/
theorem setSectionAddress_spec (rf : ResultFile) (sec : Nat) (addressFromFile : Int)
    (fileSize : Nat) (tx : String → String) (format : String → Nat → String) (out : Nat)
    (ha : -2 ^ 31 ≤ addressFromFile ∧ addressFromFile < 2 ^ 31) :
    (((rf.setSectionAddress sec addressFromFile fileSize tx format).thrown ≠ none ↔
        (addressFromFile < 32 ∨ (fileSize : Int) ≤ addressFromFile)) ∧
      (∀ e, (rf.setSectionAddress sec addressFromFile fileSize tx format).thrown = some e →
        (∃ msg, e = .FileFormatException msg) ∧
        (rf.setSectionAddress sec addressFromFile fileSize tx format).state = rf)) ∧
    ((rf.setSectionAddress sec addressFromFile fileSize tx format).thrown = none →
      ((rf.setSectionAddress sec addressFromFile fileSize tx format).state.m_offset sec : Int)
        = addressFromFile - 1 ∧
      (∀ s, s ≠ sec →
        (rf.setSectionAddress sec addressFromFile fileSize tx format).state.m_offset s
          = rf.m_offset s) ∧
      (rf.setSectionAddress sec addressFromFile fileSize tx format).state.hasSection sec = true ∧
      (rf.setSectionAddress sec addressFromFile fileSize tx format).state.getSectionOffset sec out
        = (true, (addressFromFile - 1).toNat)) ∧
    (rf.hasSection sec = false → rf.getSectionOffset sec out = (false, out)) := by
  obtain ⟨halo, hahi⟩ := ha
  by_cases hbad : addressFromFile < 32 ∨ toFileSize addressFromFile ≥ fileSize
  · have hmath : addressFromFile < 32 ∨ (fileSize : Int) ≤ addressFromFile := by
      rcases hbad with h | h
      · exact Or.inl h
      · by_cases h32 : addressFromFile < 32
        · exact Or.inl h32
        · right
          unfold toFileSize at h
          omega
    refine ⟨⟨?_, ?_⟩, ?_, ?_⟩
    · simp [ResultFile.setSectionAddress, hbad, hmath]
    · intro e he
      simp only [ResultFile.setSectionAddress, if_pos hbad, Option.some.injEq] at he ⊢
      exact ⟨⟨_, he.symm⟩, trivial⟩
    · intro hn
      simp [ResultFile.setSectionAddress, hbad] at hn
    · intro h
      simp [ResultFile.getSectionOffset, h]
  · have h32 : ¬ addressFromFile < 32 := fun h => hbad (Or.inl h)
    have hsz : ¬ (fileSize : Int) ≤ addressFromFile := by
      intro h
      apply hbad
      right
      unfold toFileSize
      omega
    have hoff : toUInt32 (addressFromFile - 1) = (addressFromFile - 1).toNat := by
      unfold toUInt32
      omega
    refine ⟨⟨?_, ?_⟩, ?_, ?_⟩
    · simp only [ResultFile.setSectionAddress, if_neg hbad]
      constructor
      · intro h
        exact absurd rfl h
      · intro h
        rcases h with h | h
        · exact absurd h h32
        · exact absurd h hsz
    · intro e he
      simp [ResultFile.setSectionAddress, hbad] at he
    · intro _
      simp only [ResultFile.setSectionAddress, if_neg hbad, ResultFile.hasSection,
        ResultFile.getSectionOffset, if_true, hoff]
      refine ⟨by omega, ?_, ?_, ?_⟩
      · intro s hs
        simp [hs]
      · simp
        omega
      · have : decide ((addressFromFile - 1).toNat > 0) = true := by
          simp
          omega
        simp [this]
        omega
    · intro h
      simp [ResultFile.getSectionOffset, h]

/-- C16 at concrete inputs: in a file of 1000 bytes, address 32 is stored as offset 31 for
section 3, while the addresses 31 and 1000 are refused. -/
theorem setSectionAddress_spec_witness :
    ((ResultFile.mk (-1) (fun _ => 0)).setSectionAddress 3 32 1000 id
        (fun s _ => s)).thrown = none ∧
    ((ResultFile.mk (-1) (fun _ => 0)).setSectionAddress 3 32 1000 id
        (fun s _ => s)).state.getSectionOffset 3 77 = (true, 31) ∧
    ((ResultFile.mk (-1) (fun _ => 0)).setSectionAddress 3 31 1000 id
        (fun s _ => s)).thrown ≠ none ∧
    ((ResultFile.mk (-1) (fun _ => 0)).setSectionAddress 3 1000 1000 id
        (fun s _ => s)).thrown ≠ none ∧
    (ResultFile.mk (-1) (fun _ => 0)).getSectionOffset 3 77 = (false, 77) := by
  have h32 := setSectionAddress_spec (ResultFile.mk (-1) (fun _ => 0)) 3 32 1000 id
    (fun s _ => s) 77 (by decide)
  have h31 := setSectionAddress_spec (ResultFile.mk (-1) (fun _ => 0)) 3 31 1000 id
    (fun s _ => s) 77 (by decide)
  have h1000 := setSectionAddress_spec (ResultFile.mk (-1) (fun _ => 0)) 3 1000 1000 id
    (fun s _ => s) 77 (by decide)
  have hnone : ((ResultFile.mk (-1) (fun _ => 0)).setSectionAddress 3 32 1000 id
      (fun s _ => s)).thrown = none := by
    by_contra hc
    have := h32.1.1.mp hc
    omega
  refine ⟨hnone, ?_, ?_, ?_, ?_⟩
  · exact (h32.2.1 hnone).2.2.2
  · exact h31.1.1.mpr (Or.inl (by decide))
  · exact h1000.1.1.mpr (Or.inr (by decide))
  · exact h32.2.2 rfl
/-- The accumulated value of digits on top of a start value. -/
theorem decimal_foldl_ge (ds : List Char) (v : Nat) :
    v ≤ ds.foldl (fun v c => 10 * v + (c.toNat - '0'.toNat)) v := by
  induction ds generalizing v with
  | nil => exact le_refl _
  | cons c ds ih =>
    simp only [List.foldl_cons]
    exact le_trans (by omega) (ih _)

theorem scanDigits_digits (ds : List Char) (rest : List Char) (v : Nat)
    (hds : ∀ c ∈ ds, '0' ≤ c ∧ c ≤ '9')
    (hrest : ∀ c, rest.head? = some c → ¬ ('0' ≤ c ∧ c ≤ '9'))
    (hv : ds.foldl (fun v c => 10 * v + (c.toNat - '0'.toNat)) v ≤ 127) :
    scanDigits (ds ++ rest) (v : Int)
      = (((ds.foldl (fun v c => 10 * v + (c.toNat - '0'.toNat)) v : Nat) : Int), rest) := by
  induction ds generalizing v with
  | nil =>
    cases rest with
    | nil => rfl
    | cons c rest =>
      have := hrest c rfl
      simp only [List.nil_append, scanDigits, if_neg this, List.foldl_nil]
  | cons c ds ih =>
    have hc := hds c (List.mem_cons_self _ _)
    have hge : '0'.toNat ≤ c.toNat := hc.1
    simp only [List.cons_append, scanDigits, if_pos hc, List.foldl_cons] at hv ⊢
    have hstep : 10 * v + (c.toNat - '0'.toNat) ≤ 127 :=
      le_trans (decimal_foldl_ge ds _) hv
    have hcast : toInt8 (10 * (v : Int) + (c.toNat : Int) - ('0'.toNat : Int))
        = ((10 * v + (c.toNat - '0'.toNat) : Nat) : Int) := by
      unfold toInt8
      omega
    rw [hcast]
    exact ih _ (fun d hd => hds d (List.mem_cons_of_mem _ hd)) hv

theorem skipSpaces_spaces (k : Nat) (text : List Char) (ht : text.head? ≠ some ' ') :
    skipSpaces (List.replicate k ' ' ++ text) = text := by
  induction k with
  | zero =>
    cases text with
    | nil => rfl
    | cons c text =>
      have hc : c ≠ ' ' := fun h => ht (by rw [h]; rfl)
      simp [skipSpaces, hc]
  | succ k ih =>
    simp only [List.replicate_succ, List.cons_append, skipSpaces, if_true]
    exact ih

/-- C17: for a line `+n,text`, `-n,text` or `=n,text`, with `n` written in decimal digits
and at most 127, `parseCheckInstruction` makes exactly one call of `addCheckInstruction`:
opcode `base+sRelative` and offset `n` for `+`, opcode `base+sRelative` and offset `-n`
for `-`, opcode `base+sFixed` and offset `n` for `=`, each with the text behind the comma
and the spaces that follow it; for an empty line and for a line that starts with another
character the call has opcode `base+sAny`, offset 0 and the whole line. The scope codes
are different from each other, as enumerators are. -/
theorem parseCheckInstruction_spec {Tpl : Type} (K : ScopeCodes)
    (add : Tpl → Nat → Int → List Char → Tpl) (tpl : Tpl) (opcode : Nat)
    (ds : List Char) (k : Nat) (text line : List Char)
    (hrel : K.sRelative ≠ K.sAny) (hfix : K.sFixed ≠ K.sAny)
    (hds : ∀ c ∈ ds, '0' ≤ c ∧ c ≤ '9') (hn : decimalValue ds ≤ 127)
    (htext : text.head? ≠ some ' ')
    (hline : ∀ c, line.head? = some c → c ≠ '+' ∧ c ≠ '-' ∧ c ≠ '=') :
    parseCheckInstruction K add tpl opcode ('+' :: ds ++ ',' :: List.replicate k ' ' ++ text)
      = add tpl (opcode + K.sRelative) (decimalValue ds) text ∧
    parseCheckInstruction K add tpl opcode ('-' :: ds ++ ',' :: List.replicate k ' ' ++ text)
      = add tpl (opcode + K.sRelative) (-(decimalValue ds : Int)) text ∧
    parseCheckInstruction K add tpl opcode ('=' :: ds ++ ',' :: List.replicate k ' ' ++ text)
      = add tpl (opcode + K.sFixed) (decimalValue ds) text ∧
    parseCheckInstruction K add tpl opcode line = add tpl (opcode + K.sAny) 0 line := by
  have hscan : scanDigits (ds ++ ',' :: (List.replicate k ' ' ++ text)) 0
      = ((decimalValue ds : Int), ',' :: (List.replicate k ' ' ++ text)) := by
    have := scanDigits_digits ds (',' :: (List.replicate k ' ' ++ text)) 0 hds
      (by
        intro c hc
        simp only [List.head?_cons, Option.some.injEq] at hc
        subst hc
        decide)
      hn
    simpa [decimalValue] using this
  have hskip := skipSpaces_spaces k text htext
  have hval : toInt8 ((decimalValue ds : Int) * 1) = (decimalValue ds : Int) := by
    unfold toInt8
    omega
  have hneg : toInt8 ((decimalValue ds : Int) * -1) = -(decimalValue ds : Int) := by
    unfold toInt8
    omega
  refine ⟨?_, ?_, ?_, ?_⟩
  · simp only [parseCheckInstruction, List.cons_append, List.append_assoc, if_true, ne_eq,
      hrel, not_false_eq_true, hscan, hskip, hval]
  · have h1 : ('-' : Char) ≠ '+' := by decide
    simp only [parseCheckInstruction, List.cons_append, List.append_assoc, if_true, ne_eq,
      hrel, not_false_eq_true, hscan, hskip, hneg, if_neg h1]
  · have h1 : ('=' : Char) ≠ '+' := by decide
    have h2 : ('=' : Char) ≠ '-' := by decide
    simp only [parseCheckInstruction, List.cons_append, List.append_assoc, if_true, ne_eq,
      hfix, not_false_eq_true, hscan, hskip, hval, if_neg h1, if_neg h2]
  · cases line with
    | nil => rfl
    | cons c rest =>
      obtain ⟨h1, h2, h3⟩ := hline c rfl
      simp only [parseCheckInstruction, if_neg h1, if_neg h2, if_neg h3, ne_eq,
        not_true_eq_false, if_false]

/-- C17 at the lines `+5,text`, `-12, text`, `=127,x` and `text`, with scope codes 0, 1, 2
and base opcode 40, on a template that records the calls. -/
theorem parseCheckInstruction_spec_witness :
    parseCheckInstruction ⟨0, 1, 2⟩ recordCheckInstruction [] 40 "+5,text".toList
      = [(41, 5, "text".toList)] ∧
    parseCheckInstruction ⟨0, 1, 2⟩ recordCheckInstruction [] 40 "-5,text".toList
      = [(41, -5, "text".toList)] ∧
    parseCheckInstruction ⟨0, 1, 2⟩ recordCheckInstruction [] 40 "=5,text".toList
      = [(42, 5, "text".toList)] ∧
    parseCheckInstruction ⟨0, 1, 2⟩ recordCheckInstruction [] 40 "text".toList
      = [(40, 0, "text".toList)] :=
  parseCheckInstruction_spec ⟨0, 1, 2⟩ recordCheckInstruction [] 40 ['5'] 0 "text".toList
    "text".toList (by decide) (by decide) (by decide) (by decide) (by decide) (by decide)

/-- C18 at the line `+5x` (digits not followed by a comma), with scope codes 0, 1, 2 and
base opcode 40: the instruction has opcode `base+sAny` and the unmodified line, but its
offset is 5, the digits read so far, not 0; a line without modifier, `x`, gets offset 0.
With no digit behind the sign (`+x`) the offset is 0. -/
theorem parseCheckInstruction_backout_keeps_offset :
    parseCheckInstruction ⟨0, 1, 2⟩ recordCheckInstruction [] 40 "+5x".toList
      = [(40, 5, "+5x".toList)] ∧
    parseCheckInstruction ⟨0, 1, 2⟩ recordCheckInstruction [] 40 "-12".toList
      = [(40, 12, "-12".toList)] ∧
    parseCheckInstruction ⟨0, 1, 2⟩ recordCheckInstruction [] 40 "x".toList
      = [(40, 0, "x".toList)] ∧
    parseCheckInstruction ⟨0, 1, 2⟩ recordCheckInstruction [] 40 "+x".toList
      = [(40, 0, "+x".toList)] := by
  decide

/-- C19, as stated, fails: for a template of type Ship whose only variable is the Id, a
message that produced nothing but the Id slot, with an Id that parses to 0, is skipped as
well: `info` stays empty. Nothing is logged in that case; with a second value produced
the message is skipped too and the error is logged. -/
theorem generateOutput_id_only_skipped :
    generateOutput exampleValueEnv [['0']] shipIdTemplate 10 [] [] = some ([], []) ∧
    generateOutput exampleValueEnv [['0'], ['x']] shipIdNameTemplate 10 [] []
      = some ([], [.noId ['t']]) ∧
    generateOutput exampleValueEnv [['7'], ['x']] shipIdNameTemplate 10 [] []
      = some ([⟨.Ship, 7, 10, [.stringValue 0 ['x']]⟩], []) := by
  decide

/-- C19 (amended): for a template of type Ship, Minefield, Planet, Starbase or IonStorm
whose Id is missing or parses to 0, `generateOutput` always skips the message: `info` is
left as it was. It writes the error "did not produce Id number" to the log exactly when
`values.size() > (skipSlot < values.size() ? 1 : 0)`, that is when other fields were
produced as well, and nothing otherwise. -/
theorem generateOutput_missing_id (E : MessageValueEnv) (values : List (List Char))
    (tpl : MessageTemplate) (turnNr : Int) (info : List MessageInformation)
    (log : List LogMessage) (skipSlot : Nat)
    (hty : tpl.getMessageType = .Ship ∨ tpl.getMessageType = .Minefield ∨
      tpl.getMessageType = .Planet ∨ tpl.getMessageType = .Starbase ∨
      tpl.getMessageType = .IonStorm)
    (hid : readId E values tpl = some (0, skipSlot)) :
    generateOutput E values tpl turnNr info log
      = some (info,
          if values.length > (if skipSlot < values.length then 1 else 0)
          then log ++ [.noId tpl.getTemplateName] else log) := by
  unfold generateOutput
  rcases hty with h | h | h | h | h <;> rw [h] <;> simp only [hid, if_true] <;> split_ifs <;> rfl

/-- C19 (amended) at concrete inputs: the Id is missing (no variable `ID`), one other value
was produced: the message is skipped and the error logged; and the Id-only message with
Id 0 is skipped without a log line. -/
theorem generateOutput_missing_id_witness :
    generateOutput exampleValueEnv [['x']]
        ⟨.Planet, ['p'], 1, fun _ => ['N', 'A', 'M', 'E'], fun _ => none⟩ 10 [] []
      = some ([], [.noId ['p']]) ∧
    generateOutput exampleValueEnv [['0']] shipIdTemplate 10 [] [] = some ([], []) :=
  ⟨generateOutput_missing_id exampleValueEnv [['x']]
      ⟨.Planet, ['p'], 1, fun _ => ['N', 'A', 'M', 'E'], fun _ => none⟩ 10 [] [] 2
      (Or.inr (Or.inr (Or.inl rfl))) rfl,
   generateOutput_missing_id exampleValueEnv [['0']] shipIdTemplate 10 [] [] 0
      (Or.inl rfl) rfl⟩
/-- C20 at the rich text with the single character U+00E4 (UTF-8 bytes C3 A4): `RLen`
returns 2, the number of bytes, while the text has one character; for a text of
one-byte characters (`abc`) both numbers are 3, and for EMPTY the result is EMPTY. -/
theorem IFRLen_counts_bytes :
    IFRLen (fun _ _ => []) (.error "argument count") [some (.RichTextValue ⟨[0xC3, 0xA4], []⟩)]
      = .ok (some (.IntegerValue 2)) ∧
    utf8Length [0xC3, 0xA4] = 1 ∧
    IFRLen (fun _ _ => []) (.error "argument count") [some (.RichTextValue ⟨[97, 98, 99], []⟩)]
      = .ok (some (.IntegerValue 3)) ∧
    utf8Length [97, 98, 99] = 3 ∧
    IFRLen (fun _ _ => []) (.error "argument count") [none] = .ok none :=
  ⟨rfl, by decide, rfl, by decide, rfl⟩

theorem PlayerArray.set_data {α : Type} (MAX_PLAYERS n : Nat) (a : PlayerArray α) (v : α)
    (hn : n ≤ MAX_PLAYERS) (j : Nat) :
    (a.set MAX_PLAYERS (Int.ofNat n) v).data j = if j = n then v else a.data j := by
  have hin : (0 : Int) ≤ Int.ofNat n ∧ Int.ofNat n ≤ (MAX_PLAYERS : Int) := by
    simp only [Int.ofNat_eq_coe]
    omega
  have ht : (Int.ofNat n).toNat = n := rfl
  simp only [PlayerArray.set, hin, and_self, if_true, ht]

theorem clear_playerTeams_data (MAX_PLAYERS n : Nat) (hn : n ≤ MAX_PLAYERS + 1) (j : Nat) :
    ((List.range n).foldl
        (fun (a : PlayerArray Int) (i : Nat) => a.set MAX_PLAYERS (Int.ofNat i) (Int.ofNat i))
        (PlayerArray.setAll 0)).data j
      = if j < n then (j : Int) else 0 := by
  induction n with
  | zero => simp [PlayerArray.setAll]
  | succ n ih =>
    rw [List.range_succ, List.foldl_append]
    simp only [List.foldl_cons, List.foldl_nil]
    rw [PlayerArray.set_data MAX_PLAYERS n _ _ (by omega)]
    by_cases hj : j = n
    · subst hj
      simp
    · rw [if_neg hj, ih (by omega)]
      by_cases hlt : j < n
      · simp [hlt, Nat.lt_succ_of_lt hlt]
      · have : ¬ j < n + 1 := by omega
        simp [hlt, this]

theorem clear_getPlayerTeam (MAX_PLAYERS : Nat) (ts : TeamSettings) (i : Int)
    (h0 : 0 ≤ i) (h1 : i ≤ MAX_PLAYERS) :
    (ts.clear MAX_PLAYERS).getPlayerTeam MAX_PLAYERS i = i := by
  simp only [TeamSettings.getPlayerTeam, TeamSettings.clear, PlayerArray.get, h0, h1, and_self,
    if_true]
  rw [clear_playerTeams_data MAX_PLAYERS (MAX_PLAYERS + 1) (le_refl _)]
  have : i.toNat < MAX_PLAYERS + 1 := by omega
  simp only [this, if_true]
  omega

/-- C14: when `load` opens a team file whose first 8 bytes are not the signature, it
throws and leaves the settings exactly as `clear()` makes them: flags, passcode and
viewpoint player 0, every team name empty, every send and receive setting 0, every
player `i` in `0 .. MAX_PLAYERS` in team `i`. With a complete header of 34 bytes the
exception is the `FileFormatException` "File is missing required signature"; a shorter
file fails in `fullRead` before the signature is looked at, with the exception of that
function. So the exception is a `FileFormatException` for every such file, provided the
one `fullRead` throws for a file that is too short is one. -/
theorem load_bad_signature (MAX_PLAYERS : Nat)
    (loadPascalString : Stream → Option (List Nat) × Stream) (fileTooShort : Exception)
    (ts : TeamSettings) (dir : String → Option (List Nat)) (player : Int) (bytes : List Nat)
    (hfile : dir ("team" ++ toString player ++ ".cc") = some bytes)
    (hsig : bytes.take 8 ≠ TEAM_MAGIC) :
    ((∃ msg, fileTooShort = .FileFormatException msg) →
      ∃ msg, (TeamSettings.load MAX_PLAYERS loadPascalString fileTooShort ts dir player).thrown
        = some (.FileFormatException msg)) ∧
    (TeamSettings.load MAX_PLAYERS loadPascalString fileTooShort ts dir player).state
      = ts.clear MAX_PLAYERS ∧
    (34 ≤ bytes.length →
      (TeamSettings.load MAX_PLAYERS loadPascalString fileTooShort ts dir player).thrown
        = some (.FileFormatException "File is missing required signature")) ∧
    (bytes.length < 34 →
      (TeamSettings.load MAX_PLAYERS loadPascalString fileTooShort ts dir player).thrown
        = some fileTooShort) ∧
    (ts.clear MAX_PLAYERS).m_flags = 0 ∧
    (ts.clear MAX_PLAYERS).m_passcode = 0 ∧
    (ts.clear MAX_PLAYERS).m_viewpointPlayer = 0 ∧
    (∀ i : Int, (ts.clear MAX_PLAYERS).m_teamNames.get MAX_PLAYERS i = [] ∧
      (ts.clear MAX_PLAYERS).m_sendConfig.get MAX_PLAYERS i = 0 ∧
      (ts.clear MAX_PLAYERS).m_receiveConfig.get MAX_PLAYERS i = 0) ∧
    (∀ i : Int, 0 ≤ i → i ≤ MAX_PLAYERS →
      (ts.clear MAX_PLAYERS).getPlayerTeam MAX_PLAYERS i = i) := by
  have hload : 34 ≤ bytes.length →
      TeamSettings.load MAX_PLAYERS loadPascalString fileTooShort ts dir player
        = ⟨ts.clear MAX_PLAYERS,
            some (.FileFormatException "File is missing required signature")⟩ := by
    intro hlen
    have hhead : (List.take 34 bytes).take 8 ≠ TEAM_MAGIC := by
      rw [List.take_take]
      exact hsig
    simp only [TeamSettings.load, hfile, Stream.fullRead, Nat.zero_add, hlen, if_true,
      List.drop_zero, ne_eq, hhead, not_false_eq_true]
  have hshort : bytes.length < 34 →
      TeamSettings.load MAX_PLAYERS loadPascalString fileTooShort ts dir player
        = ⟨ts.clear MAX_PLAYERS, some fileTooShort⟩ := by
    intro hlen
    have : ¬ 34 ≤ bytes.length := by omega
    simp only [TeamSettings.load, hfile, Stream.fullRead, Nat.zero_add, this, if_false]
  refine ⟨?_, ?_, ?_, ?_, rfl, rfl, rfl, ?_, ?_⟩
  · rintro ⟨msg, hmsg⟩
    by_cases hlen : 34 ≤ bytes.length
    · exact ⟨_, by rw [hload hlen]⟩
    · exact ⟨msg, by rw [hshort (by omega), hmsg]⟩
  · by_cases hlen : 34 ≤ bytes.length
    · rw [hload hlen]
    · rw [hshort (by omega)]
  · intro hlen
    rw [hload hlen]
  · intro hlen
    rw [hshort hlen]
  · intro i
    simp only [TeamSettings.clear, PlayerArray.get, PlayerArray.setAll]
    refine ⟨?_, ?_, ?_⟩ <;> split_ifs <;> rfl
  · intro i h0 h1
    exact clear_getPlayerTeam MAX_PLAYERS ts i h0 h1

theorem foldl_count_eq (l : List Nat) (p : Nat → Prop) [DecidablePred p] (n : Nat) :
    l.foldl (fun result i => if p i then result + 1 else result) n
      = n + l.countP (fun i => decide (p i)) := by
  induction l generalizing n with
  | nil => simp
  | cons a l ih =>
    simp only [List.foldl_cons, List.countP_cons, ih]
    by_cases h : p a
    · simp [h]
      omega
    · simp [h]

theorem getNumTeamMembers_eq (MAX_PLAYERS : Nat) (ts : TeamSettings) (team : Int) :
    ts.getNumTeamMembers MAX_PLAYERS team
      = (List.range' 1 MAX_PLAYERS).countP
          (fun i => decide (ts.m_playerTeams.get MAX_PLAYERS (Int.ofNat i) = team)) := by
  unfold TeamSettings.getNumTeamMembers
  rw [foldl_count_eq]
  omega

theorem PlayerArray.get_set (MAX_PLAYERS : Nat) (a : PlayerArray Int) (p q v : Int)
    (hp0 : 0 ≤ p) (hp1 : p ≤ MAX_PLAYERS) :
    (a.set MAX_PLAYERS p v).get MAX_PLAYERS q
      = if q = p then v else a.get MAX_PLAYERS q := by
  have hin : 0 ≤ p ∧ p ≤ (MAX_PLAYERS : Int) := ⟨hp0, hp1⟩
  unfold PlayerArray.set PlayerArray.get
  rw [if_pos hin]
  by_cases hq : 0 ≤ q ∧ q ≤ (MAX_PLAYERS : Int)
  · rw [if_pos hq, if_pos hq]
    by_cases hqp : q = p
    · rw [if_pos hqp, hqp]
      simp
    · have : q.toNat ≠ p.toNat := by omega
      rw [if_neg hqp]
      simp [this]
  · have hqp : q ≠ p := by
      rintro rfl
      exact hq hin
    rw [if_neg hq, if_neg hq, if_neg hqp]

theorem getPlayerTeam_setPlayerTeam (MAX_PLAYERS : Nat) (ts : TeamSettings) (p t q : Int)
    (hp0 : 0 ≤ p) (hp1 : p ≤ MAX_PLAYERS) :
    (ts.setPlayerTeam MAX_PLAYERS p t).getPlayerTeam MAX_PLAYERS q
      = if q = p then t else ts.getPlayerTeam MAX_PLAYERS q := by
  unfold TeamSettings.setPlayerTeam TeamSettings.getPlayerTeam
  by_cases hne : t ≠ ts.m_playerTeams.get MAX_PLAYERS p
  · rw [if_pos hne]
    exact PlayerArray.get_set MAX_PLAYERS ts.m_playerTeams p q t hp0 hp1
  · have heq : t = ts.m_playerTeams.get MAX_PLAYERS p := by
      by_contra h
      exact hne h
    rw [if_neg hne]
    by_cases hqp : q = p
    · rw [if_pos hqp, hqp, heq]
    · rw [if_neg hqp]

theorem count_self_range (MAX_PLAYERS n : Nat) (h1 : 1 ≤ n) (h2 : n ≤ MAX_PLAYERS) :
    (List.range' 1 MAX_PLAYERS).countP (fun i => decide (i = n)) = 1 := by
  have hmem : n ∈ List.range' 1 MAX_PLAYERS := by
    rw [List.mem_range'_1]
    omega
  have := List.count_eq_one_of_mem (List.nodup_range' 1 MAX_PLAYERS) hmem
  rw [List.count_eq_countP] at this
  refine Eq.trans ?_ this
  apply List.countP_congr
  intro x _
  simp

theorem getNumTeamMembers_after_move (MAX_PLAYERS : Nat) (ts : TeamSettings) (p t : Int)
    (hp0 : 1 ≤ p) (hp1 : p ≤ MAX_PLAYERS)
    (hunused : ts.getNumTeamMembers MAX_PLAYERS t = 0) :
    (ts.setPlayerTeam MAX_PLAYERS p t).getNumTeamMembers MAX_PLAYERS t = 1 := by
  rw [getNumTeamMembers_eq] at hunused ⊢
  rw [List.countP_eq_zero] at hunused
  refine Eq.trans ?_ (count_self_range MAX_PLAYERS p.toNat (by omega) (by omega))
  apply List.countP_congr
  intro x hx
  have hold := hunused x hx
  have hget := getPlayerTeam_setPlayerTeam MAX_PLAYERS ts p t (Int.ofNat x) (by omega) hp1
  unfold TeamSettings.getPlayerTeam at hget
  rw [hget]
  simp only [decide_eq_true_eq] at hold ⊢
  constructor
  · intro h
    by_cases hxp : Int.ofNat x = p
    · rw [← hxp]
      rfl
    · rw [if_neg hxp] at h
      exact absurd h hold
  · intro h
    have : Int.ofNat x = p := by
      rw [h]
      simp only [Int.ofNat_eq_coe]
      omega
    rw [if_pos this]

theorem getNumTeamMembers_own_pos (MAX_PLAYERS : Nat) (ts : TeamSettings) (p : Int)
    (hp0 : 1 ≤ p) (hp1 : p ≤ MAX_PLAYERS) :
    1 ≤ ts.getNumTeamMembers MAX_PLAYERS (ts.getPlayerTeam MAX_PLAYERS p) := by
  rw [getNumTeamMembers_eq]
  apply List.countP_pos_iff.mpr
  refine ⟨p.toNat, ?_, ?_⟩
  · rw [List.mem_range'_1]
    omega
  · have : Int.ofNat p.toNat = p := by
      simp only [Int.ofNat_eq_coe]
      omega
    simp only [TeamSettings.getPlayerTeam, this, decide_True]

/-- The pigeonhole step behind the search loop: when some team has more than one member
among the players `1 .. MAX_PLAYERS`, one of the team numbers `1 .. MAX_PLAYERS` has no
member. -/
theorem exists_unused_team (MAX_PLAYERS : Nat) (ts : TeamSettings) (team : Int)
    (hmany : 1 < ts.getNumTeamMembers MAX_PLAYERS team) :
    ∃ i ∈ List.range' 1 MAX_PLAYERS, ts.getNumTeamMembers MAX_PLAYERS (Int.ofNat i) = 0 := by
  by_contra hnone
  have hall : ∀ i ∈ List.range' 1 MAX_PLAYERS,
      ∃ q ∈ List.range' 1 MAX_PLAYERS, ts.m_playerTeams.get MAX_PLAYERS (Int.ofNat q) = Int.ofNat i := by
    intro i hi
    have hpos : 0 < ts.getNumTeamMembers MAX_PLAYERS (Int.ofNat i) := by
      by_contra h0
      exact hnone ⟨i, hi, by omega⟩
    rw [getNumTeamMembers_eq, List.countP_pos_iff] at hpos
    obtain ⟨q, hq, hqt⟩ := hpos
    exact ⟨q, hq, by simpa using hqt⟩
  let f : Nat → Int := fun q => ts.m_playerTeams.get MAX_PLAYERS (Int.ofNat q)
  let S : Finset Nat := Finset.Icc 1 MAX_PLAYERS
  have hsub : S.image (fun i => Int.ofNat i) ⊆ S.image f := by
    intro x hx
    rw [Finset.mem_image] at hx ⊢
    obtain ⟨i, hi, rfl⟩ := hx
    have hi' : i ∈ List.range' 1 MAX_PLAYERS := by
      rw [List.mem_range'_1]
      have := Finset.mem_Icc.mp hi
      omega
    obtain ⟨q, hq, hqt⟩ := hall i hi'
    refine ⟨q, ?_, hqt⟩
    rw [List.mem_range'_1] at hq
    exact Finset.mem_Icc.mpr (by omega)
  have hcard1 : (S.image (fun i => Int.ofNat i)).card = S.card :=
    Finset.card_image_of_injective S (fun a b h => by simpa using h)
  have hcard2 : (S.image f).card = S.card :=
    le_antisymm Finset.card_image_le (hcard1 ▸ Finset.card_le_card hsub)
  have hinj : Set.InjOn f S := Finset.card_image_iff.mp hcard2
  -- two members of one team contradict injectivity
  rw [getNumTeamMembers_eq] at hmany
  have hpos : 0 < (List.range' 1 MAX_PLAYERS).countP
      (fun i => decide (ts.m_playerTeams.get MAX_PLAYERS (Int.ofNat i) = team)) := by omega
  obtain ⟨q, hq, hqt⟩ := List.countP_pos_iff.mp hpos
  have hqt' : f q = team := by simpa using hqt
  have hqr := List.mem_range'_1.mp hq
  have hone : (List.range' 1 MAX_PLAYERS).countP
      (fun i => decide (ts.m_playerTeams.get MAX_PLAYERS (Int.ofNat i) = team)) = 1 := by
    refine Eq.trans ?_ (count_self_range MAX_PLAYERS q (by omega) (by omega))
    apply List.countP_congr
    intro x hx
    have hxr := List.mem_range'_1.mp hx
    simp only [decide_eq_true_eq]
    constructor
    · intro h
      have hx' : f x = f q := by
        show ts.m_playerTeams.get MAX_PLAYERS (Int.ofNat x) = f q
        rw [h, hqt']
      exact hinj (Finset.mem_coe.mpr (Finset.mem_Icc.mpr (by omega)))
        (Finset.mem_coe.mpr (Finset.mem_Icc.mpr (by omega))) hx'
    · intro h
      rw [h]
      exact hqt'
  omega
theorem removePlayerTeam_move (MAX_PLAYERS : Nat) (ts : TeamSettings) (p t : Int)
    (hp0 : 1 ≤ p) (hp1 : p ≤ MAX_PLAYERS) (ht0 : 1 ≤ t) (ht1 : t ≤ MAX_PLAYERS)
    (hunused : ts.getNumTeamMembers MAX_PLAYERS t = 0) :
    (ts.setPlayerTeam MAX_PLAYERS p t).getNumTeamMembers MAX_PLAYERS
        ((ts.setPlayerTeam MAX_PLAYERS p t).getPlayerTeam MAX_PLAYERS p) = 1 ∧
    (∀ q : Int, q ≠ p →
      (ts.setPlayerTeam MAX_PLAYERS p t).getPlayerTeam MAX_PLAYERS q
        = ts.getPlayerTeam MAX_PLAYERS q) ∧
    (1 ≤ (ts.setPlayerTeam MAX_PLAYERS p t).getPlayerTeam MAX_PLAYERS p ∧
      (ts.setPlayerTeam MAX_PLAYERS p t).getPlayerTeam MAX_PLAYERS p ≤ MAX_PLAYERS) := by
  have hget : (ts.setPlayerTeam MAX_PLAYERS p t).getPlayerTeam MAX_PLAYERS p = t := by
    rw [getPlayerTeam_setPlayerTeam MAX_PLAYERS ts p t p (by omega) hp1, if_pos rfl]
  refine ⟨?_, ?_, ?_⟩
  · rw [hget]
    exact getNumTeamMembers_after_move MAX_PLAYERS ts p t hp0 hp1 hunused
  · intro q hq
    rw [getPlayerTeam_setPlayerTeam MAX_PLAYERS ts p t q (by omega) hp1, if_neg hq]
  · rw [hget]
    exact ⟨ht0, ht1⟩

/-- C15: for every assignment of players to teams and every player `p` in
`1 .. MAX_PLAYERS`, after `removePlayerTeam(p)` player `p` is the only member of its
team, every other player is in the team it was in, and if the team of `p` changed, the
new team number lies in `1 .. MAX_PLAYERS`: the search for an unused team succeeds. -/
theorem removePlayerTeam_spec (MAX_PLAYERS : Nat) (ts : TeamSettings) (p : Int)
    (hp0 : 1 ≤ p) (hp1 : p ≤ MAX_PLAYERS) :
    (ts.removePlayerTeam MAX_PLAYERS p).getNumTeamMembers MAX_PLAYERS
        ((ts.removePlayerTeam MAX_PLAYERS p).getPlayerTeam MAX_PLAYERS p) = 1 ∧
    (∀ q : Int, q ≠ p →
      (ts.removePlayerTeam MAX_PLAYERS p).getPlayerTeam MAX_PLAYERS q
        = ts.getPlayerTeam MAX_PLAYERS q) ∧
    ((ts.removePlayerTeam MAX_PLAYERS p).getPlayerTeam MAX_PLAYERS p
        ≠ ts.getPlayerTeam MAX_PLAYERS p →
      1 ≤ (ts.removePlayerTeam MAX_PLAYERS p).getPlayerTeam MAX_PLAYERS p ∧
      (ts.removePlayerTeam MAX_PLAYERS p).getPlayerTeam MAX_PLAYERS p ≤ MAX_PLAYERS) := by
  unfold TeamSettings.removePlayerTeam
  by_cases hmany : ts.getNumTeamMembers MAX_PLAYERS (ts.getPlayerTeam MAX_PLAYERS p) > 1
  · rw [if_pos hmany]
    by_cases hown : ts.getNumTeamMembers MAX_PLAYERS p = 0
    · rw [if_pos hown]
      obtain ⟨h1, h2, h3⟩ := removePlayerTeam_move MAX_PLAYERS ts p p hp0 hp1 hp0 hp1 hown
      exact ⟨h1, h2, fun _ => h3⟩
    · rw [if_neg hown]
      cases hfind : (List.range' 1 MAX_PLAYERS).find?
          (fun (i : Nat) => decide (ts.getNumTeamMembers MAX_PLAYERS (Int.ofNat i) = 0)) with
      | none =>
        exfalso
        obtain ⟨i, hi, hzero⟩ := exists_unused_team MAX_PLAYERS ts _ hmany
        have := List.find?_eq_none.mp hfind i hi
        simp only [decide_eq_true_eq] at this
        exact this hzero
      | some i =>
        have hmem := List.mem_range'_1.mp (List.mem_of_find?_eq_some hfind)
        have hzero : ts.getNumTeamMembers MAX_PLAYERS (Int.ofNat i) = 0 := by
          simpa using List.find?_some hfind
        have hi0 : (1 : Int) ≤ Int.ofNat i := by
          simp only [Int.ofNat_eq_coe]
          omega
        have hi1 : Int.ofNat i ≤ (MAX_PLAYERS : Int) := by
          simp only [Int.ofNat_eq_coe]
          omega
        obtain ⟨h1, h2, h3⟩ :=
          removePlayerTeam_move MAX_PLAYERS ts p (Int.ofNat i) hp0 hp1 hi0 hi1 hzero
        exact ⟨h1, h2, fun _ => h3⟩
  · rw [if_neg hmany]
    have := getNumTeamMembers_own_pos MAX_PLAYERS ts p hp0 hp1
    exact ⟨by omega, fun _ _ => rfl, fun h => absurd rfl h⟩

/-- C15 at a concrete assignment with `MAX_PLAYERS = 3`: players 1 and 2 share team 2,
player 3 is in team 1. Removing player 1 from its team has to search, as team 1 is in use,
and puts player 1 into team 3; players 2 and 3 stay where they are. -/
theorem removePlayerTeam_spec_witness :
    exampleTeamSettings.getPlayerTeam 3 1 = 2 ∧
    (exampleTeamSettings.removePlayerTeam 3 1).getPlayerTeam 3 1 = 3 ∧
    (exampleTeamSettings.removePlayerTeam 3 1).getNumTeamMembers 3
      ((exampleTeamSettings.removePlayerTeam 3 1).getPlayerTeam 3 1) = 1 ∧
    (exampleTeamSettings.removePlayerTeam 3 1).getPlayerTeam 3 2 = 2 ∧
    (exampleTeamSettings.removePlayerTeam 3 1).getPlayerTeam 3 3 = 1 := by
  have h := removePlayerTeam_spec 3 exampleTeamSettings 1 (by decide) (by decide)
  refine ⟨by decide, by decide, h.1, ?_, ?_⟩
  · rw [h.2.1 2 (by decide)]
    decide
  · rw [h.2.1 3 (by decide)]
    decide

/-- C14 at two concrete files. With `team3.cc` a complete header of 34 zero bytes, so
that the signature is wrong, loading it for player 3 into settings that had players 1 and
2 in team 2 throws `FileFormatException` and leaves every player in the team of its own
number. With `team3.cc` only 10 zero bytes long, `load` throws what `fullRead` throws and
leaves the same settings. -/
theorem load_bad_signature_witness :
    (TeamSettings.load 3 (fun s => (none, s)) (.FileFormatException "File too short")
      exampleTeamSettings exampleTeamDirectory 3).thrown
      = some (.FileFormatException "File is missing required signature") ∧
    (TeamSettings.load 3 (fun s => (none, s)) (.FileFormatException "File too short")
      exampleTeamSettings exampleTeamDirectory 3).state.getPlayerTeam 3 1 = 1 ∧
    (TeamSettings.load 3 (fun s => (none, s)) (.FileFormatException "File too short")
      exampleTeamSettings exampleTeamDirectory 3).state.getPlayerTeam 3 2 = 2 ∧
    (TeamSettings.load 3 (fun s => (none, s)) (.FileFormatException "File too short")
      exampleTeamSettings
      (fun name => if name = "team3.cc" then some (List.replicate 10 0) else none) 3).thrown
      = some (.FileFormatException "File too short") ∧
    (TeamSettings.load 3 (fun s => (none, s)) (.FileFormatException "File too short")
      exampleTeamSettings
      (fun name => if name = "team3.cc" then some (List.replicate 10 0) else none) 3).state
      = exampleTeamSettings.clear 3 := by
  have h := load_bad_signature 3 (fun s => (none, s)) (.FileFormatException "File too short")
    exampleTeamSettings exampleTeamDirectory 3 (List.replicate 34 0) (by decide) (by decide)
  have h10 := load_bad_signature 3 (fun s => (none, s))
    (.FileFormatException "File too short") exampleTeamSettings
    (fun name => if name = "team3.cc" then some (List.replicate 10 0) else none) 3
    (List.replicate 10 0) (by decide) (by decide)
  refine ⟨h.2.2.1 (by decide), ?_, ?_, h10.2.2.2.1 (by decide), h10.2.1⟩
  · rw [h.2.1]
    exact h.2.2.2.2.2.2.2.2 1 (by decide) (by decide)
  · rw [h.2.1]
    exact h.2.2.2.2.2.2.2.2 2 (by decide) (by decide)

/-! ## Lemmas: the `SCORE` loop of `generateOutput` -/

/-- The calls for a list of fields: the call for the first field, then those for the rest
with the next player number. -/
theorem scoreCalls_cons (E : MessageValueEnv) (first : Int) (f : List Char)
    (fs : List (List Char)) :
    scoreCalls E first (f :: fs)
      = (if f ≠ [] then [MessageValue.scoreValue first (E.parseIntegerValue f)] else [])
          ++ scoreCalls E (first + 1) fs := by
  unfold scoreCalls
  rw [List.length_cons, List.range_succ_eq_map, List.filterMap_cons, List.filterMap_map]
  have hrest : List.filterMap ((fun j =>
        if (f :: fs).getD j [] ≠ [] then
          some (MessageValue.scoreValue (first + Int.ofNat j)
            (E.parseIntegerValue ((f :: fs).getD j [])))
        else none) ∘ Nat.succ) (List.range fs.length)
      = List.filterMap (fun j =>
        if fs.getD j [] ≠ [] then
          some (MessageValue.scoreValue (first + 1 + Int.ofNat j)
            (E.parseIntegerValue (fs.getD j [])))
        else none) (List.range fs.length) := by
    congr 1
    funext j
    have hj : first + Int.ofNat (j + 1) = first + 1 + Int.ofNat j := by
      simp only [Int.ofNat_eq_coe, Nat.cast_add, Nat.cast_one]; ring
    simp only [Function.comp, Nat.succ_eq_add_one, List.getD_cons_succ, hj]
  rw [hrest]
  by_cases hf : f = []
  · subst hf
    simp
  · simp [hf]

/-- The text up to the first comma: either `all` is a field without comma, a comma and a
rest, and `span` finds them, or `all` has no comma and `span` returns it whole. -/
theorem span_comma (all : List Char) :
    (∃ field rest, all.span (fun c => decide (c ≠ ',')) = (field, ',' :: rest)
        ∧ all = field ++ ',' :: rest ∧ ',' ∉ field)
      ∨ (all.span (fun c => decide (c ≠ ',')) = (all, []) ∧ ',' ∉ all) := by
  induction all with
  | nil => right; simp
  | cons c cs ih =>
    by_cases hc : c = ','
    · left
      subst hc
      exact ⟨[], cs, by simp [List.span_eq_take_drop], by simp, by simp⟩
    · have hp : (fun c => decide (c ≠ ',')) c = true := by simp [hc]
      rcases ih with ⟨field, rest, h1, h2, h3⟩ | ⟨h1, h2⟩
      · left
        refine ⟨c :: field, rest, ?_, ?_, ?_⟩
        · simp only [List.span_eq_take_drop, Prod.mk.injEq] at h1 ⊢
          rw [List.takeWhile_cons_of_pos (p := fun c => decide (c ≠ ',')) hp,
            List.dropWhile_cons_of_pos (p := fun c => decide (c ≠ ',')) hp, h1.1, h1.2]
          exact ⟨rfl, rfl⟩
        · simp [h2]
        · simp only [List.mem_cons, not_or]
          exact ⟨fun h => hc h.symm, h3⟩
      · right
        refine ⟨?_, ?_⟩
        · simp only [List.span_eq_take_drop, Prod.mk.injEq] at h1 ⊢
          rw [List.takeWhile_cons_of_pos (p := fun c => decide (c ≠ ',')) hp,
            List.dropWhile_cons_of_pos (p := fun c => decide (c ≠ ',')) hp, h1.1, h1.2]
          exact ⟨rfl, rfl⟩
        · simp only [List.mem_cons, not_or]
          exact ⟨fun h => hc h.symm, h2⟩

/-- The `SCORE` loop, given fuel for more rounds than `all` has characters, adds the calls
for the fields of `all` between commas, counted from `pl`. -/
theorem scoreLoop_eq (E : MessageValueEnv) (fuel : Nat) :
    ∀ (all : List Char) (pl : Int) (vals : List MessageValue), all.length < fuel →
      scoreLoop E fuel all pl vals = vals ++ scoreCalls E pl (all.splitOn ',') := by
  induction fuel with
  | zero => intro all pl vals h; omega
  | succ fuel ih =>
    intro all pl vals hlen
    rcases span_comma all with ⟨field, rest, h1, h2, h3⟩ | ⟨h1, h2⟩
    · have hsplit : all.splitOn ',' = field :: rest.splitOn ',' := by
        rw [h2]
        exact List.splitOnP_first _ field (by
          intro x hx
          simp only [beq_iff_eq]
          intro hxe; exact h3 (hxe ▸ hx)) ',' (by simp) rest
      have hrest : rest.length < fuel := by
        have := congrArg List.length h2
        simp only [List.length_append, List.length_cons] at this
        omega
      unfold scoreLoop
      simp only [h1]
      rw [ih rest (pl + 1) _ hrest, hsplit, scoreCalls_cons]
      by_cases hf : field = []
      · simp [hf]
      · simp [hf]
    · have hsplit : all.splitOn ',' = [all] :=
        List.splitOnP_eq_single _ all (by
          intro x hx
          simp only [beq_iff_eq]
          intro hxe; exact h2 (hxe ▸ hx))
      unfold scoreLoop
      simp only [h1]
      rw [hsplit, scoreCalls_cons]
      by_cases hf : all = []
      · simp [hf, scoreCalls]
      · simp [hf, scoreCalls]

/-- The search of the "relative integer" case keeps the number of values. -/
theorem addToIntegerValue_length (mii : Nat) (delta : Int) :
    ∀ (vals r : List MessageValue), addToIntegerValue mii delta vals = some r →
      r.length = vals.length := by
  intro vals
  induction vals with
  | nil => intro r h; simp [addToIntegerValue] at h
  | cons v rest ih =>
    intro r h
    cases v with
    | integerValue index value =>
      simp only [addToIntegerValue] at h
      split_ifs at h with hi
      · cases h; rfl
      · rcases hr : addToIntegerValue mii delta rest with _ | r0
        · simp [hr] at h
        · simp only [hr, Option.map_some', Option.some.injEq] at h
          subst h
          simp [ih r0 hr]
    | stringValue index value =>
      simp only [addToIntegerValue] at h
      rcases hr : addToIntegerValue mii delta rest with _ | r0
      · simp [hr] at h
      · simp only [hr, Option.map_some', Option.some.injEq] at h
        subst h
        simp [ih r0 hr]
    | scoreValue player value =>
      simp only [addToIntegerValue] at h
      rcases hr : addToIntegerValue mii delta rest with _ | r0
      · simp [hr] at h
      · simp only [hr, Option.map_some', Option.some.injEq] at h
        subst h
        simp [ih r0 hr]
    | configurationValue key value =>
      simp only [addToIntegerValue] at h
      rcases hr : addToIntegerValue mii delta rest with _ | r0
      · simp [hr] at h
      · simp only [hr, Option.map_some', Option.some.injEq] at h
        subst h
        simp [ih r0 hr]

/-- A stored value is kept as itself. -/
theorem keptAs_refl (a : MessageValue) : a.keptAs a = true := by
  cases a <;> simp [MessageValue.keptAs]

/-- Being kept goes through two steps. -/
theorem keptAs_trans (a b c : MessageValue) (hab : a.keptAs b = true)
    (hbc : b.keptAs c = true) : a.keptAs c = true := by
  cases a <;> cases b <;> cases c <;> simp_all [MessageValue.keptAs]

/-- Values added at the end keep every stored value in its place. -/
theorem kept_append (vals extra : List MessageValue) (j : Nat) (a : MessageValue)
    (hj : vals[j]? = some a) :
    ∃ b, (vals ++ extra)[j]? = some b ∧ a.keptAs b = true := by
  have hlt : j < vals.length := by
    by_contra hge
    rw [List.getElem?_eq_none (by omega)] at hj
    cases hj
  exact ⟨a, by rw [List.getElem?_append_left hlt, hj], keptAs_refl a⟩

/-- The search of the "relative integer" case keeps every stored value in its place, up
to the number of an integer value. -/
theorem addToIntegerValue_kept (mii : Nat) (delta : Int) :
    ∀ (vals r : List MessageValue), addToIntegerValue mii delta vals = some r →
      ∀ (j : Nat) (a : MessageValue), vals[j]? = some a →
        ∃ b, r[j]? = some b ∧ a.keptAs b = true := by
  intro vals
  induction vals with
  | nil => intro r h; simp [addToIntegerValue] at h
  | cons v rest ih =>
    intro r h j a hj
    have hrec : ∀ r0, addToIntegerValue mii delta rest = some r0 →
        ∃ b, (v :: r0)[j]? = some b ∧ a.keptAs b = true := by
      intro r0 hr0
      cases j with
      | zero =>
        simp only [List.getElem?_cons_zero, Option.some.injEq] at hj
        subst hj
        exact ⟨v, by simp, keptAs_refl v⟩
      | succ j =>
        simp only [List.getElem?_cons_succ] at hj
        obtain ⟨b, hb1, hb2⟩ := ih r0 hr0 j a hj
        exact ⟨b, by simpa using hb1, hb2⟩
    cases v with
    | integerValue index value =>
      simp only [addToIntegerValue] at h
      split_ifs at h with hi
      · cases h
        cases j with
        | zero =>
          simp only [List.getElem?_cons_zero, Option.some.injEq] at hj
          subst hj
          exact ⟨.integerValue index (toInt32 (toUInt32 (value + delta))),
            List.getElem?_cons_zero, by simp [MessageValue.keptAs]⟩
        | succ j =>
          simp only [List.getElem?_cons_succ] at hj
          exact ⟨a, by simpa using hj, keptAs_refl a⟩
      · rcases hr : addToIntegerValue mii delta rest with _ | r0
        · simp [hr] at h
        · simp only [hr, Option.map_some', Option.some.injEq] at h
          subst h
          exact hrec r0 hr
    | stringValue index value =>
      simp only [addToIntegerValue] at h
      rcases hr : addToIntegerValue mii delta rest with _ | r0
      · simp [hr] at h
      · simp only [hr, Option.map_some', Option.some.injEq] at h
        subst h
        exact hrec r0 hr
    | scoreValue player value =>
      simp only [addToIntegerValue] at h
      rcases hr : addToIntegerValue mii delta rest with _ | r0
      · simp [hr] at h
      · simp only [hr, Option.map_some', Option.some.injEq] at h
        subst h
        exact hrec r0 hr
    | configurationValue key value =>
      simp only [addToIntegerValue] at h
      rcases hr : addToIntegerValue mii delta rest with _ | r0
      · simp [hr] at h
      · simp only [hr, Option.map_some', Option.some.injEq] at h
        subst h
        exact hrec r0 hr

/-- One round of the loop keeps the type, Id and turn of the record and removes none of
its values. -/
theorem processValue_header (E : MessageValueEnv) (values : List (List Char))
    (tpl : MessageTemplate) (skipSlot : Nat) (st : MessageInformation × List LogMessage)
    (i : Nat) :
    (processValue E values tpl skipSlot st i).1.objectType = st.1.objectType ∧
    (processValue E values tpl skipSlot st i).1.objectId = st.1.objectId ∧
    (processValue E values tpl skipSlot st i).1.turnNumber = st.1.turnNumber ∧
    st.1.values.length ≤ (processValue E values tpl skipSlot st i).1.values.length := by
  unfold processValue
  simp only
  repeat' split
  all_goals refine ⟨rfl, rfl, rfl, ?_⟩
  all_goals first
    | exact le_refl _
    | (rw [scoreLoop_eq E _ _ _ _ (Nat.lt_succ_self _)]; simp)
    | (rename_i hv; exact le_of_eq (addToIntegerValue_length _ _ _ _ hv).symm)
    | simp

/-- One round of the loop keeps every stored value of the record in its place, up to the
number of an integer value. -/
theorem processValue_kept (E : MessageValueEnv) (values : List (List Char))
    (tpl : MessageTemplate) (skipSlot : Nat) (st : MessageInformation × List LogMessage)
    (i : Nat) (j : Nat) (a : MessageValue) (hj : st.1.values[j]? = some a) :
    ∃ b, (processValue E values tpl skipSlot st i).1.values[j]? = some b ∧
      a.keptAs b = true := by
  unfold processValue
  simp only
  repeat' split
  all_goals first
    | exact ⟨a, hj, keptAs_refl a⟩
    | exact kept_append _ _ j a hj
    | (rw [scoreLoop_eq E _ _ _ _ (Nat.lt_succ_self _)]; exact kept_append _ _ j a hj)
    | (rename_i hv; exact addToIntegerValue_kept _ _ _ _ hv j a hj)

/-- One round of the loop for a variable whose name does not start with `+` or `-` only
adds values behind the stored ones. -/
theorem processValue_adds_behind (E : MessageValueEnv) (values : List (List Char))
    (tpl : MessageTemplate) (skipSlot : Nat) (st : MessageInformation × List LogMessage)
    (i : Nat) (hplus : (tpl.getVariableName i).head? ≠ some '+')
    (hminus : (tpl.getVariableName i).head? ≠ some '-') :
    st.1.values <+: (processValue E values tpl skipSlot st i).1.values := by
  unfold processValue
  simp only
  repeat' split
  all_goals first
    | exact List.prefix_refl _
    | exact List.prefix_append _ _
    | (rw [scoreLoop_eq E _ _ _ _ (Nat.lt_succ_self _)]; exact List.prefix_append _ _)
    | (exfalso; simp_all)

/-- The whole loop keeps the type, Id and turn of the record, removes none of its values
and keeps every stored value in its place, up to the number of an integer value; when no
variable name of the rounds starts with `+` or `-`, it only adds values behind the stored
ones. -/
theorem foldl_processValue_header (E : MessageValueEnv) (values : List (List Char))
    (tpl : MessageTemplate) (skipSlot : Nat) :
    ∀ (l : List Nat) (st : MessageInformation × List LogMessage),
      (l.foldl (processValue E values tpl skipSlot) st).1.objectType = st.1.objectType ∧
      (l.foldl (processValue E values tpl skipSlot) st).1.objectId = st.1.objectId ∧
      (l.foldl (processValue E values tpl skipSlot) st).1.turnNumber = st.1.turnNumber ∧
      st.1.values.length ≤ (l.foldl (processValue E values tpl skipSlot) st).1.values.length ∧
      (∀ (j : Nat) (a : MessageValue), st.1.values[j]? = some a →
        ∃ b, (l.foldl (processValue E values tpl skipSlot) st).1.values[j]? = some b ∧
          a.keptAs b = true) ∧
      ((∀ i ∈ l, (tpl.getVariableName i).head? ≠ some '+' ∧
          (tpl.getVariableName i).head? ≠ some '-') →
        st.1.values <+: (l.foldl (processValue E values tpl skipSlot) st).1.values) := by
  intro l
  induction l with
  | nil =>
    intro st
    exact ⟨rfl, rfl, rfl, le_refl _, fun j a hj => ⟨a, hj, keptAs_refl a⟩,
      fun _ => List.prefix_refl _⟩
  | cons i rest ih =>
    intro st
    rw [List.foldl_cons]
    obtain ⟨a1, a2, a3, a4, a5, a6⟩ := ih (processValue E values tpl skipSlot st i)
    obtain ⟨b1, b2, b3, b4⟩ := processValue_header E values tpl skipSlot st i
    refine ⟨a1.trans b1, a2.trans b2, a3.trans b3, le_trans b4 a4, ?_, ?_⟩
    · intro j a hj
      obtain ⟨b, hb1, hb2⟩ := processValue_kept E values tpl skipSlot st i j a hj
      obtain ⟨c, hc1, hc2⟩ := a5 j b hb1
      exact ⟨c, hc1, keptAs_trans a b c hb2 hc2⟩
    · intro hall
      have hi := hall i (List.mem_cons_self _ _)
      exact List.IsPrefix.trans (processValue_adds_behind E values tpl skipSlot st i hi.1 hi.2)
        (a6 (fun k hk => hall k (List.mem_cons_of_mem _ hk)))

/-- The second half of `generateOutput`: when merging is allowed and the last record of
`info` has the type, Id and turn of the message, that record is replaced by one with the
same type, Id and turn that keeps every stored value in its place (up to the number of an
integer value, and exactly when no variable name starts with `+` or `-`); otherwise one
record with the type, Id and turn of the message is added at the end. -/
theorem produceValues_info (E : MessageValueEnv) (values : List (List Char))
    (tpl : MessageTemplate) (turnNr : Int) (info : List MessageInformation)
    (log : List LogMessage) (id : Int) (mergeable : Bool) (skipSlot : Nat) :
    ((mergeable = true ∧ info.getLast?.map (fun last => decide (last.objectType = tpl.getMessageType
          ∧ last.objectId = id ∧ last.turnNumber = turnNr)) = some true) →
      ∃ last r, info.getLast? = some last ∧
        (produceValues E values tpl turnNr info log id mergeable skipSlot).1
          = info.dropLast ++ [r] ∧
        r.objectType = last.objectType ∧ r.objectId = last.objectId ∧
        r.turnNumber = last.turnNumber ∧ last.values.length ≤ r.values.length ∧
        (∀ (j : Nat) (a : MessageValue), last.values[j]? = some a →
          ∃ b, r.values[j]? = some b ∧ a.keptAs b = true) ∧
        ((∀ i, (tpl.getVariableName i).head? ≠ some '+' ∧
            (tpl.getVariableName i).head? ≠ some '-') → last.values <+: r.values)) ∧
    (¬ (mergeable = true ∧ info.getLast?.map (fun last => decide (last.objectType = tpl.getMessageType
          ∧ last.objectId = id ∧ last.turnNumber = turnNr)) = some true) →
      ∃ r, (produceValues E values tpl turnNr info log id mergeable skipSlot).1 = info ++ [r] ∧
        r.objectType = tpl.getMessageType ∧ r.objectId = id ∧ r.turnNumber = turnNr) := by
  constructor
  · rintro ⟨hm, hl⟩
    rcases hlast : info.getLast? with _ | last
    · simp [hlast] at hl
    · simp only [hlast, Option.map_some', Option.some.injEq, decide_eq_true_eq] at hl
      have hmerged : (match info.getLast? with
          | some back =>
            if mergeable = true ∧ back.objectType = tpl.getMessageType ∧ back.objectId = id
                ∧ back.turnNumber = turnNr then some back else none
          | none => none) = some last := by
        rw [hlast]
        exact if_pos ⟨hm, hl⟩
      unfold produceValues
      simp only [hmerged, Option.isSome_some, if_true, Option.getD_some]
      split_ifs with ha
      · exact ⟨last, last, rfl, rfl, rfl, rfl, rfl, le_refl _,
          fun j a hj => ⟨a, hj, keptAs_refl a⟩, fun _ => List.prefix_refl _⟩
      · obtain ⟨a1, a2, a3, a4, a5, a6⟩ := foldl_processValue_header E values tpl skipSlot
          (List.range (min values.length tpl.getNumVariables)) (last, log)
        exact ⟨last, _, rfl, rfl, a1, a2, a3, a4, a5, fun hall => a6 (fun i _ => hall i)⟩
  · intro hn
    have hmerged : (match info.getLast? with
        | some back =>
          if mergeable = true ∧ back.objectType = tpl.getMessageType ∧ back.objectId = id
              ∧ back.turnNumber = turnNr then some back else none
        | none => none) = none := by
      rcases hlast : info.getLast? with _ | last
      · rfl
      · simp only [hlast, Option.map_some', Option.some.injEq, decide_eq_true_eq] at hn
        simp only
        rw [if_neg]
        intro hc
        exact hn ⟨hc.1, hc.2⟩
    unfold produceValues
    simp only [hmerged, Option.isSome_none, Bool.false_eq_true, if_false, Option.getD_none]
    split_ifs with ha
    · exact ⟨_, rfl, rfl, rfl, rfl⟩
    · obtain ⟨a1, a2, a3, _⟩ := foldl_processValue_header E values tpl skipSlot
        (List.range (min values.length tpl.getNumVariables))
        (⟨tpl.getMessageType, id, turnNr, []⟩, log)
      exact ⟨_, rfl, a1, a2, a3⟩

/-- The two ways through `generateOutput`: a message of a type with mandatory Id whose Id
is not positive leaves `info` as it was; every other message goes through the second half
with the Id of the message, merging allowed exactly for the mergeable kinds. -/
theorem generateOutput_cases (E : MessageValueEnv) (values : List (List Char))
    (tpl : MessageTemplate) (turnNr : Int) (info : List MessageInformation)
    (log : List LogMessage) (info' : List MessageInformation) (log' : List LogMessage)
    (h : generateOutput E values tpl turnNr info log = some (info', log')) :
    (hasMandatoryId tpl.getMessageType = true ∧ outputId E values tpl ≤ 0 ∧ info' = info) ∨
    (¬ (hasMandatoryId tpl.getMessageType = true ∧ outputId E values tpl ≤ 0) ∧
      ∃ mergeable skipSlot,
        info' = (produceValues E values tpl turnNr info log (outputId E values tpl)
          mergeable skipSlot).1 ∧
        (mergeable = true ↔
          ((hasMandatoryId tpl.getMessageType = true ∧ 0 < outputId E values tpl)
            ∨ (tpl.getMessageType = .PlayerScore ∧ outputId E values tpl ≠ 0)
            ∨ tpl.getMessageType = .Configuration))) := by
  unfold generateOutput at h
  unfold outputId
  rcases hr : readId E values tpl with _ | ⟨id, skipSlot⟩ <;>
    rcases hty : tpl.getMessageType <;>
    simp only [hty, hr, hasMandatoryId] at h ⊢ <;>
    first
    | exact Option.noConfusion h
    | (simp only [Option.some.injEq] at h
       right
       refine ⟨?_, _, _, (congrArg Prod.fst h).symm, ?_⟩
       · simp
       · simp)
    | (split_ifs at h <;> simp only [Option.some.injEq] at h <;>
        first
        | (left; refine ⟨trivial, ?_, (congrArg Prod.fst h).symm⟩; omega)
        | (right
           refine ⟨?_, _, _, (congrArg Prod.fst h).symm, ?_⟩
           · simp only [true_and]; omega
           · simp; omega))

/-- Claim C23. When `generateOutput` returns, the list `info` has changed in one of three
ways. For a type with mandatory Id (Ship, Minefield, Planet, Starbase, IonStorm) whose
parsed Id is not positive, it is unchanged. Otherwise, when the kind is mergeable (such a
type with Id > 0, PlayerScore with Id != 0, or Configuration), `info` is not empty and its
last record has the type, Id and turn of the message, the last record is extended: it is
replaced by a record `r` of the same type, Id and turn, in which every value stored before
is still in its place (an integer value possibly with its number changed by a variable
named `+KEY` or `-KEY`; with no such variable name in the template the stored values are
exactly the first values of `r`) and the new values follow; the records before it stay.
In every other case one record with the template's type, the Id and the turn number is
added after the unchanged list. -/
theorem generateOutput_info_change (E : MessageValueEnv) (values : List (List Char))
    (tpl : MessageTemplate) (turnNr : Int) (info : List MessageInformation)
    (log : List LogMessage) (info' : List MessageInformation) (log' : List LogMessage)
    (h : generateOutput E values tpl turnNr info log = some (info', log')) :
    ((hasMandatoryId tpl.getMessageType = true ∧ outputId E values tpl ≤ 0) → info' = info) ∧
    (¬ (hasMandatoryId tpl.getMessageType = true ∧ outputId E values tpl ≤ 0) →
      (extendsLastRecord E values tpl turnNr info = true →
        ∃ last r, info.getLast? = some last ∧ info' = info.dropLast ++ [r] ∧
          r.objectType = last.objectType ∧ r.objectId = last.objectId ∧
          r.turnNumber = last.turnNumber ∧ last.values.length ≤ r.values.length ∧
          (∀ (j : Nat) (a : MessageValue), last.values[j]? = some a →
            ∃ b, r.values[j]? = some b ∧ a.keptAs b = true) ∧
          ((∀ i, (tpl.getVariableName i).head? ≠ some '+' ∧
              (tpl.getVariableName i).head? ≠ some '-') → last.values <+: r.values)) ∧
      (extendsLastRecord E values tpl turnNr info = false →
        ∃ r, info' = info ++ [r] ∧ r.objectType = tpl.getMessageType ∧
          r.objectId = outputId E values tpl ∧ r.turnNumber = turnNr)) := by
  rcases generateOutput_cases E values tpl turnNr info log info' log' h with
    ⟨hm, hid, hinfo⟩ | ⟨hn, mergeable, skipSlot, hinfo, hmerge⟩
  · exact ⟨fun _ => hinfo, fun hneg => absurd ⟨hm, hid⟩ hneg⟩
  · refine ⟨fun hc => absurd hc hn, fun _ => ?_⟩
    obtain ⟨p1, p2⟩ := produceValues_info E values tpl turnNr info log
      (outputId E values tpl) mergeable skipSlot
    constructor
    · intro he
      unfold extendsLastRecord at he
      simp only [decide_eq_true_eq] at he
      obtain ⟨hk, _, hlast⟩ := he
      rw [hinfo]
      exact p1 ⟨hmerge.mpr hk, hlast⟩
    · intro he
      rw [hinfo]
      apply p2
      rintro ⟨hmt, hl⟩
      have hne : info ≠ [] := by
        intro hnil
        rw [hnil] at hl
        simp at hl
      have ht : extendsLastRecord E values tpl turnNr info = true := by
        unfold extendsLastRecord
        simp only [decide_eq_true_eq]
        exact ⟨hmerge.mp hmt, hne, hl⟩
      rw [ht] at he
      cases he

/-- Claim C23 at concrete messages of a Planet template with the variables `ID` and `MASS`:
with Id 0 the list stays as it was; with Id 7, turn 10 and a last record for planet 7 of
turn 10 that record keeps its value and gets the new one behind it; with a last record
for planet 8 a new record for planet 7 is added. With a third variable `+MASS` the stored
mass of the last record is raised in place and the new values follow. -/
theorem generateOutput_info_change_witness :
    (generateOutput exampleValueEnv [['0'], ['9']] planetTemplate 10
        [⟨.Planet, 7, 10, [.integerValue 0 5]⟩] []
      = some ([⟨.Planet, 7, 10, [.integerValue 0 5]⟩], [.noId ['p']])) ∧
    (generateOutput exampleValueEnv [['7'], ['9']] planetTemplate 10
        [⟨.Planet, 3, 10, []⟩, ⟨.Planet, 7, 10, [.integerValue 0 5]⟩] []
      = some ([⟨.Planet, 3, 10, []⟩,
          ⟨.Planet, 7, 10, [.integerValue 0 5, .integerValue 0 9]⟩], [])) ∧
    (∃ last r, [(⟨.Planet, 3, 10, []⟩ : MessageInformation),
          ⟨.Planet, 7, 10, [.integerValue 0 5]⟩].getLast? = some last ∧
        [(⟨.Planet, 3, 10, []⟩ : MessageInformation),
          ⟨.Planet, 7, 10, [.integerValue 0 5, .integerValue 0 9]⟩]
          = [(⟨.Planet, 3, 10, []⟩ : MessageInformation),
              ⟨.Planet, 7, 10, [.integerValue 0 5]⟩].dropLast ++ [r] ∧
        r.objectType = last.objectType ∧ r.objectId = last.objectId ∧
        r.turnNumber = last.turnNumber ∧ last.values.length ≤ r.values.length ∧
        (∀ (j : Nat) (a : MessageValue), last.values[j]? = some a →
          ∃ b, r.values[j]? = some b ∧ a.keptAs b = true) ∧
        ((∀ i, (planetTemplate.getVariableName i).head? ≠ some '+' ∧
            (planetTemplate.getVariableName i).head? ≠ some '-') →
          last.values <+: r.values)) ∧
    (generateOutput exampleValueEnv [['7'], ['9']] planetTemplate 10
        [⟨.Planet, 8, 10, [.integerValue 0 5]⟩] []
      = some ([⟨.Planet, 8, 10, [.integerValue 0 5]⟩,
          ⟨.Planet, 7, 10, [.integerValue 0 9]⟩], [])) ∧
    (generateOutput exampleValueEnv [['7'], [], ['2']] planetDeltaTemplate 10
        [⟨.Planet, 7, 10, [.stringValue 0 ['x'], .integerValue 0 5]⟩] []
      = some ([⟨.Planet, 7, 10, [.stringValue 0 ['x'], .integerValue 0 7]⟩], [])) :=
  ⟨by decide, by decide,
   ((generateOutput_info_change exampleValueEnv [['7'], ['9']] planetTemplate 10
      [⟨.Planet, 3, 10, []⟩, ⟨.Planet, 7, 10, [.integerValue 0 5]⟩] []
      [⟨.Planet, 3, 10, []⟩, ⟨.Planet, 7, 10, [.integerValue 0 5, .integerValue 0 9]⟩] []
      (by decide)).2 (by decide)).1 (by decide),
   by decide, by decide⟩

/-! ## Lemmas: `IFRAdd` -/

/-- The loop of `IFRAdd` returns null when an argument is null, and otherwise a rich text
whose text is the text collected so far followed by the texts of the arguments in order. -/
theorem IFRAdd_loop_spec (toString : Value → Bool → List Nat)
    (append : RichText → RichText → RichText)
    (happend : ∀ a b, (append a b).text = a.text ++ b.text) :
    ∀ (args : List (Option ScriptValue)) (result : RichText),
      (none ∈ args → IFRAdd_loop toString append args result = none) ∧
      (none ∉ args → ∃ t, IFRAdd_loop toString append args result = some (.RichTextValue t) ∧
        t.text = result.text ++ (args.map (argumentText toString)).flatten) := by
  intro args
  induction args with
  | nil =>
    intro result
    exact ⟨fun h => absurd h (List.not_mem_nil _), fun _ => ⟨result, rfl, by simp⟩⟩
  | cons a rest ih =>
    intro result
    cases a with
    | none =>
      exact ⟨fun _ => rfl, fun h => absurd (List.mem_cons_self _ _) h⟩
    | some v =>
      have hcheck : ∃ tmp, checkRichArg toString (some v) = some tmp ∧
          tmp.text = argumentText toString (some v) := by
        cases v with
        | RichTextValue t => exact ⟨t, rfl, rfl⟩
        | other w => exact ⟨_, rfl, rfl⟩
      obtain ⟨tmp, hc, htext⟩ := hcheck
      have hstep : IFRAdd_loop toString append (some v :: rest) result
          = IFRAdd_loop toString append rest (append result tmp) := by
        simp only [IFRAdd_loop, hc]
      obtain ⟨i1, i2⟩ := ih (append result tmp)
      constructor
      · intro hmem
        rw [hstep]
        apply i1
        rcases List.mem_cons.mp hmem with hh | hh
        · cases hh
        · exact hh
      · intro hmem
        rw [hstep]
        obtain ⟨t, ht1, ht2⟩ := i2 (fun hh => hmem (List.mem_cons_of_mem _ hh))
        refine ⟨t, ht1, ?_⟩
        rw [ht2, happend, htext, List.map_cons, List.flatten_cons, List.append_assoc]

/-- Claim C21. `IFRAdd` returns EMPTY (null) when at least one of its arguments is EMPTY;
called without arguments it returns a rich text of length zero; when no argument is EMPTY
it returns a rich text whose text is the concatenation, in argument order, of the texts of
all arguments, a non-rich argument contributing `toString(value, false)`. The operator
`+=` is taken to put the text of its right operand after the text of its left one. -/
theorem IFRAdd_spec (toString : Value → Bool → List Nat)
    (append : RichText → RichText → RichText)
    (happend : ∀ a b, (append a b).text = a.text ++ b.text)
    (args : List (Option ScriptValue)) :
    (none ∈ args → IFRAdd toString append args = none) ∧
    (∃ t, IFRAdd toString append [] = some (.RichTextValue t) ∧ t.size = 0) ∧
    (none ∉ args → ∃ t, IFRAdd toString append args = some (.RichTextValue t) ∧
      t.text = (args.map (argumentText toString)).flatten) := by
  have hgen : ∀ l : List (Option ScriptValue),
      (none ∈ l → IFRAdd_loop toString append l ⟨[], []⟩ = none) ∧
      (none ∉ l → ∃ t, IFRAdd_loop toString append l ⟨[], []⟩ = some (.RichTextValue t) ∧
        t.text = (l.map (argumentText toString)).flatten) := by
    intro l
    obtain ⟨g1, g2⟩ := IFRAdd_loop_spec toString append happend l ⟨[], []⟩
    refine ⟨g1, fun h => ?_⟩
    obtain ⟨t, ht1, ht2⟩ := g2 h
    exact ⟨t, ht1, by rw [ht2]; rfl⟩
  refine ⟨?_, ⟨⟨[], []⟩, rfl, rfl⟩, ?_⟩
  · intro hmem
    match args, hmem with
    | [], hmem => exact absurd hmem (List.not_mem_nil _)
    | [a], hmem =>
      have ha : a = none := by
        rcases List.mem_cons.mp hmem with hh | hh
        · exact hh.symm
        · exact absurd hh (List.not_mem_nil _)
      subst ha
      rfl
    | a :: b :: rest, hmem => exact (hgen (a :: b :: rest)).1 hmem
  · intro hmem
    match args, hmem with
    | [], hmem => exact (hgen []).2 hmem
    | [a], hmem =>
      cases a with
      | none => exact absurd (List.mem_cons_self _ _) hmem
      | some v =>
        cases v with
        | RichTextValue t => exact ⟨t, rfl, by simp [argumentText]⟩
        | other w => exact ⟨⟨toString w false, []⟩, rfl, by simp [argumentText]⟩
    | a :: b :: rest, hmem => exact (hgen (a :: b :: rest)).2 hmem

/-- Claim C21 at concrete arguments: a rich text `ab` with an attribute, the string `c` and
the integer 7 give the text `abc7`; with an EMPTY argument in between the result is EMPTY;
a single string argument gives a rich text with the text of the string. -/
theorem IFRAdd_spec_witness :
    (∀ a b, (RichText.append a b).text = a.text ++ b.text) ∧
    IFRAdd exampleToString RichText.append
        [some (.RichTextValue ⟨[97, 98], [(0, 1, "b")]⟩), some (.other (.StringValue [99])),
          some (.other (.IntegerValue 7))]
      = some (.RichTextValue ⟨[97, 98, 99, 55], [(0, 1, "b")]⟩) ∧
    (∃ t, IFRAdd exampleToString RichText.append
        [some (.RichTextValue ⟨[97, 98], [(0, 1, "b")]⟩), some (.other (.StringValue [99])),
          some (.other (.IntegerValue 7))] = some (.RichTextValue t) ∧
      t.text = ([some (.RichTextValue ⟨[97, 98], [(0, 1, "b")]⟩),
          some (.other (.StringValue [99])), some (.other (.IntegerValue 7))].map
            (argumentText exampleToString)).flatten) ∧
    IFRAdd exampleToString RichText.append
        [some (.RichTextValue ⟨[97, 98], []⟩), none, some (.other (.StringValue [99]))] = none ∧
    IFRAdd exampleToString RichText.append [some (.other (.StringValue [99]))]
      = some (.RichTextValue ⟨[99], []⟩) ∧
    IFRAdd exampleToString RichText.append [] = some (.RichTextValue ⟨[], []⟩) :=
  ⟨fun _ _ => rfl, by decide,
   (IFRAdd_spec exampleToString RichText.append (fun _ _ => rfl)
      [some (.RichTextValue ⟨[97, 98], [(0, 1, "b")]⟩), some (.other (.StringValue [99])),
        some (.other (.IntegerValue 7))]).2.2 (by decide),
   by decide, by decide, by decide⟩

/-- Claim C22. In `RXml(xml, args...)` the XML is read with an entity handler that holds
the arguments after `xml`, in order. With this handler an entity reference whose name is a
number `n` (for `strToInteger`) expands to `toString(args[n], false)`, the first argument
after `xml` being number 0, and to the empty string when `n` is not smaller than the
number of these arguments; a name that is not a number is expanded by the default entity
handler. -/
theorem IFRXml_entity_references (toString : Option ScriptValue → Bool → List Nat)
    (strToInteger : List Nat → Option Nat) (defaultExpandEntityReference : List Nat → List Nat)
    (checkStringArg : Option ScriptValue → Except Exception (Option (List Nat)))
    (parse : List Nat → (List Nat → List Nat) → Except Exception RichText)
    (argumentError : Exception) (xml : Option ScriptValue) (args : List (Option ScriptValue))
    (name : List Nat) :
    (∀ text, checkStringArg xml = .ok (some text) →
      IFRXml toString strToInteger defaultExpandEntityReference checkStringArg parse
          argumentError (xml :: args)
        = (parse text (MyEntityHandler.expandEntityReference toString strToInteger
            defaultExpandEntityReference args)).map (fun result => some (.RichTextValue result))) ∧
    (∀ n, strToInteger name = some n →
      (∀ value, args[n]? = some value →
        MyEntityHandler.expandEntityReference toString strToInteger
          defaultExpandEntityReference args name = toString value false) ∧
      (args.length ≤ n →
        MyEntityHandler.expandEntityReference toString strToInteger
          defaultExpandEntityReference args name = [])) ∧
    (strToInteger name = none →
      MyEntityHandler.expandEntityReference toString strToInteger
        defaultExpandEntityReference args name = defaultExpandEntityReference name) := by
  refine ⟨?_, ?_, ?_⟩
  · intro text htext
    simp only [IFRXml, htext]
    cases parse text (MyEntityHandler.expandEntityReference toString strToInteger
      defaultExpandEntityReference args) <;> rfl
  · intro n hn
    constructor
    · intro value hvalue
      have hlt : n < args.length := by
        rcases Nat.lt_or_ge n args.length with hlt | hge
        · exact hlt
        · rw [List.getElem?_eq_none hge] at hvalue
          cases hvalue
      simp only [MyEntityHandler.expandEntityReference, hn, if_pos hlt, List.getD_eq_getElem?_getD,
        hvalue, Option.getD_some]
    · intro hge
      simp only [MyEntityHandler.expandEntityReference, hn, if_neg (Nat.not_lt.mpr hge)]
  · intro hn
    simp only [MyEntityHandler.expandEntityReference, hn]

/-- The entity handler of `RXml` at concrete arguments `red` and `great` after the XML
text: `&0;` expands to `red`, `&1;` to `great`, `&2;` to nothing, `&lt;` is left to the
default handler; and a run of `IFRXml` on the text `&1;` reaches the handler. -/
theorem IFRXml_entity_references_example :
    MyEntityHandler.expandEntityReference exampleToStringAny exampleStrToInteger
        exampleDefaultEntity
        [some (.other (.StringValue [114, 101, 100])),
          some (.other (.StringValue [103, 114, 101, 97, 116]))] [48] = [114, 101, 100] ∧
    MyEntityHandler.expandEntityReference exampleToStringAny exampleStrToInteger
        exampleDefaultEntity
        [some (.other (.StringValue [114, 101, 100])),
          some (.other (.StringValue [103, 114, 101, 97, 116]))] [49]
      = [103, 114, 101, 97, 116] ∧
    MyEntityHandler.expandEntityReference exampleToStringAny exampleStrToInteger
        exampleDefaultEntity
        [some (.other (.StringValue [114, 101, 100])),
          some (.other (.StringValue [103, 114, 101, 97, 116]))] [50] = [] ∧
    MyEntityHandler.expandEntityReference exampleToStringAny exampleStrToInteger
        exampleDefaultEntity
        [some (.other (.StringValue [114, 101, 100])),
          some (.other (.StringValue [103, 114, 101, 97, 116]))] [108, 116] = [60] ∧
    IFRXml exampleToStringAny exampleStrToInteger exampleDefaultEntity
        (fun v => .ok (some (exampleToStringAny v false))) exampleParse (.error "argument count")
        [some (.other (.StringValue [38, 49, 59])),
          some (.other (.StringValue [114, 101, 100])),
          some (.other (.StringValue [103, 114, 101, 97, 116]))]
      = .ok (some (.RichTextValue ⟨[103, 114, 101, 97, 116], []⟩)) := by
  refine ⟨by decide, by decide, by decide, by decide, by rfl⟩

end C2ng
